import Mathlib

/-! # mediasoup worker: RTP listener, NACK feedback item, remote bitrate estimator

A shallow embedding of three parts of the worker:

* `worker/src/RTC/RtpListener.cpp`: the three demultiplexing tables (`ssrcTable`,
  `muxIdTable`, `ptTable`) and the operations `AddRtpReceiver`, `RemoveRtpReceiver`,
  `GetRtpReceiver` and `RollbackRtpReceiver`;
* `worker/src/RTC/RTCP/FeedbackRtpNack.cpp`: the NACK item, its constructor, `Parse` and
  `Serialize`;
* `worker/src/RTC/RemoteBitrateEstimator/RemoteBitrateEstimatorAbsSendTime.cpp`: the probe
  clusters, `ProcessClusters` and `IncomingPacketInfo`.

Receivers are referred to by pointer in the source; here a pointer is a natural number
and the receiver objects are a function from pointers to their `RtpParameters`
(what `rtpReceiver->GetParameters()` returns).  `uint32_t` ssrcs and `uint8_t` payload
types are natural numbers: the listener never does arithmetic on them.
-/

namespace RTC

/-! ## Definitions -/

/-! ### `std::unordered_map` with receiver pointers as values -/

/-- First value stored under key `k` in a list of entries (`find` on the raw entries). -/
def rawFind {K : Type} [DecidableEq K] (k : K) : List (K × Nat) → Option Nat
  | [] => none
  | e :: es => if e.1 = k then some e.2 else rawFind k es

/-- The raw entries after `table[k] = v`: an existing entry is overwritten in place, a
missing one is created. -/
def rawAssign {K : Type} [DecidableEq K] (k : K) (v : Nat) : List (K × Nat) → List (K × Nat)
  | [] => [(k, v)]
  | e :: es => if e.1 = k then (k, v) :: es else e :: rawAssign k v es

/-- A `std::unordered_map<K, RtpReceiver*>`: its entries in iteration order, with pairwise
distinct keys. -/
structure Table (K : Type) [DecidableEq K] where
  entries : List (K × Nat)
  nodup : (entries.map Prod.fst).Nodup

namespace Table

variable {K : Type} [DecidableEq K]

/-- The empty table. -/
def empty : Table K := ⟨[], List.nodup_nil⟩

/-- Lookup `table.find(k)`: the receiver stored under `k`, `none` for `end()`. -/
def find (t : Table K) (k : K) : Option Nat := rawFind k t.entries

/-- Assignment `table[k] = v`. -/
def assign (t : Table K) (k : K) (v : Nat) : Table K :=
  ⟨rawAssign k v t.entries, by
    have keys : ∀ es : List (K × Nat), (rawAssign k v es).map Prod.fst =
        if k ∈ es.map Prod.fst then es.map Prod.fst else es.map Prod.fst ++ [k] := by
      intro es
      induction es with
      | nil => simp [rawAssign]
      | cons e es ih =>
        by_cases h : e.1 = k
        · simp [rawAssign, h]
        · have hne : ¬ k = e.1 := fun hc => h hc.symm
          by_cases hm : k ∈ es.map Prod.fst
          · simp only [rawAssign, h, if_false, List.map_cons, ih, hm, if_true, List.mem_cons,
              or_true]
          · simp only [rawAssign, h, if_false, List.map_cons, ih, hm, List.mem_cons, hne,
              or_self, List.cons_append]
    rw [keys]
    split
    · exact t.nodup
    · next hk =>
      rw [List.nodup_append]
      refine ⟨t.nodup, List.nodup_singleton k, ?_⟩
      intro a ha hb
      rw [List.mem_singleton] at hb
      exact hk (hb ▸ ha)⟩

/-- The erase loop `for (it = begin; it != end;) if (it->second == r) it = erase(it); else ++it`:
every entry whose value is `r` is erased. -/
def eraseValue (t : Table K) (r : Nat) : Table K :=
  ⟨t.entries.filter (fun e => decide (e.2 ≠ r)),
    List.Nodup.sublist (List.Sublist.map _ (List.filter_sublist t.entries)) t.nodup⟩

/-- The collecting loop `for (kv : table) if (kv.second == r) previous.push_back(kv.first)`. -/
def keysOf (t : Table K) (r : Nat) : List K :=
  (t.entries.filter (fun e => decide (e.2 = r))).map Prod.fst

/-- The searching loop `for (kv : table) if (kv.second == r) { previous = kv.first; break; }`:
the key of the first entry whose value is `r`. -/
def firstKeyOf (t : Table K) (r : Nat) : Option K :=
  (t.entries.find? (fun e => decide (e.2 = r))).map Prod.fst

/-- The key `k` is taken by a receiver other than `r`. -/
def other (t : Table K) (k : K) (r : Nat) : Bool :=
  match t.find k with
  | none => false
  | some existing => decide (existing ≠ r)

/-- Checked insertion of a list of keys for receiver `r`: stops at the first key taken by
another receiver and reports that key and the table reached. -/
def insertAll (r : Nat) : List K → Table K → Except (K × Table K) (Table K)
  | [], t => .ok t
  | k :: ks, t => if !t.other k r then insertAll r ks (t.assign k r) else .error (k, t)

end Table

/-! ### Receivers, parameters and packets -/

/-- Modelled from the spec: `RtpCodecParameters` is declared in `RTC/RtpParameters.hpp`, which
is not part of the sources at hand.  The listener reads only `payloadType` (a `uint8_t`). -/
structure RtpCodecParameters where
  payloadType : Nat
  deriving DecidableEq, Repr

/-- Modelled from the spec: the `rtx` member of an encoding; the listener reads `rtx.ssrc`. -/
structure RtpRtxParameters where
  ssrc : Nat
  deriving DecidableEq, Repr

/-- Modelled from the spec: the `fec` member of an encoding; the listener reads `fec.ssrc`. -/
structure RtpFecParameters where
  ssrc : Nat
  deriving DecidableEq, Repr

/-- Modelled from the spec: `RtpEncodingParameters`, with the members the listener reads.  An
ssrc that is not given is `0`. -/
structure RtpEncodingParameters where
  ssrc : Nat
  hasRtx : Bool
  rtx : RtpRtxParameters
  hasFec : Bool
  fec : RtpFecParameters
  deriving DecidableEq, Repr

/-- Modelled from the spec: `RtpParameters`, with the members the listener reads: the muxId
(empty when absent), the ordered codecs and the ordered encodings. -/
structure RtpParameters where
  muxId : String
  codecs : List RtpCodecParameters
  encodings : List RtpEncodingParameters
  deriving DecidableEq, Repr

/-- Modelled from the spec: an `RtpPacket`, as far as the listener reads it: `GetSsrc()` and
`GetPayloadType()`. -/
structure RtpPacket where
  ssrc : Nat
  payloadType : Nat
  deriving DecidableEq, Repr

/-- The receiver objects: `recv r` is what `r->GetParameters()` returns for the receiver at
address `r`.  `AddRtpReceiver` asserts that the parameters exist, so they are total here. -/
abbrev Receivers := Nat → RtpParameters

/-! ### The listener -/

/-- The members of `RtpListener`: the three tables. -/
structure RtpListener where
  ssrcTable : Table Nat
  muxIdTable : Table String
  ptTable : Table Nat

/-- What `MS_THROW_ERROR` throws in `AddRtpReceiver`, by message. -/
inductive MediaSoupError where
  | ssrcExists (ssrc : Nat)
  | muxIdExists (muxId : String)
  | payloadTypeExists (payloadType : Nat)
  deriving DecidableEq, Repr

/-- How a call of a throwing method ends: it returns, or it throws; either way the listener
is left in some state. -/
inductive Result where
  | returned (listener : RtpListener)
  | threw (error : MediaSoupError) (listener : RtpListener)

namespace Result

/-- The listener state the call leaves behind. -/
def listener : Result → RtpListener
  | returned l => l
  | threw _ l => l

/-- Sequencing of statements: the rest runs only when nothing was thrown. -/
def andThen (r : Result) (rest : RtpListener → Result) : Result :=
  match r with
  | returned l => rest l
  | threw e l => threw e l

end Result

namespace RtpListener

/-- A listener with three empty tables. -/
def empty : RtpListener := ⟨Table.empty, Table.empty, Table.empty⟩

/-- Modelled from the spec: `HasSsrc` is an inline member defined in `RTC/RtpListener.hpp`,
which is not part of the sources at hand.  A key is a collision only when it already maps
to a receiver other than the given one. -/
def HasSsrc (l : RtpListener) (ssrc : Nat) (rtpReceiver : Nat) : Bool :=
  match l.ssrcTable.find ssrc with
  | none => false
  | some existing => decide (existing ≠ rtpReceiver)

/-- Modelled from the spec: `HasMuxId`, missing like `HasSsrc`; same collision rule on the
muxId table. -/
def HasMuxId (l : RtpListener) (muxId : String) (rtpReceiver : Nat) : Bool :=
  match l.muxIdTable.find muxId with
  | none => false
  | some existing => decide (existing ≠ rtpReceiver)

/-- Modelled from the spec: `HasPayloadType`, missing like `HasSsrc`; same collision rule on
the payload type table. -/
def HasPayloadType (l : RtpListener) (payloadType : Nat) (rtpReceiver : Nat) : Bool :=
  match l.ptTable.find payloadType with
  | none => false
  | some existing => decide (existing ≠ rtpReceiver)

/-- `RtpListener::RemoveRtpReceiver`: three erase loops. -/
def RemoveRtpReceiver (l : RtpListener) (rtpReceiver : Nat) : RtpListener :=
  { ssrcTable := l.ssrcTable.eraseValue rtpReceiver
    muxIdTable := l.muxIdTable.eraseValue rtpReceiver
    ptTable := l.ptTable.eraseValue rtpReceiver }

/-- `RtpListener::RollbackRtpReceiver`. -/
def RollbackRtpReceiver (l : RtpListener) (rtpReceiver : Nat) (previousSsrcs : List Nat)
    (previousMuxId : String) (previousPayloadTypes : List Nat) : RtpListener :=
  { ssrcTable := previousSsrcs.foldl (fun t ssrc => t.assign ssrc rtpReceiver) l.ssrcTable
    muxIdTable :=
      if previousMuxId ≠ "" then l.muxIdTable.assign previousMuxId rtpReceiver else l.muxIdTable
    ptTable :=
      previousPayloadTypes.foldl (fun t payloadType => t.assign payloadType rtpReceiver)
        l.ptTable }

/-- The saved entries `previousSsrcs`, `previousMuxId`, `previousPayloadTypes` that
`AddRtpReceiver` hands to every rollback. -/
structure Previous where
  ssrcs : List Nat
  muxId : String
  payloadTypes : List Nat

/-- The three statements `RemoveRtpReceiver(..); RollbackRtpReceiver(..); MS_THROW_ERROR(..)`
of every collision branch of `AddRtpReceiver`. -/
def rollbackAndThrow (l : RtpListener) (rtpReceiver : Nat) (prev : Previous)
    (error : MediaSoupError) : Result :=
  .threw error
    (RollbackRtpReceiver (RemoveRtpReceiver l rtpReceiver) rtpReceiver prev.ssrcs prev.muxId
      prev.payloadTypes)

/-- One `if (ssrc) { if (!HasSsrc(..)) ssrcTable[ssrc] = rtpReceiver; else ..throw.. }` block
of `AddRtpReceiver`. -/
def addSsrc (rtpReceiver : Nat) (prev : Previous) (ssrc : Nat) (l : RtpListener) : Result :=
  if ssrc ≠ 0 then
    if !l.HasSsrc ssrc rtpReceiver then
      .returned { l with ssrcTable := l.ssrcTable.assign ssrc rtpReceiver }
    else
      rollbackAndThrow l rtpReceiver prev (.ssrcExists ssrc)
  else
    .returned l

/-- The loop over `rtpParameters->encodings` that fills the ssrc table: `encoding.ssrc`, then
`encoding.rtx.ssrc`, then `encoding.fec.ssrc`. -/
def addSsrcEntries (rtpReceiver : Nat) (prev : Previous) :
    List RtpEncodingParameters → RtpListener → Result
  | [], l => .returned l
  | encoding :: rest, l =>
    (addSsrc rtpReceiver prev encoding.ssrc l).andThen fun l =>
    (addSsrc rtpReceiver prev encoding.rtx.ssrc l).andThen fun l =>
    (addSsrc rtpReceiver prev encoding.fec.ssrc l).andThen fun l =>
    addSsrcEntries rtpReceiver prev rest l

/-- The block that fills the muxId table. -/
def addMuxIdEntry (rtpReceiver : Nat) (prev : Previous) (muxId : String) (l : RtpListener) :
    Result :=
  if muxId ≠ "" then
    if !l.HasMuxId muxId rtpReceiver then
      .returned { l with muxIdTable := l.muxIdTable.assign muxId rtpReceiver }
    else
      rollbackAndThrow l rtpReceiver prev (.muxIdExists muxId)
  else
    .returned l

/-- The test of the search loop before the payload type block: the encoding does not give
all of its ssrcs. -/
def lacksSsrc (encoding : RtpEncodingParameters) : Bool :=
  encoding.ssrc == 0 || (encoding.hasRtx && encoding.rtx.ssrc == 0) ||
    (encoding.hasFec && encoding.fec.ssrc == 0)

/-- The loop over `rtpParameters->codecs` that fills the payload type table. -/
def addPayloadTypes (rtpReceiver : Nat) (prev : Previous) :
    List RtpCodecParameters → RtpListener → Result
  | [], l => .returned l
  | codec :: rest, l =>
    let payloadType := codec.payloadType
    if !l.HasPayloadType payloadType rtpReceiver then
      addPayloadTypes rtpReceiver prev rest
        { l with ptTable := l.ptTable.assign payloadType rtpReceiver }
    else
      rollbackAndThrow l rtpReceiver prev (.payloadTypeExists payloadType)

/-- The payload type block: `it` stops at the first encoding that lacks an ssrc, and the
codecs are entered only when `it != encodings.end()`. -/
def addPtEntries (rtpReceiver : Nat) (prev : Previous) (rtpParameters : RtpParameters)
    (l : RtpListener) : Result :=
  let it := rtpParameters.encodings.find? lacksSsrc
  if it.isSome then
    addPayloadTypes rtpReceiver prev rtpParameters.codecs l
  else
    .returned l

/-- `RtpListener::AddRtpReceiver`. -/
def AddRtpReceiver (recv : Receivers) (l : RtpListener) (rtpReceiver : Nat) : Result :=
  let rtpParameters := recv rtpReceiver
  let prev : Previous :=
    { ssrcs := l.ssrcTable.keysOf rtpReceiver
      muxId := (l.muxIdTable.firstKeyOf rtpReceiver).getD ""
      payloadTypes := l.ptTable.keysOf rtpReceiver }
  let l := l.RemoveRtpReceiver rtpReceiver
  (addSsrcEntries rtpReceiver prev rtpParameters.encodings l).andThen fun l =>
  (addMuxIdEntry rtpReceiver prev rtpParameters.muxId l).andThen fun l =>
  addPtEntries rtpReceiver prev rtpParameters l

/-- `RtpListener::GetRtpReceiver(RTC::RtpPacket*)`: the receiver found (`none` for `nullptr`)
and the listener afterwards. -/
def GetRtpReceiver (recv : Receivers) (l : RtpListener) (packet : RtpPacket) :
    Option Nat × RtpListener :=
  match l.ssrcTable.find packet.ssrc with
  | some rtpReceiver =>
    let rtpParameters := recv rtpReceiver
    if rtpParameters.codecs.any (fun codec => codec.payloadType == packet.payloadType) then
      (some rtpReceiver, l)
    else
      (none, l)
  | none =>
    match l.ptTable.find packet.payloadType with
    | some rtpReceiver =>
      (some rtpReceiver, { l with ssrcTable := l.ssrcTable.assign packet.ssrc rtpReceiver })
    | none => (none, l)

/-- `RtpListener::GetRtpReceiver(uint32_t)`: a lookup that leaves the listener as it is. -/
def GetRtpReceiverBySsrc (l : RtpListener) (ssrc : Nat) : Option Nat :=
  l.ssrcTable.find ssrc

/-- The listener states that calls of the public methods produce from the empty tables, for
fixed receiver objects.  `GetRtpReceiver(uint32_t)` changes nothing and needs no step. -/
inductive Reachable (recv : Receivers) : RtpListener → Prop
  | start : Reachable recv empty
  | add (l : RtpListener) (rtpReceiver : Nat) :
      Reachable recv l → Reachable recv (AddRtpReceiver recv l rtpReceiver).listener
  | remove (l : RtpListener) (rtpReceiver : Nat) :
      Reachable recv l → Reachable recv (l.RemoveRtpReceiver rtpReceiver)
  | get (l : RtpListener) (packet : RtpPacket) :
      Reachable recv l → Reachable recv (GetRtpReceiver recv l packet).2

/-- The listener states that calls of the public methods produce from the empty tables when
the parameters of the receivers are free to change between the calls: every call reads the
parameters that the receivers have at the time of the call. -/
inductive Reached : RtpListener → Prop
  | start : Reached empty
  | add (recv : Receivers) (l : RtpListener) (rtpReceiver : Nat) :
      Reached l → Reached (AddRtpReceiver recv l rtpReceiver).listener
  | remove (l : RtpListener) (rtpReceiver : Nat) :
      Reached l → Reached (l.RemoveRtpReceiver rtpReceiver)
  | get (recv : Receivers) (l : RtpListener) (packet : RtpPacket) :
      Reached l → Reached (GetRtpReceiver recv l packet).2

/-- Equality of two listeners as maps: every key has the same value in both. -/
def MapEq (l l' : RtpListener) : Prop :=
  (∀ ssrc, l.ssrcTable.find ssrc = l'.ssrcTable.find ssrc) ∧
  (∀ muxId, l.muxIdTable.find muxId = l'.muxIdTable.find muxId) ∧
  (∀ payloadType, l.ptTable.find payloadType = l'.ptTable.find payloadType)

/-! ### Working notions of the proofs -/

/-- The non-zero ssrcs the ssrc loop looks at, in the order it looks at them. -/
def ssrcsOf (encodings : List RtpEncodingParameters) : List Nat :=
  (encodings.flatMap fun e => [e.ssrc, e.rtx.ssrc, e.fec.ssrc]).filter (fun s => decide (s ≠ 0))

/-- The ssrc phase seen from the ssrc table alone. -/
def ssrcOutcome (rtpReceiver : Nat) (prev : Previous) (l : RtpListener) :
    Except (Nat × Table Nat) (Table Nat) → Result
  | .ok t => .returned { l with ssrcTable := t }
  | .error (k, t) => rollbackAndThrow { l with ssrcTable := t } rtpReceiver prev (.ssrcExists k)

/-- The payload type phase seen from the payload type table alone. -/
def ptOutcome (rtpReceiver : Nat) (prev : Previous) (l : RtpListener) :
    Except (Nat × Table Nat) (Table Nat) → Result
  | .ok t => .returned { l with ptTable := t }
  | .error (k, t) =>
    rollbackAndThrow { l with ptTable := t } rtpReceiver prev (.payloadTypeExists k)

/-- Some encoding of the parameters does not give all of its ssrcs. -/
def lacks (p : RtpParameters) : Prop := ∃ e ∈ p.encodings, lacksSsrc e = true

instance (p : RtpParameters) : Decidable (lacks p) := by
  unfold lacks
  infer_instance

/-- The payload types of the codecs, in order. -/
def ptsOf (p : RtpParameters) : List Nat := p.codecs.map RtpCodecParameters.payloadType

/-- Some key that the parameters `p` ask for is taken in `l` by a receiver other than `r`. -/
def collides (p : RtpParameters) (l : RtpListener) (r : Nat) : Prop :=
  (∃ k ∈ ssrcsOf p.encodings, l.ssrcTable.other k r = true) ∨
  (p.muxId ≠ "" ∧ l.muxIdTable.other p.muxId r = true) ∨
  (lacks p ∧ ∃ k ∈ ptsOf p, l.ptTable.other k r = true)

/-- The insertion part of `AddRtpReceiver`, after the first `RemoveRtpReceiver`. -/
def insertEntries (r : Nat) (prev : Previous) (p : RtpParameters) (l : RtpListener) : Result :=
  (addSsrcEntries r prev p.encodings l).andThen fun l =>
  (addMuxIdEntry r prev p.muxId l).andThen fun l =>
  addPtEntries r prev p l

/-- The entries `AddRtpReceiver` saves before it touches the tables. -/
def previousOf (l : RtpListener) (r : Nat) : Previous :=
  { ssrcs := l.ssrcTable.keysOf r
    muxId := (l.muxIdTable.firstKeyOf r).getD ""
    payloadTypes := l.ptTable.keysOf r }

/-- Every receiver owns at most one muxId entry, and never one with the empty key. -/
def MuxOk (l : RtpListener) : Prop :=
  ∀ r k, l.muxIdTable.find k = some r →
    k ≠ "" ∧ ∀ k', l.muxIdTable.find k' = some r → k' = k

/-- Some table has an entry whose value is `r`. -/
def References (l : RtpListener) (r : Nat) : Prop :=
  (∃ k, l.ssrcTable.find k = some r) ∨ (∃ k, l.muxIdTable.find k = some r) ∨
    (∃ k, l.ptTable.find k = some r)

/-- What holds of the entries of every receiver in a reachable listener. -/
def Inv (recv : Receivers) (l : RtpListener) : Prop :=
  ∀ r,
    (∀ k, l.muxIdTable.find k = some r → k = (recv r).muxId ∧ k ≠ "") ∧
    (∀ k, l.ptTable.find k = some r → k ∈ ptsOf (recv r) ∧ lacks (recv r)) ∧
    (References l r → ∀ s ∈ ssrcsOf (recv r).encodings, l.ssrcTable.find s = some r)

/-! ### Receivers and packets of the scenarios -/

/-- Receivers of the scenarios: 1 and 2 both declare ssrc 100; 3 has payload type 96, a muxId
and one encoding without ssrc; 4 has payload type 98 and one encoding without ssrc; every
other address has empty parameters. -/
def sampleReceivers : Receivers := fun r =>
  if r = 1 then ⟨"", [⟨96⟩], [⟨100, false, ⟨0⟩, false, ⟨0⟩⟩]⟩
  else if r = 2 then ⟨"", [⟨97⟩], [⟨100, false, ⟨0⟩, false, ⟨0⟩⟩]⟩
  else if r = 3 then ⟨"mid", [⟨96⟩], [⟨0, false, ⟨0⟩, false, ⟨0⟩⟩]⟩
  else if r = 4 then ⟨"", [⟨98⟩], [⟨0, false, ⟨0⟩, false, ⟨0⟩⟩]⟩
  else ⟨"", [], []⟩

/-- The listener after `AddRtpReceiver` of receiver 1 on empty tables. -/
def listenerWith1 : RtpListener := (AddRtpReceiver sampleReceivers empty 1).listener

/-- The listener after `AddRtpReceiver` of receiver 3 on empty tables. -/
def listenerWith3 : RtpListener := (AddRtpReceiver sampleReceivers empty 3).listener

/-- The listener after `AddRtpReceiver` of receiver 1 and then of receiver 4. -/
def listenerWith14 : RtpListener := (AddRtpReceiver sampleReceivers listenerWith1 4).listener

/-- The packet of the promotion scenario: ssrc 0xCAFEBABE, payload type 96. -/
def cafePacket : RtpPacket := ⟨0xCAFEBABE, 96⟩

/-- The listener after `AddRtpReceiver` of receiver 3, a lookup of the packet of the
promotion scenario, which promotes ssrc 0xCAFEBABE to receiver 3, and `AddRtpReceiver` of
receiver 1. -/
def listenerPromoted : RtpListener :=
  (AddRtpReceiver sampleReceivers (GetRtpReceiver sampleReceivers listenerWith3 cafePacket).2
    1).listener

/-- The receivers of the scenarios after receiver 3 was given new parameters: muxId
"other", payload type 99 and an encoding with ssrc 100, the ssrc of receiver 1. -/
def changedReceivers : Receivers := fun r =>
  if r = 3 then ⟨"other", [⟨99⟩], [⟨100, false, ⟨0⟩, false, ⟨0⟩⟩]⟩ else sampleReceivers r

end RtpListener

/-! ### RTCP NACK feedback item (`worker/src/RTC/RTCP/FeedbackRtpNack.cpp`)

Memory is modelled by its bytes: a byte is a natural number below 256, a buffer is the list
of the bytes from a pointer onwards, and a `uint16_t` member of a struct is the pair of its
two bytes in memory order. -/

namespace RTCP

/-- The `uint16_t` that `htons` returns for a 16-bit value, as its two bytes in memory:
network byte order puts the high byte first. -/
def htons (hostshort : Nat) : Nat × Nat :=
  ((hostshort / 256) % 256, hostshort % 256)

/-- The value `ntohs` reads from a `uint16_t` given by its two bytes in memory. -/
def ntohs (netshort : Nat × Nat) : Nat :=
  (netshort.1 % 256) * 256 + netshort.2 % 256

/-- Modelled from the spec: `FeedbackRtpNackItem::Header` is declared in
`RTC/RTCP/FeedbackRtpNack.hpp`, which is not part of the sources at hand: a 16-bit packet id
followed by a 16-bit bitmask of lost packets, 4 bytes in all. -/
structure Header where
  packet_id : Nat × Nat
  lost_packet_bitmask : Nat × Nat
  deriving DecidableEq, Repr

/-- The size `sizeof(Header)` of the header in bytes. -/
def sizeofHeader : Nat := 4

/-- The bytes of a header in memory order (what `memcpy` copies). -/
def Header.bytes (h : Header) : List Nat :=
  [h.packet_id.1, h.packet_id.2, h.lost_packet_bitmask.1, h.lost_packet_bitmask.2]

/-- The header that a pointer to a buffer is reinterpreted as
(`reinterpret_cast<const Header*>(data)`): the first four bytes of the buffer. -/
def Header.ofBytes (data : List Nat) : Header :=
  { packet_id := (data.getD 0 0, data.getD 1 0)
    lost_packet_bitmask := (data.getD 2 0, data.getD 3 0) }

/-- A `FeedbackRtpNackItem`: the header it points to. -/
structure FeedbackRtpNackItem where
  header : Header
  deriving DecidableEq, Repr

namespace FeedbackRtpNackItem

/-- `FeedbackRtpNackItem::Parse(data, len)`: `none` stands for `nullptr`. -/
def Parse (data : List Nat) (len : Nat) : Option FeedbackRtpNackItem :=
  if sizeofHeader > len then
    none
  else
    some { header := Header.ofBytes data }

/-- The constructor `FeedbackRtpNackItem(uint16_t packetId, uint16_t lostPacketBitmask)`; the
arguments are cut to 16 bits as the parameter types do. -/
def new (packetId lostPacketBitmask : Nat) : FeedbackRtpNackItem :=
  { header :=
      { packet_id := htons (packetId % 65536)
        lost_packet_bitmask := htons (lostPacketBitmask % 65536) } }

/-- `FeedbackRtpNackItem::Serialize(buffer)`: the returned size and the buffer afterwards,
whose first `sizeof(Header)` bytes are overwritten by `memcpy`. -/
def Serialize (item : FeedbackRtpNackItem) (buffer : List Nat) : Nat × List Nat :=
  (sizeofHeader, item.header.bytes ++ buffer.drop sizeofHeader)

/-- Modelled from the spec: the accessor `GetPacketId` is defined in the absent
`FeedbackRtpNack.hpp`; the packet id is stored in network byte order. -/
def GetPacketId (item : FeedbackRtpNackItem) : Nat :=
  ntohs item.header.packet_id

/-- Modelled from the spec: the accessor `GetLostPacketBitmask`, missing like `GetPacketId`;
the bitmask is stored in network byte order. -/
def GetLostPacketBitmask (item : FeedbackRtpNackItem) : Nat :=
  ntohs item.header.lost_packet_bitmask

end FeedbackRtpNackItem

end RTCP

/-! ### Remote bitrate estimator
(`worker/src/RTC/RemoteBitrateEstimator/RemoteBitrateEstimatorAbsSendTime.cpp`)

A `float` value is modelled by the rational number it stands for, and every `float`
operation rounds its exact result to the nearest IEEE 754 binary32 value, ties to even
(`toFloat`).  The `double` values that the estimator computes are exact, and the `double`
members of `OveruseDetector` are given by their decimal initialisers.  Times are in
milliseconds. -/

/-- Rounding to the nearest integer, a tie going to the even one. -/
def roundTiesToEven (x : ℚ) : Int :=
  if x - (⌊x⌋ : ℚ) < 1 / 2 then ⌊x⌋
  else if x - (⌊x⌋ : ℚ) > 1 / 2 then ⌊x⌋ + 1
  else if ⌊x⌋ % 2 = 0 then ⌊x⌋ else ⌊x⌋ + 1

/-- The position of the highest set bit of `n` (0 for `n < 2`), found by halving; the first
argument bounds the number of halvings. -/
def log2Fuel : Nat → Nat → Nat
  | 0, _ => 0
  | fuel + 1, n => if n ≥ 2 then log2Fuel fuel (n / 2) + 1 else 0

/-- The binary exponent of a binary32 value near `x`: the `e` with `2^e <= |x| < 2^(e+1)`,
and -126, the exponent of the subnormal values, when that `e` is lower. -/
def binade (x : ℚ) : Int :=
  let e : Int :=
    (log2Fuel x.num.natAbs x.num.natAbs : Int) - (log2Fuel x.den x.den : Int)
  max (if (2 : ℚ) ^ e ≤ |x| then e else e - 1) (-126)

/-- The IEEE 754 binary32 value nearest to `x`, ties to even: `x` is rounded to a multiple of
`2^(e-23)`, the spacing of the values with 24 significant bits in the binade `e` of `x`.
Overflow to infinity is not modelled: no value of this file comes near the largest `float`. -/
def toFloat (x : ℚ) : ℚ :=
  (roundTiesToEven (x / (2 : ℚ) ^ (binade x - 23)) : ℚ) * (2 : ℚ) ^ (binade x - 23)

/-- Modelled from the spec: `BandwidthUsage` is declared in
`RTC/RemoteBitrateEstimator/BandwidthUsage.hpp`, which is not part of the sources at hand:
the hypothesis of the detector is Normal, Under or Over. -/
inductive BandwidthUsage where
  | kBwNormal
  | kBwUnderusing
  | kBwOverusing
  deriving DecidableEq, Repr

/-- The members of `OveruseDetector` with their default member initialisers
(`worker/include/RTC/RemoteBitrateEstimator/OveruseDetector.hpp`). -/
structure OveruseDetector where
  kUp : ℚ := 87 / 10000
  kDown : ℚ := 39 / 1000
  overusingTimeThreshold : ℚ := 10
  threshold : ℚ := 25 / 2
  lastUpdateMs : Int := -1
  prevOffset : ℚ := 0
  timeOverUsing : ℚ := -1
  overuseCounter : Int := 0
  hypothesis : BandwidthUsage := .kBwNormal
  deriving DecidableEq, Repr

/-- `OveruseDetector::State`. -/
def OveruseDetector.State (d : OveruseDetector) : BandwidthUsage :=
  d.hypothesis

namespace RemoteBitrateEstimatorAbsSendTime

/-- The constant `kTimestampGroupLengthMs`. -/
def kTimestampGroupLengthMs : Nat := 5

/-- The constant `kAbsSendTimeFraction`. -/
def kAbsSendTimeFraction : Nat := 18

/-- The constant `kAbsSendTimeInterArrivalUpshift`. -/
def kAbsSendTimeInterArrivalUpshift : Nat := 8

/-- The constant `kInterArrivalShift`. -/
def kInterArrivalShift : Nat := kAbsSendTimeFraction + kAbsSendTimeInterArrivalUpshift

/-- The constant `kInitialProbingIntervalMs`. -/
def kInitialProbingIntervalMs : Int := 2000

/-- The constant `kMinClusterSize`. -/
def kMinClusterSize : Nat := 4

/-- The constant `kMaxProbePackets`. -/
def kMaxProbePackets : Nat := 15

/-- The constant `kExpectedNumberOfProbes`. -/
def kExpectedNumberOfProbes : Nat := 3

/-- Modelled from the spec: `kStreamTimeOutMs` is declared in
`RTC/RemoteBitrateEstimator/RemoteBitrateEstimator.hpp`, which is not part of the sources at
hand: ssrc entries expire after 2000 ms of silence. -/
def kStreamTimeOutMs : Int := 2000

/-- Modelled from the spec: `Probe` is declared in the absent
`RemoteBitrateEstimatorAbsSendTime.hpp`: send time, receive time and payload size.  The send
time is never negative (`IncomingPacketInfo` computes it from an unsigned timestamp), and the
differences of the times of consecutive probes fit an `int`. -/
structure Probe where
  sendTimeMs : Nat
  recvTimeMs : Int
  payloadSize : Nat
  deriving DecidableEq, Repr

/-- Modelled from the spec: `Cluster` is declared in the absent
`RemoteBitrateEstimatorAbsSendTime.hpp`: the two `float` means, the mean size and the two
counters, all zero in a new cluster.  The two means hold the values of `float`s. -/
structure Cluster where
  sendMeanMs : ℚ := 0
  recvMeanMs : ℚ := 0
  meanSize : Nat := 0
  count : Nat := 0
  numAboveMinDelta : Nat := 0
  deriving DecidableEq, Repr

/-- Conversion of a `float` or `double` to an integer type: the fractional part is dropped.
A value outside the range of the integer type is not modelled. -/
def truncate (x : ℚ) : Int := Int.tdiv x.num x.den

/-- The send bitrate of a cluster, `meanSize * 8 * 1000 / sendMeanMs` as an `int`, as
`FindBestProbe` computes it for its log line: the integer product is converted to `float`,
divided by the `float` mean, and the `float` quotient is converted to `int`. -/
def Cluster.GetSendBitrateBps (c : Cluster) : Int :=
  truncate (toFloat (toFloat ((c.meanSize * 8 * 1000 : Nat) : ℚ) / c.sendMeanMs))

/-- The receive bitrate of a cluster, `meanSize * 8 * 1000 / recvMeanMs` as an `int`. -/
def Cluster.GetRecvBitrateBps (c : Cluster) : Int :=
  truncate (toFloat (toFloat ((c.meanSize * 8 * 1000 : Nat) : ℚ) / c.recvMeanMs))

/-- `RemoteBitrateEstimatorAbsSendTime::IsWithinClusterBounds`. -/
def IsWithinClusterBounds (sendDeltaMs : Int) (clusterAggregate : Cluster) : Bool :=
  if clusterAggregate.count = 0 then
    true
  else
    let clusterMean : ℚ :=
      toFloat (clusterAggregate.sendMeanMs / toFloat (clusterAggregate.count : ℚ))
    decide (|toFloat (toFloat (sendDeltaMs : ℚ) - clusterMean)| < 5 / 2)

/-- `RemoteBitrateEstimatorAbsSendTime::AddCluster`: the sums become means, by two `float`
divisions and an integer division, and the cluster is appended to the list. -/
def AddCluster (clusters : List Cluster) (cluster : Cluster) : List Cluster :=
  clusters ++
    [{ cluster with
        sendMeanMs := toFloat (cluster.sendMeanMs / toFloat (cluster.count : ℚ))
        recvMeanMs := toFloat (cluster.recvMeanMs / toFloat (cluster.count : ℚ))
        meanSize := cluster.meanSize / cluster.count }]

/-- The variables of the loop of `ComputeClusters`. -/
structure ClusterLoop where
  clusters : List Cluster := []
  current : Cluster := {}
  prevSendTime : Int := -1
  prevRecvTime : Int := -1
  deriving DecidableEq, Repr

/-- The block of the loop of `ComputeClusters` that runs when there is a previous probe. -/
def clusterDelta (s : ClusterLoop) (it : Probe) : ClusterLoop :=
  let sendDeltaMs : Int := (it.sendTimeMs : Int) - s.prevSendTime
  let recvDeltaMs : Int := it.recvTimeMs - s.prevRecvTime
  let current : Cluster :=
    if sendDeltaMs ≥ 1 ∧ recvDeltaMs ≥ 1 then
      { s.current with numAboveMinDelta := s.current.numAboveMinDelta + 1 }
    else
      s.current
  let clusters : List Cluster :=
    if !IsWithinClusterBounds sendDeltaMs current then
      if current.count ≥ kMinClusterSize then AddCluster s.clusters current else s.clusters
    else
      s.clusters
  let current : Cluster :=
    if !IsWithinClusterBounds sendDeltaMs current then {} else current
  { s with
    clusters := clusters
    current :=
      { current with
        sendMeanMs := toFloat (current.sendMeanMs + toFloat (sendDeltaMs : ℚ))
        recvMeanMs := toFloat (current.recvMeanMs + toFloat (recvDeltaMs : ℚ))
        meanSize := current.meanSize + it.payloadSize
        count := current.count + 1 } }

/-- One pass of the loop of `ComputeClusters`. -/
def clusterStep (s : ClusterLoop) (it : Probe) : ClusterLoop :=
  let s := if s.prevSendTime ≥ 0 then clusterDelta s it else s
  { s with prevSendTime := (it.sendTimeMs : Int), prevRecvTime := it.recvTimeMs }

/-- The statement after the loop of `ComputeClusters`. -/
def clusterFinish (s : ClusterLoop) : List Cluster :=
  if s.current.count ≥ kMinClusterSize then AddCluster s.clusters s.current else s.clusters

/-- `RemoteBitrateEstimatorAbsSendTime::ComputeClusters` on the probes of the estimator, with
an empty list to fill, as `ProcessClusters` calls it. -/
def ComputeClusters (probes : List Probe) : List Cluster :=
  clusterFinish (probes.foldl clusterStep {})

/-- The test of `FindBestProbe` that lets a cluster compete; the two differences are `float`
subtractions. -/
def isProbing (it : Cluster) : Bool :=
  decide (it.numAboveMinDelta > it.count / 2) &&
    (decide (toFloat (it.recvMeanMs - it.sendMeanMs) ≤ 2) &&
      decide (toFloat (it.sendMeanMs - it.recvMeanMs) ≤ 5))

/-- The bitrate `std::min(GetSendBitrateBps(), GetRecvBitrateBps())` of a cluster. -/
def probeBitrateBps (it : Cluster) : Int :=
  min it.GetSendBitrateBps it.GetRecvBitrateBps

/-- The loop of `FindBestProbe`, with its variables `highestProbeBitrateBps` and `bestIt`
(`none` for `clusters.end()`). -/
def findBestLoop : List Cluster → Int → Option Cluster → Option Cluster
  | [], _, bestIt => bestIt
  | it :: rest, highestProbeBitrateBps, bestIt =>
    if it.sendMeanMs = 0 ∨ it.recvMeanMs = 0 then
      findBestLoop rest highestProbeBitrateBps bestIt
    else if isProbing it then
      if probeBitrateBps it > highestProbeBitrateBps then
        findBestLoop rest (probeBitrateBps it) (some it)
      else
        findBestLoop rest highestProbeBitrateBps bestIt
    else
      bestIt

/-- `RemoteBitrateEstimatorAbsSendTime::FindBestProbe`: the cluster the returned iterator
points to, `none` for `clusters.end()`. -/
def FindBestProbe (clusters : List Cluster) : Option Cluster :=
  findBestLoop clusters 0 none

/-- Modelled from the spec: the collaborators of the estimator whose code is not part of the
sources at hand (`RateCalculator`, `InterArrival`, `OveruseEstimator`, the `Detect` method of
`OveruseDetector`, `AimdRateControl`), taken as parameters: a type for the state of each of
them and a function for each method the estimator calls, returning the state afterwards
where the method is not `const`.  `Double` is the type of the `double` values that only pass
from one collaborator to another. -/
structure Collaborators where
  IncomingBitrate : Type
  InterArrival : Type
  OveruseEstimator : Type
  RemoteRate : Type
  Double : Type
  newIncomingBitrate : IncomingBitrate
  incomingBitrate_GetRate : IncomingBitrate → Int → Nat × IncomingBitrate
  incomingBitrate_Reset : IncomingBitrate → IncomingBitrate
  incomingBitrate_Update : IncomingBitrate → Nat → Int → IncomingBitrate
  newInterArrival : InterArrival
  interArrival_ComputeDeltas :
    InterArrival → Nat → Int → Int → Nat → Option (Nat × Int × Int) × InterArrival
  newOveruseEstimator : OveruseEstimator
  estimator_Update : OveruseEstimator → Int → ℚ → Int → BandwidthUsage → Int → OveruseEstimator
  estimator_GetOffset : OveruseEstimator → Double
  estimator_GetNumOfDeltas : OveruseEstimator → Int
  estimator_GetVarNoise : OveruseEstimator → Double
  detector_Detect : OveruseDetector → Double → ℚ → Int → Int → OveruseDetector
  newRemoteRate : RemoteRate
  remoteRate_ValidEstimate : RemoteRate → Bool
  remoteRate_LatestEstimate : RemoteRate → Nat
  remoteRate_SetEstimate : RemoteRate → Int → Int → RemoteRate
  remoteRate_GetFeedbackInterval : RemoteRate → Int
  remoteRate_TimeToReduceFurther : RemoteRate → Int → Nat → Bool
  remoteRate_Update : RemoteRate → BandwidthUsage × Nat × Double → Int → RemoteRate
  remoteRate_UpdateBandwidthEstimate : RemoteRate → Int → Nat × RemoteRate

/-- The result type `ProbeResult` of `ProcessClusters`. -/
inductive ProbeResult where
  | kBitrateUpdated
  | kNoUpdate
  deriving DecidableEq, Repr

/-- The entries of a `std::map<uint32_t, int64_t>` after `map[k] = v`, in key order. -/
def mapAssign (k : Nat) (v : Int) : List (Nat × Int) → List (Nat × Int)
  | [] => [(k, v)]
  | e :: es =>
    if k < e.1 then (k, v) :: e :: es
    else if k = e.1 then (k, v) :: es
    else e :: mapAssign k v es

/-- The helper `Keys` of the source file. -/
def Keys (map : List (Nat × Int)) : List Nat :=
  map.map Prod.fst

/-- Conversion `static_cast<int>` of a `uint32_t`. -/
def castInt (x : Nat) : Int :=
  if x % 2 ^ 32 < 2 ^ 31 then ((x % 2 ^ 32 : Nat) : Int) else ((x % 2 ^ 32 : Nat) : Int) - 2 ^ 32

/-- The members of `RemoteBitrateEstimatorAbsSendTime`.  The two `std::unique_ptr` members are
`none` while they are null; `observerCalls` lists the calls of
`observer->onReceiveBitrateChanged(ssrcs, targetBitrateBps)` made so far, oldest first. -/
structure Estimator (C : Collaborators) where
  umaRecorded : Bool
  incomingBitrate : C.IncomingBitrate
  incomingBitrateInitialized : Bool
  firstPacketTimeMs : Int
  ssrcs : List (Nat × Int)
  probes : List Probe
  totalProbesReceived : Nat
  interArrival : Option C.InterArrival
  estimator : Option C.OveruseEstimator
  detector : OveruseDetector
  remoteRate : C.RemoteRate
  lastUpdateMs : Int
  observerCalls : List (List Nat × Nat)

/-- Modelled from the spec: the constructor is defined in the absent
`RemoteBitrateEstimatorAbsSendTime.hpp`; a new estimator has seen no packet, no probe and no
emission, and the inter-arrival and estimator objects are made by the first
`TimeoutStreams`. -/
def Estimator.fresh (C : Collaborators) : Estimator C :=
  { umaRecorded := false
    incomingBitrate := C.newIncomingBitrate
    incomingBitrateInitialized := false
    firstPacketTimeMs := -1
    ssrcs := []
    probes := []
    totalProbesReceived := 0
    interArrival := none
    estimator := none
    detector := {}
    remoteRate := C.newRemoteRate
    lastUpdateMs := -1
    observerCalls := [] }

/-- `RemoteBitrateEstimatorAbsSendTime::IsBitrateImproving`. -/
def IsBitrateImproving {C : Collaborators} (st : Estimator C) (newBitrateBps : Int) : Bool :=
  let initialProbe := !C.remoteRate_ValidEstimate st.remoteRate && decide (newBitrateBps > 0)
  let bitrateAboveEstimate :=
    C.remoteRate_ValidEstimate st.remoteRate &&
      decide (newBitrateBps > castInt (C.remoteRate_LatestEstimate st.remoteRate))
  initialProbe || bitrateAboveEstimate

/-- `RemoteBitrateEstimatorAbsSendTime::ProcessClusters`: the result and the estimator
afterwards. -/
def ProcessClusters {C : Collaborators} (st : Estimator C) (nowMs : Int) :
    ProbeResult × Estimator C :=
  let clusters := ComputeClusters st.probes
  if clusters.isEmpty then
    if st.probes.length ≥ kMaxProbePackets then
      (.kNoUpdate, { st with probes := st.probes.tail })
    else
      (.kNoUpdate, st)
  else
    match FindBestProbe clusters with
    | some bestIt =>
      if IsBitrateImproving st (probeBitrateBps bestIt) then
        (.kBitrateUpdated,
          { st with
            remoteRate := C.remoteRate_SetEstimate st.remoteRate (probeBitrateBps bestIt) nowMs })
      else if clusters.length ≥ kExpectedNumberOfProbes then
        (.kNoUpdate, { st with probes := [] })
      else
        (.kNoUpdate, st)
    | none =>
      if clusters.length ≥ kExpectedNumberOfProbes then
        (.kNoUpdate, { st with probes := [] })
      else
        (.kNoUpdate, st)

/-- `RemoteBitrateEstimatorAbsSendTime::TimeoutStreams`. -/
def TimeoutStreams {C : Collaborators} (st : Estimator C) (nowMs : Int) : Estimator C :=
  let ssrcs := st.ssrcs.filter (fun it => !decide (nowMs - it.2 > kStreamTimeOutMs))
  if ssrcs.isEmpty then
    { st with
      ssrcs := ssrcs
      interArrival := some C.newInterArrival
      estimator := some C.newOveruseEstimator }
  else
    { st with ssrcs := ssrcs }

/-- The start of `IncomingPacketInfo` up to `firstPacketTimeMs`: the incoming bitrate window
is refreshed and the time of the first packet is recorded. -/
def refreshIncomingBitrate {C : Collaborators} (st : Estimator C)
    (arrivalTimeMs : Int) (payloadSize : Nat) (nowMs : Int) : Estimator C :=
  let st := { st with umaRecorded := true }
  let (incomingBitrate, counter) := C.incomingBitrate_GetRate st.incomingBitrate arrivalTimeMs
  let st := { st with incomingBitrate := counter }
  let st :=
    if incomingBitrate ≠ 0 then
      { st with incomingBitrateInitialized := true }
    else if st.incomingBitrateInitialized then
      { st with
        incomingBitrate := C.incomingBitrate_Reset st.incomingBitrate
        incomingBitrateInitialized := false }
    else
      st
  let updated := C.incomingBitrate_Update st.incomingBitrate payloadSize arrivalTimeMs
  let st := { st with incomingBitrate := updated }
  if st.firstPacketTimeMs = -1 then { st with firstPacketTimeMs := nowMs } else st

/-- The test that makes `IncomingPacketInfo` take the packet as a probe. -/
def isProbePacket {C : Collaborators} (st : Estimator C) (payloadSize : Nat) (nowMs : Int) :
    Bool :=
  decide (payloadSize > 200) &&
    (!C.remoteRate_ValidEstimate st.remoteRate ||
      decide (nowMs - st.firstPacketTimeMs < kInitialProbingIntervalMs))

/-- The probing block of `IncomingPacketInfo`: the value of `updateEstimate` after it and the
estimator.  The block guarded by `totalProbesReceived < kMaxProbePackets` only computes the
two deltas of the log line and changes nothing. -/
def probingBlock {C : Collaborators} (st : Estimator C) (sendTimeMs : Nat)
    (arrivalTimeMs : Int) (payloadSize : Nat) (nowMs : Int) : Bool × Estimator C :=
  if isProbePacket st payloadSize nowMs then
    let probe : Probe :=
      { sendTimeMs := sendTimeMs, recvTimeMs := arrivalTimeMs, payloadSize := payloadSize }
    let st :=
      { st with
        probes := st.probes ++ [probe]
        totalProbesReceived := st.totalProbesReceived + 1 }
    let (result, st) := ProcessClusters st nowMs
    (decide (result = .kBitrateUpdated), st)
  else
    (false, st)

/-- The `ComputeDeltas` block of `IncomingPacketInfo`; `none` when one of the two pointers is
null. -/
def deltasBlock {C : Collaborators} (st : Estimator C) (timestamp : Nat)
    (arrivalTimeMs : Int) (nowMs : Int) (payloadSize : Nat) : Option (Estimator C) :=
  match st.interArrival, st.estimator with
  | some interArrival, some estimator =>
    let (deltas, interArrival) :=
      C.interArrival_ComputeDeltas interArrival timestamp arrivalTimeMs nowMs payloadSize
    match deltas with
    | some (tsDelta, tDelta, sizeDelta) =>
      let tsDeltaMs : ℚ := (1000 * (tsDelta : ℚ)) / (2 ^ kInterArrivalShift : ℚ)
      let estimator :=
        C.estimator_Update estimator tDelta tsDeltaMs sizeDelta st.detector.State arrivalTimeMs
      let detector :=
        C.detector_Detect st.detector (C.estimator_GetOffset estimator) tsDeltaMs
          (C.estimator_GetNumOfDeltas estimator) arrivalTimeMs
      some
        { st with
          interArrival := some interArrival
          estimator := some estimator
          detector := detector }
    | none => some { st with interArrival := some interArrival }
  | _, _ => none

/-- The block `if (!updateEstimate) { ... }` of `IncomingPacketInfo`: the value of
`updateEstimate` after it and the estimator. -/
def updateCheck {C : Collaborators} (st : Estimator C) (updateEstimate : Bool)
    (arrivalTimeMs : Int) (nowMs : Int) : Bool × Estimator C :=
  if !updateEstimate then
    if st.lastUpdateMs = -1 ∨
        nowMs - st.lastUpdateMs > C.remoteRate_GetFeedbackInterval st.remoteRate then
      (true, st)
    else if st.detector.State = .kBwOverusing then
      let (incomingRate, counter) := C.incomingBitrate_GetRate st.incomingBitrate arrivalTimeMs
      let st := { st with incomingBitrate := counter }
      if incomingRate ≠ 0 ∧ C.remoteRate_TimeToReduceFurther st.remoteRate nowMs incomingRate then
        (true, st)
      else
        (updateEstimate, st)
    else
      (updateEstimate, st)
  else
    (updateEstimate, st)

/-- The block `if (updateEstimate) { ... }` inside the braces of `IncomingPacketInfo`: the
value of `updateEstimate` after it, `targetBitrateBps`, `ssrcs` and the estimator; `none`
when the estimator pointer is null. -/
def updateBlock {C : Collaborators} (st : Estimator C) (updateEstimate : Bool)
    (arrivalTimeMs : Int) (nowMs : Int) : Option (Bool × Nat × List Nat × Estimator C) :=
  if updateEstimate then
    match st.estimator with
    | some estimator =>
      let (rate, counter) := C.incomingBitrate_GetRate st.incomingBitrate arrivalTimeMs
      let input := (st.detector.State, rate, C.estimator_GetVarNoise estimator)
      let remoteRate := C.remoteRate_Update st.remoteRate input nowMs
      let (targetBitrateBps, remoteRate) := C.remoteRate_UpdateBandwidthEstimate remoteRate nowMs
      let st := { st with incomingBitrate := counter, remoteRate := remoteRate }
      some (C.remoteRate_ValidEstimate st.remoteRate, targetBitrateBps, Keys st.ssrcs, st)
    | none => none
  else
    some (updateEstimate, 0, [], st)

/-- The last block of `IncomingPacketInfo`: the emission. -/
def emitBlock {C : Collaborators} (st : Estimator C) (updateEstimate : Bool)
    (targetBitrateBps : Nat) (ssrcs : List Nat) (nowMs : Int) : Estimator C :=
  if updateEstimate then
    { st with
      lastUpdateMs := nowMs
      observerCalls := st.observerCalls ++ [(ssrcs, targetBitrateBps)] }
  else
    st

/-- The part of `IncomingPacketInfo` before the block `if (!updateEstimate)`: the value of
`updateEstimate` there and the estimator; `none` when the assertion on `sendTime_24bits`
fails or a null pointer is used. -/
def beforeUpdateCheck {C : Collaborators} (st : Estimator C) (arrivalTimeMs : Int)
    (sendTime_24bits : Nat) (payloadSize : Nat) (ssrc : Nat) (nowMs : Int) :
    Option (Bool × Estimator C) :=
  if sendTime_24bits < 2 ^ 24 then
    let timestamp : Nat := (sendTime_24bits * 2 ^ kAbsSendTimeInterArrivalUpshift) % 2 ^ 32
    let sendTimeMs : Nat := timestamp * 1000 / 2 ^ kInterArrivalShift
    let st := refreshIncomingBitrate st arrivalTimeMs payloadSize nowMs
    let st := TimeoutStreams st nowMs
    let st := { st with ssrcs := mapAssign ssrc nowMs st.ssrcs }
    let (updateEstimate, st) := probingBlock st sendTimeMs arrivalTimeMs payloadSize nowMs
    match deltasBlock st timestamp arrivalTimeMs nowMs payloadSize with
    | some st => some (updateEstimate, st)
    | none => none
  else
    none

/-- `RemoteBitrateEstimatorAbsSendTime::IncomingPacketInfo`, with the time `nowMs` that
`DepLibUV::GetTime()` returns as an argument: the estimator afterwards; `none` when the
assertion on `sendTime_24bits` fails or a null pointer is used. -/
def IncomingPacketInfo {C : Collaborators} (st : Estimator C) (arrivalTimeMs : Int)
    (sendTime_24bits : Nat) (payloadSize : Nat) (ssrc : Nat) (nowMs : Int) :
    Option (Estimator C) :=
  match beforeUpdateCheck st arrivalTimeMs sendTime_24bits payloadSize ssrc nowMs with
  | some (updateEstimate, st) =>
    let (updateEstimate, st) := updateCheck st updateEstimate arrivalTimeMs nowMs
    match updateBlock st updateEstimate arrivalTimeMs nowMs with
    | some (updateEstimate, targetBitrateBps, ssrcs, st) =>
      some (emitBlock st updateEstimate targetBitrateBps ssrcs nowMs)
    | none => none
  | none => none

/-- The estimators that calls of `IncomingPacketInfo` produce from a new estimator. -/
inductive Reachable (C : Collaborators) : Estimator C → Prop
  | fresh : Reachable C (Estimator.fresh C)
  | packet (st st' : Estimator C) (arrivalTimeMs : Int) (sendTime_24bits payloadSize ssrc : Nat)
      (nowMs : Int) :
      Reachable C st →
      IncomingPacketInfo st arrivalTimeMs sendTime_24bits payloadSize ssrc nowMs = some st' →
      Reachable C st'

/-! ### Working notions of the proofs about the estimator -/

/-- The deltas the loop of `ComputeClusters` computes, in order: send delta, receive delta
and the payload size of the later probe, for every pair of consecutive probes. -/
def deltas : List Probe → List (Int × Int × Nat)
  | [] => []
  | [_] => []
  | p :: q :: rest =>
    ((q.sendTimeMs : Int) - (p.sendTimeMs : Int), q.recvTimeMs - p.recvTimeMs, q.payloadSize) ::
      deltas (q :: rest)

/-- The send deltas of consecutive probes, in order. -/
def sendDeltas (probes : List Probe) : List Int :=
  (deltas probes).map fun δ => δ.1

/-- The variance of a list of deltas: the mean of the squared distances to the mean. -/
def variance (xs : List Int) : ℚ :=
  let mean : ℚ := ((xs.map fun x => (x : ℚ)).sum) / (xs.length : ℚ)
  ((xs.map fun x => ((x : ℚ) - mean) ^ 2).sum) / (xs.length : ℚ)

/-- The effect of one delta on the list of clusters and the running cluster, as in
`clusterDelta`. -/
def feed (s : List Cluster × Cluster) (δ : Int × Int × Nat) : List Cluster × Cluster :=
  let current : Cluster :=
    if δ.1 ≥ 1 ∧ δ.2.1 ≥ 1 then
      { s.2 with numAboveMinDelta := s.2.numAboveMinDelta + 1 }
    else
      s.2
  let clusters : List Cluster :=
    if !IsWithinClusterBounds δ.1 current then
      if current.count ≥ kMinClusterSize then AddCluster s.1 current else s.1
    else
      s.1
  let current : Cluster :=
    if !IsWithinClusterBounds δ.1 current then {} else current
  (clusters,
    { current with
      sendMeanMs := toFloat (current.sendMeanMs + toFloat (δ.1 : ℚ))
      recvMeanMs := toFloat (current.recvMeanMs + toFloat (δ.2.1 : ℚ))
      meanSize := current.meanSize + δ.2.2
      count := current.count + 1 })

/-- The statement after the loop of `ComputeClusters`, on the list of clusters and the
running cluster. -/
def finish (s : List Cluster × Cluster) : List Cluster :=
  if s.2.count ≥ kMinClusterSize then AddCluster s.1 s.2 else s.1

/-- The number of deltas that the clusters emitted so far and the running cluster hold. -/
def held (s : List Cluster × Cluster) : Nat :=
  (s.1.map fun c => c.count).sum + s.2.count

/-- The running cluster after `k` deltas that are all `d` ms on the send and on the receive
side, each with a payload of `s` bytes. -/
def runCluster (d : Int) (s k : Nat) : Cluster :=
  { sendMeanMs := (k : ℚ) * (d : ℚ)
    recvMeanMs := (k : ℚ) * (d : ℚ)
    meanSize := k * s
    count := k
    numAboveMinDelta := k }

/-- The `float` sum of the deltas of a group, accumulated from 0 in the order of the list,
as the loop of `ComputeClusters` accumulates `sendMeanMs`. -/
def groupSum (g : List Int) : ℚ :=
  g.foldl (fun (acc : ℚ) (d : Int) => toFloat (acc + toFloat (d : ℚ))) 0

/-- The delta `d` lies less than 2.5 ms from the mean of the deltas `g` before it, in the
`float` arithmetic of `IsWithinClusterBounds`; a delta with nothing before it always does. -/
def nearGroup (g : List Int) (d : Int) : Bool :=
  if g.length = 0 then
    true
  else
    decide (|toFloat (toFloat (d : ℚ) - toFloat (groupSum g / toFloat (g.length : ℚ)))| < 5 / 2)

/-- Every delta of the list lies less than 2.5 ms from the mean of the deltas before it,
those of `prev` included. -/
def isGroupFrom (prev : List Int) : List Int → Bool
  | [] => true
  | d :: rest => nearGroup prev d && isGroupFrom (prev ++ [d]) rest

/-- A group of deltas: every delta lies less than 2.5 ms from the mean of the deltas before
it in the group. -/
def isGroup (g : List Int) : Bool :=
  isGroupFrom [] g

/-- The first delta of the group `g'` lies at least 2.5 ms from the mean of the group `g`. -/
def breaksAfter (g g' : List Int) : Prop :=
  ∃ d, g'.head? = some d ∧ nearGroup g d = false

/-- A split of a list of deltas into groups, found by going through the list once: a delta
joins the running group `cur` when it lies less than 2.5 ms from the mean of `cur`, and
starts a new group otherwise. -/
def splitGroups (cur : List Int) : List Int → List (List Int)
  | [] => if cur.length = 0 then [] else [cur]
  | d :: rest =>
    if nearGroup cur d = true then splitGroups (cur ++ [d]) rest
    else cur :: splitGroups [d] rest

/-- The clusters `FindBestProbe` compares: those with a zero mean are passed over, and the
scan ends before the first remaining cluster that fails the test `isProbing`. -/
def scanned (clusters : List Cluster) : List Cluster :=
  (clusters.filter fun it => !decide (it.sendMeanMs = 0 ∨ it.recvMeanMs = 0)).takeWhile isProbing

/-- The running maximum of `FindBestProbe` over the clusters it compares. -/
def scanMax : List Cluster → Int → Option Cluster → Option Cluster
  | [], _, bestIt => bestIt
  | it :: rest, highest, bestIt =>
    if probeBitrateBps it > highest then scanMax rest (probeBitrateBps it) (some it)
    else scanMax rest highest bestIt

/-- The probes list holds fewer than `kMaxProbePackets` probes unless it yields a cluster. -/
def Bounded (probes : List Probe) : Prop :=
  ComputeClusters probes = [] → probes.length < kMaxProbePackets

/-! ### Collaborators, packets and probes of the scenarios -/

/-- A rate control that holds an estimate once `SetEstimate` was called, and collaborators
that do nothing else: the incoming rate is always 0, no delta is ever ready, the feedback
interval is 1000 ms. -/
def sampleCollaborators : Collaborators :=
  { IncomingBitrate := Unit
    InterArrival := Unit
    OveruseEstimator := Unit
    RemoteRate := Bool × Nat
    Double := Unit
    newIncomingBitrate := ()
    incomingBitrate_GetRate := fun _ _ => (0, ())
    incomingBitrate_Reset := fun _ => ()
    incomingBitrate_Update := fun _ _ _ => ()
    newInterArrival := ()
    interArrival_ComputeDeltas := fun _ _ _ _ _ => (none, ())
    newOveruseEstimator := ()
    estimator_Update := fun _ _ _ _ _ _ => ()
    estimator_GetOffset := fun _ => ()
    estimator_GetNumOfDeltas := fun _ => 0
    estimator_GetVarNoise := fun _ => ()
    detector_Detect := fun d _ _ _ _ => d
    newRemoteRate := (false, 0)
    remoteRate_ValidEstimate := fun r => r.1
    remoteRate_LatestEstimate := fun r => r.2
    remoteRate_SetEstimate := fun _ bitrateBps _ => (true, bitrateBps.toNat)
    remoteRate_GetFeedbackInterval := fun _ => 1000
    remoteRate_TimeToReduceFurther := fun _ _ _ => false
    remoteRate_Update := fun r _ _ => r
    remoteRate_UpdateBandwidthEstimate := fun r _ => (r.2, r) }

/-- A sequence of `IncomingPacketInfo` calls, each given by arrival time, 24-bit send time,
payload size, ssrc and the time of the call. -/
def receiveAll {C : Collaborators} (st : Estimator C) :
    List (Int × Nat × Nat × Nat × Int) → Option (Estimator C)
  | [] => some st
  | p :: rest =>
    match IncomingPacketInfo st p.1 p.2.1 p.2.2.1 p.2.2.2.1 p.2.2.2.2 with
    | some st' => receiveAll st' rest
    | none => none

/-- Sixteen packets of 1200 bytes of ssrc 7, sent and received 125 ms apart (32768 units of
the 24-bit send time), the last one 1875 ms after the first. -/
def sixteenPackets : List (Int × Nat × Nat × Nat × Int) :=
  (List.range 16).map fun i => ((125 * i : Nat), 32768 * i, 1200, 7, (125 * i : Nat))

/-- Probes from a list of send time, receive time and payload size. -/
def probesOf (l : List (Nat × Int × Nat)) : List Probe :=
  l.map fun p => { sendTimeMs := p.1, recvTimeMs := p.2.1, payloadSize := p.2.2 }

/-- Nine probes of 1200 bytes: four deltas of 5 ms, then four deltas of 10 ms, on the send
and on the receive side. -/
def twoRunProbes : List Probe :=
  probesOf [(0, 0, 1200), (5, 5, 1200), (10, 10, 1200), (15, 15, 1200), (20, 20, 1200),
    (30, 30, 1200), (40, 40, 1200), (50, 50, 1200), (60, 60, 1200)]

/-- Nine probes of 1200 bytes whose send and receive deltas alternate between 1 ms and
11 ms. -/
def alternatingProbes : List Probe :=
  probesOf [(0, 0, 1200), (1, 1, 1200), (12, 12, 1200), (13, 13, 1200), (24, 24, 1200),
    (25, 25, 1200), (36, 36, 1200), (37, 37, 1200), (48, 48, 1200)]

/-- Nine probes of 1200 bytes with the send and receive deltas 5, 5, 6, 5, 10, 10, 11,
10 ms. -/
def jitterProbes : List Probe :=
  probesOf [(0, 0, 1200), (5, 5, 1200), (10, 10, 1200), (16, 16, 1200), (21, 21, 1200),
    (31, 31, 1200), (41, 41, 1200), (52, 52, 1200), (62, 62, 1200)]

/-- Six probes of 2232 bytes sent and received 17 ms apart. -/
def roundingProbes : List Probe :=
  probesOf [(0, 0, 2232), (17, 17, 2232), (34, 34, 2232), (51, 51, 2232), (68, 68, 2232),
    (85, 85, 2232)]

/-- Five probes of 1200 bytes sent and received 16777217 ms apart, a delta that is no
`float`. -/
def hugeDeltaProbes : List Probe :=
  probesOf [(0, 0, 1200), (16777217, 16777217, 1200), (33554434, 33554434, 1200),
    (50331651, 50331651, 1200), (67108868, 67108868, 1200)]

/-- Six probes of 1200 bytes with the send deltas 1, 1, 1, 2, 2 ms (mean 1.4) and the receive
deltas 3, 3, 3, 4, 4 ms (mean 3.4). -/
def floatDifferenceProbes : List Probe :=
  probesOf [(0, 0, 1200), (1, 3, 1200), (2, 6, 1200), (3, 9, 1200), (5, 13, 1200),
    (7, 17, 1200)]

/-- Six probes of 1200 bytes sent and received 5 ms apart. -/
def sixProbes : List Probe :=
  probesOf [(0, 0, 1200), (5, 5, 1200), (10, 10, 1200), (15, 15, 1200), (20, 20, 1200),
    (25, 25, 1200)]

/-- Thirteen probes of 1200 bytes: four deltas of 15 ms, four of 10 ms, four of 5 ms, on the
send and on the receive side. -/
def threeRunProbes : List Probe :=
  probesOf [(0, 0, 1200), (15, 15, 1200), (30, 30, 1200), (45, 45, 1200), (60, 60, 1200),
    (70, 70, 1200), (80, 80, 1200), (90, 90, 1200), (100, 100, 1200), (105, 105, 1200),
    (110, 110, 1200), (115, 115, 1200), (120, 120, 1200)]

/-- A new estimator that holds the given probes. -/
def estimatorWith (probes : List Probe) : Estimator sampleCollaborators :=
  { Estimator.fresh sampleCollaborators with probes := probes }

/-- A cluster of four deltas of 5 ms and 1200 bytes, two of which are above the minimum
delta. -/
def halfAboveCluster : Cluster :=
  { sendMeanMs := 5, recvMeanMs := 5, meanSize := 1200, count := 4, numAboveMinDelta := 2 }

end RemoteBitrateEstimatorAbsSendTime

/-! ### Send time conversion, fresh detector and the scenario of the last claims -/

/-- The detector that the defaulted constructor `OveruseDetector() = default` builds: every
member has its default member initialiser. -/
def OveruseDetector.fresh : OveruseDetector := {}

namespace RemoteBitrateEstimatorAbsSendTime

/-- The constant `kTimestampToMs`, `1000.0 / (1 << kInterArrivalShift)`. -/
def kTimestampToMs : ℚ := 1000 / (2 ^ kInterArrivalShift : ℚ)

/-- The statement `uint32_t timestamp = sendTime_24bits << kAbsSendTimeInterArrivalUpshift`
of `IncomingPacketInfo`: a shift in 32 bits, as in `beforeUpdateCheck`. -/
def shiftedTimestamp (sendTime_24bits : Nat) : Nat :=
  (sendTime_24bits * 2 ^ kAbsSendTimeInterArrivalUpshift) % 2 ^ 32

/-- The statement `int64_t sendTimeMs = static_cast<int64_t>(timestamp) * kTimestampToMs` of
`IncomingPacketInfo`: the product is a `double` and is cut to an integer. -/
def sendTimeMsOf (timestamp : Nat) : Int :=
  truncate ((timestamp : ℚ) * kTimestampToMs)

/-- The probe `Probe(sendTimeMs, arrivalTimeMs, payloadSize)` that `IncomingPacketInfo`
appends for a packet, with the send time in ms as `beforeUpdateCheck` computes it. -/
def probeOfPacket (sendTime_24bits : Nat) (arrivalTimeMs : Int) (payloadSize : Nat) : Probe :=
  ⟨shiftedTimestamp sendTime_24bits * 1000 / 2 ^ kInterArrivalShift, arrivalTimeMs, payloadSize⟩

/-- The function `ConvertMsTo24Bits`: the time is cast to `uint64_t`, shifted and rounded in
64 bits, cast to `uint32_t` and masked to 24 bits. -/
def ConvertMsTo24Bits (timeMs : Int) : Nat :=
  (((((timeMs % 2 ^ 64).toNat * 2 ^ kAbsSendTimeFraction) % 2 ^ 64 + 500) % 2 ^ 64 / 1000) %
    2 ^ 32) &&& 0x00FFFFFF

/-- An estimator that holds the six uniform probes and whose rate control has a valid
estimate of 3000000000 bps. -/
def estimatorWithHighEstimate : Estimator sampleCollaborators :=
  { estimatorWith sixProbes with remoteRate := (true, 3000000000) }

end RemoteBitrateEstimatorAbsSendTime

/-! ## Theorems -/

/-! ### The tables as maps -/

theorem rawFind_eq_none {K : Type} [DecidableEq K] (k : K) (es : List (K × Nat)) :
    rawFind k es = none ↔ k ∉ es.map Prod.fst := by
  induction es with
  | nil => simp [rawFind]
  | cons e es ih =>
    by_cases h : e.1 = k
    · simp [rawFind, h]
    · have h' : ¬ k = e.1 := fun h'' => h h''.symm
      simp only [rawFind, h, if_false, ih, List.map_cons, List.mem_cons, h', false_or]

theorem rawFind_eq_some {K : Type} [DecidableEq K] (k : K) (v : Nat) (es : List (K × Nat))
    (hn : (es.map Prod.fst).Nodup) : rawFind k es = some v ↔ (k, v) ∈ es := by
  induction es with
  | nil => simp [rawFind]
  | cons e es ih =>
    rw [List.map_cons, List.nodup_cons] at hn
    by_cases h : e.1 = k
    · have hk : ∀ w, (k, w) ∉ es := by
        intro w hw
        apply hn.1
        rw [h]
        exact List.mem_map_of_mem Prod.fst hw
      obtain ⟨a, b⟩ := e
      simp only at h
      subst h
      simp only [rawFind, if_true, Option.some.injEq, List.mem_cons, Prod.mk.injEq, true_and,
        hk, or_false]
      exact eq_comm
    · have h' : ¬ (k, v) = e := fun h'' => h (by rw [← h''])
      simp only [rawFind, h, if_false, ih hn.2, List.mem_cons, h', false_or]

namespace Table

variable {K : Type} [DecidableEq K]

theorem find_empty (k : K) : (empty : Table K).find k = none := rfl

theorem find_eq_some (t : Table K) (k : K) (v : Nat) : t.find k = some v ↔ (k, v) ∈ t.entries :=
  rawFind_eq_some k v t.entries t.nodup

theorem find_assign (t : Table K) (k k' : K) (v : Nat) :
    (t.assign k v).find k' = if k' = k then some v else t.find k' := by
  obtain ⟨es, hn⟩ := t
  simp only [assign, find]
  clear hn
  induction es with
  | nil =>
    by_cases h : k' = k
    · simp [rawAssign, rawFind, h]
    · have h' : ¬ k = k' := fun h'' => h h''.symm
      simp [rawAssign, rawFind, h, h']
  | cons e es ih =>
    by_cases he : e.1 = k
    · by_cases h : k' = k
      · simp [rawAssign, rawFind, he, h]
      · have h' : ¬ k = k' := fun h'' => h h''.symm
        simp [rawAssign, rawFind, he, h, h']
    · by_cases h : e.1 = k'
      · have h' : ¬ k' = k := fun h'' => he (h.trans h'')
        simp [rawAssign, rawFind, he, h, h']
      · simp [rawAssign, rawFind, he, h, ih]

theorem find_eraseValue (t : Table K) (r : Nat) (k : K) :
    (t.eraseValue r).find k = if t.find k = some r then none else t.find k := by
  apply Option.ext
  intro v
  simp only [Option.mem_def]
  rw [find_eq_some]
  by_cases h : t.find k = some r
  · rw [if_pos h]
    rw [find_eq_some] at h
    simp only [eraseValue, List.mem_filter, decide_eq_true_eq, reduceCtorEq, iff_false, not_and,
      not_not]
    intro hv
    have h1 := (find_eq_some t k v).2 hv
    have h2 := (find_eq_some t k r).2 h
    rw [h1] at h2
    exact Option.some.inj h2
  · rw [if_neg h, find_eq_some]
    simp only [eraseValue, List.mem_filter, decide_eq_true_eq, and_iff_left_iff_imp]
    intro hv hr
    apply h
    rw [find_eq_some, ← hr]
    exact hv

theorem mem_keysOf (t : Table K) (r : Nat) (k : K) : k ∈ t.keysOf r ↔ t.find k = some r := by
  rw [find_eq_some]
  simp only [keysOf, List.mem_map, List.mem_filter, decide_eq_true_eq]
  constructor
  · rintro ⟨⟨a, b⟩, ⟨hm, hb⟩, ha⟩
    simp only at hb ha
    subst hb ha
    exact hm
  · intro h
    exact ⟨(k, r), ⟨h, rfl⟩, rfl⟩

theorem firstKeyOf_eq_some (t : Table K) (r : Nat) (k : K) (h : t.firstKeyOf r = some k) :
    t.find k = some r := by
  rw [find_eq_some]
  simp only [firstKeyOf, Option.map_eq_some'] at h
  obtain ⟨⟨a, b⟩, hf, ha⟩ := h
  simp only at ha
  subst ha
  have h1 := List.find?_some hf
  have h2 := List.mem_of_find?_eq_some hf
  simp only [decide_eq_true_eq] at h1
  subst h1
  exact h2

theorem firstKeyOf_eq_none (t : Table K) (r : Nat) (h : t.firstKeyOf r = none) (k : K) :
    t.find k ≠ some r := by
  rw [Ne, find_eq_some]
  simp only [firstKeyOf, Option.map_eq_none', List.find?_eq_none, decide_eq_true_eq] at h
  intro hm
  exact h _ hm rfl

end Table

/-! ### Collisions and checked insertion, table by table -/

namespace Table

variable {K : Type} [DecidableEq K]

theorem other_eq_true (t : Table K) (k : K) (r : Nat) :
    t.other k r = true ↔ ∃ r', t.find k = some r' ∧ r' ≠ r := by
  unfold other
  cases h : t.find k with
  | none => simp
  | some e => simp

theorem other_eq_false (t : Table K) (k : K) (r : Nat) :
    t.other k r = false ↔ t.find k = none ∨ t.find k = some r := by
  unfold other
  cases h : t.find k with
  | none => simp
  | some e => simp

theorem other_congr (t t' : Table K) (r : Nat)
    (h : ∀ k, (t.eraseValue r).find k = (t'.eraseValue r).find k) (k : K) :
    t.other k r = t'.other k r := by
  have hk := h k
  rw [find_eraseValue, find_eraseValue] at hk
  unfold other
  cases h1 : t.find k with
  | none =>
    cases h2 : t'.find k with
    | none => rfl
    | some b =>
      rw [h1, h2] at hk
      by_cases hb : b = r
      · simp [hb]
      · simp [hb] at hk
  | some a =>
    cases h2 : t'.find k with
    | none =>
      rw [h1, h2] at hk
      by_cases ha : a = r
      · simp [ha]
      · simp [ha] at hk
    | some b =>
      rw [h1, h2] at hk
      by_cases ha : a = r
      · by_cases hb : b = r
        · simp [ha, hb]
        · simp [ha, hb] at hk
      · by_cases hb : b = r
        · simp [ha, hb] at hk
        · simp only [Option.some.injEq, ha, if_false, hb] at hk
          simp [hk]

theorem erase_assign (t : Table K) (k : K) (r : Nat) (h : t.other k r = false) (k' : K) :
    ((t.assign k r).eraseValue r).find k' = (t.eraseValue r).find k' := by
  rw [find_eraseValue, find_eraseValue, find_assign]
  by_cases hk : k' = k
  · subst hk
    rcases (other_eq_false t k' r).1 h with h0 | h0 <;> simp [h0]
  · simp [hk]

theorem find_foldl_assign (ks : List K) (r : Nat) (t : Table K) (k : K) :
    (ks.foldl (fun t key => t.assign key r) t).find k =
      if k ∈ ks then some r else t.find k := by
  induction ks generalizing t with
  | nil => simp
  | cons a ks ih =>
    rw [List.foldl_cons, ih, find_assign]
    by_cases h1 : k ∈ ks
    · simp [h1]
    · by_cases h2 : k = a
      · simp [h2]
      · simp [h1, h2]

theorem insertAll_ok (r : Nat) (ks : List K) (t : Table K)
    (h : ∀ k ∈ ks, t.other k r = false) :
    ∃ t', insertAll r ks t = .ok t' ∧
      ∀ k, t'.find k = if k ∈ ks then some r else t.find k := by
  induction ks generalizing t with
  | nil => exact ⟨t, rfl, fun k => by simp⟩
  | cons a ks ih =>
    have ha : t.other a r = false := h a (List.mem_cons_self a ks)
    have hrest : ∀ k ∈ ks, (t.assign a r).other k r = false := by
      intro k hk
      rw [other_congr (t.assign a r) t r (erase_assign t a r ha)]
      exact h k (List.mem_cons_of_mem a hk)
    obtain ⟨t', h1, h2⟩ := ih (t.assign a r) hrest
    refine ⟨t', ?_, ?_⟩
    · simp only [insertAll, ha, Bool.not_false, if_true]
      exact h1
    · intro k
      rw [h2, find_assign]
      by_cases hk : k ∈ ks
      · simp [hk]
      · by_cases hka : k = a
        · simp [hka]
        · simp [hk, hka]

theorem insertAll_error (r : Nat) (ks : List K) (t : Table K)
    (h : ∃ k ∈ ks, t.other k r = true) :
    ∃ k t', insertAll r ks t = .error (k, t') ∧ k ∈ ks ∧
      ∀ k', (t'.eraseValue r).find k' = (t.eraseValue r).find k' := by
  induction ks generalizing t with
  | nil =>
    obtain ⟨k, hk, _⟩ := h
    cases hk
  | cons a ks ih =>
    by_cases ha : t.other a r = true
    · refine ⟨a, t, ?_, List.mem_cons_self a ks, fun _ => rfl⟩
      simp [insertAll, ha]
    · have ha' : t.other a r = false := by simpa using ha
      have hrest : ∃ k ∈ ks, (t.assign a r).other k r = true := by
        obtain ⟨k, hk, hko⟩ := h
        rcases List.mem_cons.1 hk with hka | hks
        · rw [hka] at hko
          exact absurd hko ha
        · refine ⟨k, hks, ?_⟩
          rw [other_congr (t.assign a r) t r (erase_assign t a r ha')]
          exact hko
      obtain ⟨k, t', h1, h2, h3⟩ := ih (t.assign a r) hrest
      refine ⟨k, t', ?_, List.mem_cons_of_mem a h2, ?_⟩
      · simp only [insertAll, ha', Bool.not_false, if_true]
        exact h1
      · intro k'
        rw [h3, erase_assign t a r ha']

end Table

/-! ### The three insertion phases of `AddRtpReceiver` -/

namespace RtpListener

theorem addSsrc_andThen (r : Nat) (prev : Previous) (s : Nat) (ks : List Nat)
    (f : RtpListener → Result)
    (hf : ∀ l, f l = ssrcOutcome r prev l (Table.insertAll r ks l.ssrcTable))
    (l : RtpListener) :
    (addSsrc r prev s l).andThen f =
      ssrcOutcome r prev l
        (Table.insertAll r ([s].filter (fun s => decide (s ≠ 0)) ++ ks) l.ssrcTable) := by
  by_cases hs : s = 0
  · subst hs
    simp [addSsrc, Result.andThen, hf]
  · by_cases ho : l.ssrcTable.other s r = true
    · have hh : l.HasSsrc s r = true := ho
      simp [addSsrc, Result.andThen, hs, hh, Table.insertAll, ho, ssrcOutcome, rollbackAndThrow]
    · have ho' : l.ssrcTable.other s r = false := by simpa using ho
      have hh : l.HasSsrc s r = false := ho'
      simp [addSsrc, Result.andThen, hs, hh, Table.insertAll, ho', hf, ssrcOutcome]

theorem addSsrcEntries_eq (r : Nat) (prev : Previous) (encodings : List RtpEncodingParameters)
    (l : RtpListener) :
    addSsrcEntries r prev encodings l =
      ssrcOutcome r prev l (Table.insertAll r (ssrcsOf encodings) l.ssrcTable) := by
  induction encodings generalizing l with
  | nil => rfl
  | cons e rest ih =>
    have hks : ssrcsOf (e :: rest) =
        [e.ssrc].filter (fun s => decide (s ≠ 0)) ++
          ([e.rtx.ssrc].filter (fun s => decide (s ≠ 0)) ++
            ([e.fec.ssrc].filter (fun s => decide (s ≠ 0)) ++ ssrcsOf rest)) := by
      have h3 : [e.ssrc, e.rtx.ssrc, e.fec.ssrc] = [e.ssrc] ++ ([e.rtx.ssrc] ++ [e.fec.ssrc]) :=
        rfl
      simp only [ssrcsOf, List.flatMap_cons]
      rw [h3]
      simp only [List.filter_append, List.append_assoc]
    rw [hks]
    unfold addSsrcEntries
    exact addSsrc_andThen r prev _ _ _
      (fun l1 => addSsrc_andThen r prev _ _ _
        (fun l2 => addSsrc_andThen r prev _ _ _ (fun l3 => ih l3) l2) l1) l

theorem addPayloadTypes_eq (r : Nat) (prev : Previous) (codecs : List RtpCodecParameters)
    (l : RtpListener) :
    addPayloadTypes r prev codecs l =
      ptOutcome r prev l
        (Table.insertAll r (codecs.map RtpCodecParameters.payloadType) l.ptTable) := by
  induction codecs generalizing l with
  | nil => rfl
  | cons c rest ih =>
    by_cases ho : l.ptTable.other c.payloadType r = true
    · have hh : l.HasPayloadType c.payloadType r = true := ho
      simp [addPayloadTypes, hh, Table.insertAll, ho, ptOutcome]
    · have ho' : l.ptTable.other c.payloadType r = false := by simpa using ho
      have hh : l.HasPayloadType c.payloadType r = false := ho'
      simp [addPayloadTypes, hh, Table.insertAll, ho', ih, ptOutcome]

end RtpListener

namespace Table

variable {K : Type} [DecidableEq K]

theorem erase_of_find (t t' : Table K) (r : Nat) (P : K → Prop) [DecidablePred P]
    (h : ∀ k, t'.find k = if P k then some r else t.find k)
    (hP : ∀ k, P k → t.other k r = false) (k : K) :
    (t'.eraseValue r).find k = (t.eraseValue r).find k := by
  rw [find_eraseValue, find_eraseValue, h]
  by_cases hk : P k
  · rcases (other_eq_false t k r).1 (hP k hk) with h0 | h0 <;> simp [hk, h0]
  · simp [hk]

theorem erase_erase (t : Table K) (r : Nat) (k : K) :
    ((t.eraseValue r).eraseValue r).find k = (t.eraseValue r).find k := by
  rw [find_eraseValue]
  by_cases h : (t.eraseValue r).find k = some r
  · rw [find_eraseValue] at h
    by_cases h' : t.find k = some r
    · simp [h'] at h
    · simp only [h', if_false] at h
  · simp [h]

theorem find_erase_ne (t : Table K) (r : Nat) (k : K) : (t.eraseValue r).find k ≠ some r := by
  rw [find_eraseValue]
  by_cases h : t.find k = some r
  · simp [h]
  · simp [h]

theorem other_erase (t : Table K) (r : Nat) (k : K) :
    (t.eraseValue r).other k r = t.other k r :=
  other_congr _ _ r (erase_erase t r) k

end Table

namespace RtpListener

theorem addSsrcEntries_ok (r : Nat) (prev : Previous) (encodings : List RtpEncodingParameters)
    (l : RtpListener) (h : ∀ k ∈ ssrcsOf encodings, l.ssrcTable.other k r = false) :
    ∃ t, addSsrcEntries r prev encodings l = .returned { l with ssrcTable := t } ∧
      ∀ k, t.find k = if k ∈ ssrcsOf encodings then some r else l.ssrcTable.find k := by
  obtain ⟨t, h1, h2⟩ := Table.insertAll_ok r (ssrcsOf encodings) l.ssrcTable h
  exact ⟨t, by rw [addSsrcEntries_eq, h1]; rfl, h2⟩

theorem addSsrcEntries_err (r : Nat) (prev : Previous) (encodings : List RtpEncodingParameters)
    (l : RtpListener) (h : ∃ k ∈ ssrcsOf encodings, l.ssrcTable.other k r = true) :
    ∃ k t, addSsrcEntries r prev encodings l =
        rollbackAndThrow { l with ssrcTable := t } r prev (.ssrcExists k) ∧
      ∀ k', (t.eraseValue r).find k' = (l.ssrcTable.eraseValue r).find k' := by
  obtain ⟨k, t, h1, _, h3⟩ := Table.insertAll_error r (ssrcsOf encodings) l.ssrcTable h
  exact ⟨k, t, by rw [addSsrcEntries_eq, h1]; rfl, h3⟩

theorem addMuxIdEntry_ok (r : Nat) (prev : Previous) (muxId : String) (l : RtpListener)
    (h : ¬ (muxId ≠ "" ∧ l.muxIdTable.other muxId r = true)) :
    ∃ t, addMuxIdEntry r prev muxId l = .returned { l with muxIdTable := t } ∧
      ∀ k, t.find k = if muxId ≠ "" ∧ k = muxId then some r else l.muxIdTable.find k := by
  by_cases hm : muxId = ""
  · exact ⟨l.muxIdTable, by simp [addMuxIdEntry, hm], fun k => by simp [hm]⟩
  · have ho : l.muxIdTable.other muxId r = false := by simpa [hm] using h
    have hh : l.HasMuxId muxId r = false := ho
    refine ⟨l.muxIdTable.assign muxId r, by simp [addMuxIdEntry, hm, hh], fun k => ?_⟩
    rw [Table.find_assign]
    simp [hm]

theorem addMuxIdEntry_err (r : Nat) (prev : Previous) (muxId : String) (l : RtpListener)
    (h : muxId ≠ "" ∧ l.muxIdTable.other muxId r = true) :
    addMuxIdEntry r prev muxId l = rollbackAndThrow l r prev (.muxIdExists muxId) := by
  have hh : l.HasMuxId muxId r = true := h.2
  simp [addMuxIdEntry, h.1, hh]

theorem find_lacks_isSome (p : RtpParameters) :
    (p.encodings.find? lacksSsrc).isSome = true ↔ lacks p := by
  rw [List.find?_isSome]
  rfl

theorem addPtEntries_ok (r : Nat) (prev : Previous) (p : RtpParameters) (l : RtpListener)
    (h : ¬ (lacks p ∧ ∃ k ∈ ptsOf p, l.ptTable.other k r = true)) :
    ∃ t, addPtEntries r prev p l = .returned { l with ptTable := t } ∧
      ∀ k, t.find k = if lacks p ∧ k ∈ ptsOf p then some r else l.ptTable.find k := by
  by_cases hl : lacks p
  · have ho : ∀ k ∈ ptsOf p, l.ptTable.other k r = false := by
      intro k hk
      by_contra hc
      exact h ⟨hl, k, hk, by simpa using hc⟩
    obtain ⟨t, h1, h2⟩ := Table.insertAll_ok r (ptsOf p) l.ptTable ho
    refine ⟨t, ?_, fun k => by rw [h2]; simp [hl]⟩
    have hs := (find_lacks_isSome p).2 hl
    simp only [addPtEntries, hs, if_true, addPayloadTypes_eq]
    unfold ptsOf at h1
    rw [h1]
    rfl
  · refine ⟨l.ptTable, ?_, fun k => by simp [hl]⟩
    have hs : (p.encodings.find? lacksSsrc).isSome = false := by
      rw [← Bool.not_eq_true, find_lacks_isSome]
      exact hl
    simp [addPtEntries, hs]

theorem addPtEntries_err (r : Nat) (prev : Previous) (p : RtpParameters) (l : RtpListener)
    (h : lacks p ∧ ∃ k ∈ ptsOf p, l.ptTable.other k r = true) :
    ∃ k t, addPtEntries r prev p l =
        rollbackAndThrow { l with ptTable := t } r prev (.payloadTypeExists k) ∧
      ∀ k', (t.eraseValue r).find k' = (l.ptTable.eraseValue r).find k' := by
  obtain ⟨k, t, h1, _, h3⟩ := Table.insertAll_error r (ptsOf p) l.ptTable h.2
  refine ⟨k, t, ?_, h3⟩
  have hs := (find_lacks_isSome p).2 h.1
  simp only [addPtEntries, hs, if_true, addPayloadTypes_eq]
  unfold ptsOf at h1
  rw [h1]
  rfl

end RtpListener

/-! ### `AddRtpReceiver` as a whole -/

namespace RtpListener

theorem insertEntries_ok (r : Nat) (prev : Previous) (p : RtpParameters) (b : RtpListener)
    (h : ¬ collides p b r) :
    ∃ l', insertEntries r prev p b = .returned l' ∧
      (∀ k, l'.ssrcTable.find k =
        if k ∈ ssrcsOf p.encodings then some r else b.ssrcTable.find k) ∧
      (∀ k, l'.muxIdTable.find k =
        if p.muxId ≠ "" ∧ k = p.muxId then some r else b.muxIdTable.find k) ∧
      (∀ k, l'.ptTable.find k = if lacks p ∧ k ∈ ptsOf p then some r else b.ptTable.find k) := by
  unfold collides at h
  simp only [not_or] at h
  obtain ⟨hs, hm, hp⟩ := h
  have hs' : ∀ k ∈ ssrcsOf p.encodings, b.ssrcTable.other k r = false := by
    intro k hk
    by_contra hc
    exact hs ⟨k, hk, by simpa using hc⟩
  obtain ⟨t1, e1, f1⟩ := addSsrcEntries_ok r prev p.encodings b hs'
  obtain ⟨t2, e2, f2⟩ := addMuxIdEntry_ok r prev p.muxId { b with ssrcTable := t1 } hm
  obtain ⟨t3, e3, f3⟩ :=
    addPtEntries_ok r prev p { b with ssrcTable := t1, muxIdTable := t2 } hp
  refine ⟨{ ssrcTable := t1, muxIdTable := t2, ptTable := t3 }, ?_, f1, f2, f3⟩
  unfold insertEntries
  rw [e1]
  simp only [Result.andThen]
  rw [e2]
  simp only [Result.andThen]
  exact e3

theorem insertEntries_err (r : Nat) (prev : Previous) (p : RtpParameters) (b : RtpListener)
    (h : collides p b r) :
    ∃ e l'', insertEntries r prev p b = rollbackAndThrow l'' r prev e ∧
      MapEq (l''.RemoveRtpReceiver r) (b.RemoveRtpReceiver r) := by
  by_cases hs : ∃ k ∈ ssrcsOf p.encodings, b.ssrcTable.other k r = true
  · obtain ⟨k, t, e1, f1⟩ := addSsrcEntries_err r prev p.encodings b hs
    refine ⟨.ssrcExists k, { b with ssrcTable := t }, ?_, f1, fun _ => rfl, fun _ => rfl⟩
    unfold insertEntries
    rw [e1]
    rfl
  · have hs' : ∀ k ∈ ssrcsOf p.encodings, b.ssrcTable.other k r = false := by
      intro k hk
      by_contra hc
      exact hs ⟨k, hk, by simpa using hc⟩
    obtain ⟨t1, e1, f1⟩ := addSsrcEntries_ok r prev p.encodings b hs'
    have g1 := Table.erase_of_find b.ssrcTable t1 r (fun k => k ∈ ssrcsOf p.encodings) f1 hs'
    by_cases hm : p.muxId ≠ "" ∧ b.muxIdTable.other p.muxId r = true
    · refine ⟨.muxIdExists p.muxId, { b with ssrcTable := t1 }, ?_, g1, fun _ => rfl,
        fun _ => rfl⟩
      unfold insertEntries
      rw [e1]
      simp only [Result.andThen]
      rw [addMuxIdEntry_err r prev p.muxId { b with ssrcTable := t1 } hm]
      rfl
    · obtain ⟨t2, e2, f2⟩ := addMuxIdEntry_ok r prev p.muxId { b with ssrcTable := t1 } hm
      have hm' : ∀ k, (p.muxId ≠ "" ∧ k = p.muxId) → b.muxIdTable.other k r = false := by
        intro k hk
        by_contra hc
        exact hm ⟨hk.1, by rw [← hk.2]; simpa using hc⟩
      have g2 := Table.erase_of_find b.muxIdTable t2 r (fun k => p.muxId ≠ "" ∧ k = p.muxId)
        f2 hm'
      have hp : lacks p ∧ ∃ k ∈ ptsOf p, b.ptTable.other k r = true := by
        rcases h with h | h | h
        · exact absurd h hs
        · exact absurd h hm
        · exact h
      obtain ⟨k, t3, e3, f3⟩ :=
        addPtEntries_err r prev p { b with ssrcTable := t1, muxIdTable := t2 } hp
      refine ⟨.payloadTypeExists k, { ssrcTable := t1, muxIdTable := t2, ptTable := t3 }, ?_,
        g1, g2, f3⟩
      unfold insertEntries
      rw [e1]
      simp only [Result.andThen]
      rw [e2]
      simp only [Result.andThen]
      exact e3

theorem AddRtpReceiver_eq (recv : Receivers) (l : RtpListener) (r : Nat) :
    AddRtpReceiver recv l r =
      insertEntries r (previousOf l r) (recv r) (l.RemoveRtpReceiver r) := rfl

theorem collides_remove (p : RtpParameters) (l : RtpListener) (r : Nat) :
    collides p (l.RemoveRtpReceiver r) r ↔ collides p l r := by
  unfold collides RemoveRtpReceiver
  simp only [Table.other_erase]

theorem AddRtpReceiver_ok (recv : Receivers) (l : RtpListener) (r : Nat)
    (h : ¬ collides (recv r) l r) :
    ∃ l', AddRtpReceiver recv l r = .returned l' ∧
      (∀ k, l'.ssrcTable.find k =
        if k ∈ ssrcsOf (recv r).encodings then some r else (l.ssrcTable.eraseValue r).find k) ∧
      (∀ k, l'.muxIdTable.find k =
        if (recv r).muxId ≠ "" ∧ k = (recv r).muxId then some r
        else (l.muxIdTable.eraseValue r).find k) ∧
      (∀ k, l'.ptTable.find k =
        if lacks (recv r) ∧ k ∈ ptsOf (recv r) then some r
        else (l.ptTable.eraseValue r).find k) := by
  rw [AddRtpReceiver_eq]
  exact insertEntries_ok r _ (recv r) _ (fun hc => h ((collides_remove _ _ _).1 hc))

theorem AddRtpReceiver_err (recv : Receivers) (l : RtpListener) (r : Nat)
    (h : collides (recv r) l r) :
    ∃ e l'', AddRtpReceiver recv l r = rollbackAndThrow l'' r (previousOf l r) e ∧
      MapEq (l''.RemoveRtpReceiver r) (l.RemoveRtpReceiver r) := by
  rw [AddRtpReceiver_eq]
  obtain ⟨e, l'', h1, h2, h3, h4⟩ :=
    insertEntries_err r (previousOf l r) (recv r) _ ((collides_remove _ _ _).2 h)
  refine ⟨e, l'', h1, ?_, ?_, ?_⟩
  · intro k
    rw [h2]
    exact Table.erase_erase _ _ _
  · intro k
    rw [h3]
    exact Table.erase_erase _ _ _
  · intro k
    rw [h4]
    exact Table.erase_erase _ _ _

theorem rollback_restores (l l'' : RtpListener) (r : Nat) (hmux : MuxOk l)
    (h : MapEq (l''.RemoveRtpReceiver r) (l.RemoveRtpReceiver r)) :
    MapEq
      (RollbackRtpReceiver (l''.RemoveRtpReceiver r) r (previousOf l r).ssrcs
        (previousOf l r).muxId (previousOf l r).payloadTypes) l := by
  obtain ⟨h1, h2, h3⟩ := h
  refine ⟨?_, ?_, ?_⟩
  · intro k
    simp only [RollbackRtpReceiver, previousOf]
    rw [Table.find_foldl_assign, h1]
    simp only [RemoveRtpReceiver, Table.mem_keysOf, Table.find_eraseValue]
    by_cases hk : l.ssrcTable.find k = some r
    · simp [hk]
    · simp [hk]
  · intro k
    simp only [RollbackRtpReceiver, previousOf]
    cases hf : l.muxIdTable.firstKeyOf r with
    | none =>
      have hn := Table.firstKeyOf_eq_none l.muxIdTable r hf
      simp only [Option.getD_none, ne_eq, not_true_eq_false, if_false]
      rw [h2]
      simp only [RemoveRtpReceiver, Table.find_eraseValue, hn k, if_false]
    | some m =>
      have hm := Table.firstKeyOf_eq_some l.muxIdTable r m hf
      obtain ⟨hne, huniq⟩ := hmux r m hm
      simp only [Option.getD_some, ne_eq, hne, not_false_eq_true, if_true]
      rw [Table.find_assign, h2]
      simp only [RemoveRtpReceiver, Table.find_eraseValue]
      by_cases hk : k = m
      · simp [hk, hm]
      · have hkr : l.muxIdTable.find k ≠ some r := fun hc => hk (huniq k hc)
        simp [hk, hkr]
  · intro k
    simp only [RollbackRtpReceiver, previousOf]
    rw [Table.find_foldl_assign, h3]
    simp only [RemoveRtpReceiver, Table.mem_keysOf, Table.find_eraseValue]
    by_cases hk : l.ptTable.find k = some r
    · simp [hk]
    · simp [hk]

theorem threw_mapEq (recv : Receivers) (l : RtpListener) (r : Nat)
    (hmux : MuxOk l) (e : MediaSoupError) (l' : RtpListener)
    (h : AddRtpReceiver recv l r = .threw e l') : MapEq l' l := by
  by_cases hc : collides (recv r) l r
  · obtain ⟨e', l'', h1, h2⟩ := AddRtpReceiver_err recv l r hc
    rw [h1] at h
    simp only [rollbackAndThrow, Result.threw.injEq] at h
    rw [← h.2]
    exact rollback_restores l l'' r hmux h2
  · obtain ⟨l1, h1, _⟩ := AddRtpReceiver_ok recv l r hc
    rw [h1] at h
    cases h

theorem threw_iff_collides (recv : Receivers) (l : RtpListener) (r : Nat) :
    (∃ e l', AddRtpReceiver recv l r = .threw e l') ↔ collides (recv r) l r := by
  constructor
  · rintro ⟨e, l', h⟩
    by_contra hc
    obtain ⟨l1, h1, _⟩ := AddRtpReceiver_ok recv l r hc
    rw [h1] at h
    cases h
  · intro hc
    obtain ⟨e, l'', h1, _⟩ := AddRtpReceiver_err recv l r hc
    exact ⟨e, _, h1⟩

end RtpListener

/-! ### The invariant of the reachable states -/

namespace Table

variable {K : Type} [DecidableEq K]

theorem find_other_iff (t t' : Table K) (r : Nat) (P : K → Prop) [DecidablePred P]
    (h : ∀ k, t'.find k = if P k then some r else (t.eraseValue r).find k)
    (hP : ∀ k, P k → t.other k r = false) (r' : Nat) (hr : r' ≠ r) (k : K) :
    t'.find k = some r' ↔ t.find k = some r' := by
  rw [h, find_eraseValue]
  by_cases hk : P k
  · have hr' : ¬ r = r' := fun hc => hr hc.symm
    rcases (other_eq_false t k r).1 (hP k hk) with h0 | h0
    · simp [hk, h0, hr']
    · simp [hk, h0, hr']
  · by_cases h1 : t.find k = some r
    · have hr' : ¬ r = r' := fun hc => hr hc.symm
      simp [hk, h1, hr']
    · simp [hk, h1]

end Table

namespace RtpListener

theorem Inv.muxOk {recv : Receivers} {l : RtpListener} (h : Inv recv l) : MuxOk l := by
  intro r k hk
  refine ⟨((h r).1 k hk).2, fun k' hk' => ?_⟩
  rw [((h r).1 k hk).1, ((h r).1 k' hk').1]

theorem Inv.of_mapEq {recv : Receivers} {l l' : RtpListener} (h : Inv recv l)
    (he : MapEq l' l) : Inv recv l' := by
  obtain ⟨e1, e2, e3⟩ := he
  intro r
  refine ⟨?_, ?_, ?_⟩
  · intro k hk
    rw [e2] at hk
    exact (h r).1 k hk
  · intro k hk
    rw [e3] at hk
    exact (h r).2.1 k hk
  · intro href s hs
    rw [e1]
    apply (h r).2.2 _ s hs
    unfold References at href ⊢
    simp only [e1, e2, e3] at href
    exact href

theorem Inv.start (recv : Receivers) : Inv recv empty := by
  intro r
  refine ⟨?_, ?_, ?_⟩
  · intro k hk
    cases hk
  · intro k hk
    cases hk
  · rintro (⟨k, hk⟩ | ⟨k, hk⟩ | ⟨k, hk⟩) <;> cases hk

theorem find_remove_iff {K : Type} [DecidableEq K] (t : Table K) (r r' : Nat) (k : K) :
    (t.eraseValue r).find k = some r' ↔ t.find k = some r' ∧ r' ≠ r := by
  rw [Table.find_eraseValue]
  by_cases h : t.find k = some r
  · simp only [h, if_true, reduceCtorEq, Option.some.injEq, false_iff, not_and, not_not]
    exact fun hc => hc.symm
  · simp only [h, if_false, iff_self_and]
    intro hk hc
    exact h (hc ▸ hk)

theorem Inv.remove {recv : Receivers} {l : RtpListener} (h : Inv recv l) (r0 : Nat) :
    Inv recv (l.RemoveRtpReceiver r0) := by
  intro r
  refine ⟨?_, ?_, ?_⟩
  · intro k hk
    exact (h r).1 k ((find_remove_iff _ _ _ _).1 hk).1
  · intro k hk
    exact (h r).2.1 k ((find_remove_iff _ _ _ _).1 hk).1
  · intro href s hs
    have hne : r ≠ r0 := by
      rcases href with ⟨k, hk⟩ | ⟨k, hk⟩ | ⟨k, hk⟩ <;> exact ((find_remove_iff _ _ _ _).1 hk).2
    have href' : References l r := by
      rcases href with ⟨k, hk⟩ | ⟨k, hk⟩ | ⟨k, hk⟩
      · exact Or.inl ⟨k, ((find_remove_iff _ _ _ _).1 hk).1⟩
      · exact Or.inr (Or.inl ⟨k, ((find_remove_iff _ _ _ _).1 hk).1⟩)
      · exact Or.inr (Or.inr ⟨k, ((find_remove_iff _ _ _ _).1 hk).1⟩)
    exact (find_remove_iff _ _ _ _).2 ⟨(h r).2.2 href' s hs, hne⟩

theorem Inv.get {recv : Receivers} {l : RtpListener} (h : Inv recv l) (packet : RtpPacket) :
    Inv recv (GetRtpReceiver recv l packet).2 := by
  unfold GetRtpReceiver
  cases h1 : l.ssrcTable.find packet.ssrc with
  | some r0 =>
    simp only
    split <;> exact h
  | none =>
    cases h2 : l.ptTable.find packet.payloadType with
    | none => exact h
    | some r0 =>
      simp only
      intro r
      refine ⟨(h r).1, (h r).2.1, ?_⟩
      intro href s hs
      have href' : References l r := by
        rcases href with ⟨k, hk⟩ | ⟨k, hk⟩ | ⟨k, hk⟩
        · simp only [Table.find_assign] at hk
          by_cases hkp : k = packet.ssrc
          · simp only [hkp, if_true, Option.some.injEq] at hk
            exact Or.inr (Or.inr ⟨packet.payloadType, hk ▸ h2⟩)
          · simp only [hkp, if_false] at hk
            exact Or.inl ⟨k, hk⟩
        · exact Or.inr (Or.inl ⟨k, hk⟩)
        · exact Or.inr (Or.inr ⟨k, hk⟩)
      have hfs := (h r).2.2 href' s hs
      simp only [Table.find_assign]
      have hsp : s ≠ packet.ssrc := by
        intro hc
        rw [hc, h1] at hfs
        cases hfs
      simp only [hsp, if_false]
      exact hfs

theorem Inv.add {recv : Receivers} {l : RtpListener} (h : Inv recv l) (r0 : Nat) :
    Inv recv (AddRtpReceiver recv l r0).listener := by
  by_cases hc : collides (recv r0) l r0
  · obtain ⟨e, l', he⟩ := (threw_iff_collides recv l r0).2 hc
    rw [he]
    exact h.of_mapEq (threw_mapEq recv l r0 h.muxOk e l' he)
  · obtain ⟨l', he, f1, f2, f3⟩ := AddRtpReceiver_ok recv l r0 hc
    rw [he]
    simp only [Result.listener]
    unfold collides at hc
    simp only [not_or] at hc
    obtain ⟨hs, hm, hp⟩ := hc
    have hs' : ∀ k, k ∈ ssrcsOf (recv r0).encodings → l.ssrcTable.other k r0 = false := by
      intro k hk
      by_contra hcon
      exact hs ⟨k, hk, by simpa using hcon⟩
    have hm' : ∀ k, ((recv r0).muxId ≠ "" ∧ k = (recv r0).muxId) →
        l.muxIdTable.other k r0 = false := by
      intro k hk
      by_contra hcon
      exact hm ⟨hk.1, by rw [← hk.2]; simpa using hcon⟩
    have hp' : ∀ k, (lacks (recv r0) ∧ k ∈ ptsOf (recv r0)) → l.ptTable.other k r0 = false := by
      intro k hk
      by_contra hcon
      exact hp ⟨hk.1, k, hk.2, by simpa using hcon⟩
    intro r
    by_cases hr : r = r0
    · subst hr
      refine ⟨?_, ?_, ?_⟩
      · intro k hk
        rw [f2] at hk
        by_cases hk' : (recv r).muxId ≠ "" ∧ k = (recv r).muxId
        · exact ⟨hk'.2, hk'.2 ▸ hk'.1⟩
        · rw [if_neg hk'] at hk
          exact absurd hk (Table.find_erase_ne _ _ _)
      · intro k hk
        rw [f3] at hk
        by_cases hk' : lacks (recv r) ∧ k ∈ ptsOf (recv r)
        · exact ⟨hk'.2, hk'.1⟩
        · rw [if_neg hk'] at hk
          exact absurd hk (Table.find_erase_ne _ _ _)
      · intro _ s hs0
        rw [f1, if_pos hs0]
    · have g1 := fun k => Table.find_other_iff l.ssrcTable l'.ssrcTable r0 _ f1 hs' r hr k
      have g2 := fun k => Table.find_other_iff l.muxIdTable l'.muxIdTable r0 _ f2 hm' r hr k
      have g3 := fun k => Table.find_other_iff l.ptTable l'.ptTable r0 _ f3 hp' r hr k
      refine ⟨?_, ?_, ?_⟩
      · intro k hk
        exact (h r).1 k ((g2 k).1 hk)
      · intro k hk
        exact (h r).2.1 k ((g3 k).1 hk)
      · intro href s hs0
        rw [g1]
        apply (h r).2.2 _ s hs0
        unfold References at href ⊢
        simp only [g1, g2, g3] at href
        exact href

theorem Reachable.inv {recv : Receivers} {l : RtpListener} (h : Reachable recv l) :
    Inv recv l := by
  induction h with
  | start => exact Inv.start recv
  | add l r _ ih => exact ih.add r
  | remove l r _ ih => exact ih.remove r
  | get l packet _ ih => exact ih.get packet

end RtpListener

/-! ### From the working notions to the parameters themselves -/

namespace RtpListener

theorem mem_ssrcsOf (encodings : List RtpEncodingParameters) (s : Nat) :
    s ∈ ssrcsOf encodings ↔
      s ≠ 0 ∧ ∃ enc ∈ encodings, s = enc.ssrc ∨ s = enc.rtx.ssrc ∨ s = enc.fec.ssrc := by
  simp only [ssrcsOf, List.mem_filter, List.mem_flatMap, List.mem_cons, List.mem_singleton,
    List.not_mem_nil, or_false, decide_eq_true_eq]
  exact and_comm

theorem lacks_iff (p : RtpParameters) :
    lacks p ↔ ∃ enc ∈ p.encodings,
      enc.ssrc = 0 ∨ (enc.hasRtx = true ∧ enc.rtx.ssrc = 0) ∨
        (enc.hasFec = true ∧ enc.fec.ssrc = 0) := by
  simp only [lacks, lacksSsrc, Bool.or_eq_true, Bool.and_eq_true, beq_iff_eq, or_assoc]

theorem mem_ptsOf (p : RtpParameters) (k : Nat) :
    k ∈ ptsOf p ↔ ∃ c ∈ p.codecs, c.payloadType = k := by
  simp only [ptsOf, List.mem_map]

theorem collides_iff (p : RtpParameters) (l : RtpListener) (r : Nat) :
    collides p l r ↔
      ((∃ enc ∈ p.encodings, ∃ s, (s = enc.ssrc ∨ s = enc.rtx.ssrc ∨ s = enc.fec.ssrc) ∧
          s ≠ 0 ∧ ∃ r', l.ssrcTable.find s = some r' ∧ r' ≠ r) ∨
        (p.muxId ≠ "" ∧ ∃ r', l.muxIdTable.find p.muxId = some r' ∧ r' ≠ r) ∨
        ((∃ enc ∈ p.encodings, enc.ssrc = 0 ∨ (enc.hasRtx = true ∧ enc.rtx.ssrc = 0) ∨
            (enc.hasFec = true ∧ enc.fec.ssrc = 0)) ∧
          ∃ c ∈ p.codecs, ∃ r', l.ptTable.find c.payloadType = some r' ∧ r' ≠ r)) := by
  unfold collides
  simp only [Table.other_eq_true, mem_ssrcsOf, lacks_iff, mem_ptsOf]
  constructor
  · rintro (⟨k, ⟨hk0, enc, he, hk⟩, h⟩ | h | ⟨hl, k, ⟨c, hc, hck⟩, h⟩)
    · exact Or.inl ⟨enc, he, k, hk, hk0, h⟩
    · exact Or.inr (Or.inl h)
    · exact Or.inr (Or.inr ⟨hl, c, hc, hck ▸ h⟩)
  · rintro (⟨enc, he, k, hk, hk0, h⟩ | h | ⟨hl, c, hc, h⟩)
    · exact Or.inl ⟨k, ⟨hk0, enc, he, hk⟩, h⟩
    · exact Or.inr (Or.inl h)
    · exact Or.inr (Or.inr ⟨hl, c.payloadType, ⟨c, hc, rfl⟩, h⟩)

theorem AddRtpReceiver_returned (recv : Receivers) (l l' : RtpListener) (r : Nat)
    (h : AddRtpReceiver recv l r = .returned l') :
    ¬ collides (recv r) l r ∧
      (∀ k, l'.ssrcTable.find k =
        if k ∈ ssrcsOf (recv r).encodings then some r else (l.ssrcTable.eraseValue r).find k) ∧
      (∀ k, l'.muxIdTable.find k =
        if (recv r).muxId ≠ "" ∧ k = (recv r).muxId then some r
        else (l.muxIdTable.eraseValue r).find k) ∧
      (∀ k, l'.ptTable.find k =
        if lacks (recv r) ∧ k ∈ ptsOf (recv r) then some r
        else (l.ptTable.eraseValue r).find k) := by
  have hc : ¬ collides (recv r) l r := by
    intro hc
    obtain ⟨e, l'', h1⟩ := (threw_iff_collides recv l r).2 hc
    rw [h1] at h
    cases h
  obtain ⟨l1, h1, f⟩ := AddRtpReceiver_ok recv l r hc
  rw [h1] at h
  cases h
  exact ⟨hc, f⟩

/-! ### The claims -/

theorem MuxOk_of_mapEq {l l' : RtpListener} (h : MuxOk l) (he : MapEq l' l) : MuxOk l' := by
  intro r k hk
  rw [he.2.1] at hk
  refine ⟨(h r k hk).1, fun k' hk' => ?_⟩
  rw [he.2.1] at hk'
  exact (h r k hk).2 k' hk'

theorem MuxOk_start : MuxOk empty := by
  intro r k hk
  cases hk

theorem MuxOk_remove {l : RtpListener} (h : MuxOk l) (r0 : Nat) :
    MuxOk (l.RemoveRtpReceiver r0) := by
  intro r k hk
  have hk0 := ((find_remove_iff _ _ _ _).1 hk).1
  exact ⟨(h r k hk0).1, fun k' hk' => (h r k hk0).2 k' ((find_remove_iff _ _ _ _).1 hk').1⟩

theorem MuxOk_get {l : RtpListener} (h : MuxOk l) (recv : Receivers) (packet : RtpPacket) :
    MuxOk (GetRtpReceiver recv l packet).2 := by
  have he : (GetRtpReceiver recv l packet).2.muxIdTable = l.muxIdTable := by
    unfold GetRtpReceiver
    split
    · simp only
      split <;> rfl
    · split <;> rfl
  intro r k hk
  rw [he] at hk
  refine ⟨(h r k hk).1, fun k' hk' => ?_⟩
  rw [he] at hk'
  exact (h r k hk).2 k' hk'

theorem MuxOk_add {l : RtpListener} (h : MuxOk l) (recv : Receivers) (r0 : Nat) :
    MuxOk (AddRtpReceiver recv l r0).listener := by
  by_cases hc : collides (recv r0) l r0
  · obtain ⟨e, l', he⟩ := (threw_iff_collides recv l r0).2 hc
    rw [he]
    exact MuxOk_of_mapEq h (threw_mapEq recv l r0 h e l' he)
  · obtain ⟨l', he, _, f2, _⟩ := AddRtpReceiver_ok recv l r0 hc
    rw [he]
    simp only [Result.listener]
    have hkey : ∀ r k, l'.muxIdTable.find k = some r →
        (r = r0 ∧ (recv r0).muxId ≠ "" ∧ k = (recv r0).muxId) ∨
        (r ≠ r0 ∧ l.muxIdTable.find k = some r) := by
      intro r k hk
      rw [f2] at hk
      by_cases hk' : (recv r0).muxId ≠ "" ∧ k = (recv r0).muxId
      · rw [if_pos hk'] at hk
        exact Or.inl ⟨(Option.some.inj hk).symm, hk'.1, hk'.2⟩
      · rw [if_neg hk'] at hk
        have := (find_remove_iff _ _ _ _).1 hk
        exact Or.inr ⟨this.2, this.1⟩
    intro r k hk
    rcases hkey r k hk with ⟨hr, hne, hkk⟩ | ⟨hr, hfind⟩
    · refine ⟨hkk ▸ hne, fun k' hk' => ?_⟩
      rcases hkey r k' hk' with ⟨_, _, hkk'⟩ | ⟨hr', _⟩
      · rw [hkk, hkk']
      · exact absurd hr hr'
    · refine ⟨(h r k hfind).1, fun k' hk' => ?_⟩
      rcases hkey r k' hk' with ⟨hr', _, _⟩ | ⟨_, hfind'⟩
      · exact absurd hr' hr
      · exact (h r k hfind).2 k' hfind'

theorem Reached_muxOk {l : RtpListener} (h : Reached l) : MuxOk l := by
  induction h with
  | start => exact MuxOk_start
  | add recv l r _ ih => exact MuxOk_add ih recv r
  | remove l r _ ih => exact MuxOk_remove ih r
  | get recv l packet _ ih => exact MuxOk_get ih recv packet

theorem Reachable.reached {recv : Receivers} {l : RtpListener} (h : Reachable recv l) :
    Reached l := by
  induction h with
  | start => exact Reached.start
  | add l r _ ih => exact Reached.add recv l r ih
  | remove l r _ ih => exact Reached.remove l r ih
  | get l packet _ ih => exact Reached.get recv l packet ih

/-- C1: in every listener state reached from empty tables by calls of `AddRtpReceiver`,
`RemoveRtpReceiver` and `GetRtpReceiver`, the parameters of the receivers being free to
change between the calls, and for every receiver R with any parameters: a call
`AddRtpReceiver(R)` that throws leaves the ssrc, muxId and payload type tables equal, as
maps, to what they were before the call; in particular every entry that R held before the
call, registered or promoted, is there again. -/
theorem AddRtpReceiver_failure_restores (recv : Receivers) (l l' : RtpListener)
    (rtpReceiver : Nat) (error : MediaSoupError) (hreach : Reached l)
    (hthrow : AddRtpReceiver recv l rtpReceiver = .threw error l') :
    (∀ ssrc, l'.ssrcTable.find ssrc = l.ssrcTable.find ssrc) ∧
    (∀ muxId, l'.muxIdTable.find muxId = l.muxIdTable.find muxId) ∧
    (∀ payloadType, l'.ptTable.find payloadType = l.ptTable.find payloadType) :=
  threw_mapEq recv l rtpReceiver (Reached_muxOk hreach) error l' hthrow

/-- Witness of C1, a rollback that has entries to restore: receiver 3 holds the muxId "mid",
payload type 96 and the promoted ssrc 0xCAFEBABE, receiver 1 holds ssrc 100; receiver 3 is
given new parameters that declare ssrc 100, `AddRtpReceiver` of receiver 3 throws, and every
table is as before, with the three entries of receiver 3 and no entry under its new muxId or
payload type. -/
theorem AddRtpReceiver_failure_restores_witness :
    AddRtpReceiver changedReceivers listenerPromoted 3 =
        .threw (.ssrcExists 100) (AddRtpReceiver changedReceivers listenerPromoted 3).listener ∧
      listenerPromoted.ssrcTable.find 100 = some 1 ∧
      listenerPromoted.ssrcTable.find 0xCAFEBABE = some 3 ∧
      listenerPromoted.muxIdTable.find "mid" = some 3 ∧
      listenerPromoted.ptTable.find 96 = some 3 ∧
      (AddRtpReceiver changedReceivers listenerPromoted 3).listener.ssrcTable.find 0xCAFEBABE =
        some 3 ∧
      (AddRtpReceiver changedReceivers listenerPromoted 3).listener.muxIdTable.find "mid" =
        some 3 ∧
      (AddRtpReceiver changedReceivers listenerPromoted 3).listener.muxIdTable.find "other" =
        none ∧
      (AddRtpReceiver changedReceivers listenerPromoted 3).listener.ptTable.find 96 = some 3 ∧
      (AddRtpReceiver changedReceivers listenerPromoted 3).listener.ptTable.find 99 = none ∧
      ((∀ ssrc, (AddRtpReceiver changedReceivers listenerPromoted 3).listener.ssrcTable.find ssrc =
          listenerPromoted.ssrcTable.find ssrc) ∧
        (∀ muxId,
          (AddRtpReceiver changedReceivers listenerPromoted 3).listener.muxIdTable.find muxId =
            listenerPromoted.muxIdTable.find muxId) ∧
        (∀ payloadType,
          (AddRtpReceiver changedReceivers listenerPromoted 3).listener.ptTable.find payloadType =
            listenerPromoted.ptTable.find payloadType)) :=
  ⟨rfl, by decide, by decide, by decide, by decide, by decide, by decide, by decide, by decide,
    by decide,
    AddRtpReceiver_failure_restores changedReceivers listenerPromoted _ 3 (.ssrcExists 100)
      (Reached.add sampleReceivers _ 1
        (Reached.get sampleReceivers _ cafePacket
          (Reached.add sampleReceivers empty 3 Reached.start))) rfl⟩

/-- C2: `AddRtpReceiver(R)` throws if and only if, in the tables before the call, a non-zero
`encoding.ssrc`, `encoding.rtx.ssrc` or `encoding.fec.ssrc` of R maps to a receiver other than
R in the ssrc table, or the non-empty muxId of R maps to another receiver in the muxId table,
or some encoding of R lacks a required ssrc and a codec payload type of R maps to another
receiver in the payload type table. -/
theorem AddRtpReceiver_throws_iff (recv : Receivers) (l : RtpListener) (rtpReceiver : Nat) :
    (∃ error l', AddRtpReceiver recv l rtpReceiver = .threw error l') ↔
      ((∃ enc ∈ (recv rtpReceiver).encodings, ∃ s,
          (s = enc.ssrc ∨ s = enc.rtx.ssrc ∨ s = enc.fec.ssrc) ∧ s ≠ 0 ∧
            ∃ r', l.ssrcTable.find s = some r' ∧ r' ≠ rtpReceiver) ∨
        ((recv rtpReceiver).muxId ≠ "" ∧
          ∃ r', l.muxIdTable.find (recv rtpReceiver).muxId = some r' ∧ r' ≠ rtpReceiver) ∨
        ((∃ enc ∈ (recv rtpReceiver).encodings,
            enc.ssrc = 0 ∨ (enc.hasRtx = true ∧ enc.rtx.ssrc = 0) ∨
              (enc.hasFec = true ∧ enc.fec.ssrc = 0)) ∧
          ∃ c ∈ (recv rtpReceiver).codecs,
            ∃ r', l.ptTable.find c.payloadType = some r' ∧ r' ≠ rtpReceiver)) := by
  rw [threw_iff_collides, collides_iff]

/-- C3: after `RemoveRtpReceiver(R)` each table is the table before the call restricted to
the entries whose value is not R: a key maps to a receiver afterwards exactly when it mapped
to that receiver before and that receiver is not R. -/
theorem RemoveRtpReceiver_restricts (l : RtpListener) (rtpReceiver : Nat) (r' : Nat) :
    (∀ ssrc, (l.RemoveRtpReceiver rtpReceiver).ssrcTable.find ssrc = some r' ↔
        l.ssrcTable.find ssrc = some r' ∧ r' ≠ rtpReceiver) ∧
    (∀ muxId, (l.RemoveRtpReceiver rtpReceiver).muxIdTable.find muxId = some r' ↔
        l.muxIdTable.find muxId = some r' ∧ r' ≠ rtpReceiver) ∧
    (∀ payloadType, (l.RemoveRtpReceiver rtpReceiver).ptTable.find payloadType = some r' ↔
        l.ptTable.find payloadType = some r' ∧ r' ≠ rtpReceiver) :=
  ⟨fun k => find_remove_iff _ _ _ k, fun k => find_remove_iff _ _ _ k,
    fun k => find_remove_iff _ _ _ k⟩

/-- C4: in every listener state reached from empty tables (receiver parameters fixed), for
every receiver R: a muxId entry pointing to R has R's muxId as key, and that key is not
empty; a payload type entry pointing to R has the payload type of one of R's codecs as key,
and exists only if some encoding of R lacks a required ssrc; and if any table references R,
every non-zero ssrc, rtx ssrc and fec ssrc of R's encodings maps to R in the ssrc table. -/
theorem Reachable_invariant (recv : Receivers) (l : RtpListener) (rtpReceiver : Nat)
    (hreach : Reachable recv l) :
    (∀ muxId, l.muxIdTable.find muxId = some rtpReceiver →
        muxId = (recv rtpReceiver).muxId ∧ muxId ≠ "") ∧
    (∀ payloadType, l.ptTable.find payloadType = some rtpReceiver →
        (∃ c ∈ (recv rtpReceiver).codecs, c.payloadType = payloadType) ∧
        ∃ enc ∈ (recv rtpReceiver).encodings,
          enc.ssrc = 0 ∨ (enc.hasRtx = true ∧ enc.rtx.ssrc = 0) ∨
            (enc.hasFec = true ∧ enc.fec.ssrc = 0)) ∧
    (((∃ ssrc, l.ssrcTable.find ssrc = some rtpReceiver) ∨
        (∃ muxId, l.muxIdTable.find muxId = some rtpReceiver) ∨
        (∃ payloadType, l.ptTable.find payloadType = some rtpReceiver)) →
      ∀ enc ∈ (recv rtpReceiver).encodings, ∀ s,
        (s = enc.ssrc ∨ s = enc.rtx.ssrc ∨ s = enc.fec.ssrc) → s ≠ 0 →
          l.ssrcTable.find s = some rtpReceiver) := by
  obtain ⟨h1, h2, h3⟩ := hreach.inv rtpReceiver
  refine ⟨h1, ?_, ?_⟩
  · intro k hk
    obtain ⟨ha, hb⟩ := h2 k hk
    exact ⟨(mem_ptsOf _ _).1 ha, (lacks_iff _).1 hb⟩
  · intro href enc he s hs hs0
    exact h3 href s ((mem_ssrcsOf _ _).2 ⟨hs0, enc, he, hs⟩)

/-- Witness of C4: the listener that holds receiver 3 (muxId, payload type 96, an encoding
without ssrc) is reachable, and receiver 3 does own a muxId and a payload type entry. -/
theorem Reachable_invariant_witness :
    listenerWith3.muxIdTable.find "mid" = some 3 ∧ listenerWith3.ptTable.find 96 = some 3 ∧
    ((∀ muxId, listenerWith3.muxIdTable.find muxId = some 3 →
        muxId = (sampleReceivers 3).muxId ∧ muxId ≠ "") ∧
    (∀ payloadType, listenerWith3.ptTable.find payloadType = some 3 →
        (∃ c ∈ (sampleReceivers 3).codecs, c.payloadType = payloadType) ∧
        ∃ enc ∈ (sampleReceivers 3).encodings,
          enc.ssrc = 0 ∨ (enc.hasRtx = true ∧ enc.rtx.ssrc = 0) ∨
            (enc.hasFec = true ∧ enc.fec.ssrc = 0)) ∧
    (((∃ ssrc, listenerWith3.ssrcTable.find ssrc = some 3) ∨
        (∃ muxId, listenerWith3.muxIdTable.find muxId = some 3) ∨
        (∃ payloadType, listenerWith3.ptTable.find payloadType = some 3)) →
      ∀ enc ∈ (sampleReceivers 3).encodings, ∀ s,
        (s = enc.ssrc ∨ s = enc.rtx.ssrc ∨ s = enc.fec.ssrc) → s ≠ 0 →
          listenerWith3.ssrcTable.find s = some 3)) :=
  ⟨by decide, by decide,
    Reachable_invariant sampleReceivers listenerWith3 3 (Reachable.add empty 3 Reachable.start)⟩

/-- C5: if `AddRtpReceiver(R)` returns, the ssrc table afterwards maps every non-zero
`encoding.ssrc`, `encoding.rtx.ssrc` and `encoding.fec.ssrc` of R to R and is, at every other
key, the table before the call without the entries that pointed to R; the muxId table maps
R's muxId to R when it is not empty and is, at every other key, the table before the call
without R's entries. -/
theorem AddRtpReceiver_success_tables (recv : Receivers) (l l' : RtpListener)
    (rtpReceiver : Nat) (hret : AddRtpReceiver recv l rtpReceiver = .returned l') :
    (∀ ssrc, l'.ssrcTable.find ssrc =
      if ssrc ≠ 0 ∧ ∃ enc ∈ (recv rtpReceiver).encodings,
          ssrc = enc.ssrc ∨ ssrc = enc.rtx.ssrc ∨ ssrc = enc.fec.ssrc then
        some rtpReceiver
      else if l.ssrcTable.find ssrc = some rtpReceiver then none
      else l.ssrcTable.find ssrc) ∧
    (∀ muxId, l'.muxIdTable.find muxId =
      if (recv rtpReceiver).muxId ≠ "" ∧ muxId = (recv rtpReceiver).muxId then
        some rtpReceiver
      else if l.muxIdTable.find muxId = some rtpReceiver then none
      else l.muxIdTable.find muxId) := by
  obtain ⟨_, f1, f2, _⟩ := AddRtpReceiver_returned recv l l' rtpReceiver hret
  refine ⟨fun k => ?_, fun k => ?_⟩
  · rw [f1, Table.find_eraseValue]
    simp only [mem_ssrcsOf]
  · rw [f2, Table.find_eraseValue]

/-- Witness of C5: `AddRtpReceiver` of receiver 1 on empty tables returns. -/
theorem AddRtpReceiver_success_tables_witness :
    AddRtpReceiver sampleReceivers empty 1 = .returned listenerWith1 ∧
    ((∀ ssrc, listenerWith1.ssrcTable.find ssrc =
      if ssrc ≠ 0 ∧ ∃ enc ∈ (sampleReceivers 1).encodings,
          ssrc = enc.ssrc ∨ ssrc = enc.rtx.ssrc ∨ ssrc = enc.fec.ssrc then
        some 1
      else if empty.ssrcTable.find ssrc = some 1 then none
      else empty.ssrcTable.find ssrc) ∧
    (∀ muxId, listenerWith1.muxIdTable.find muxId =
      if (sampleReceivers 1).muxId ≠ "" ∧ muxId = (sampleReceivers 1).muxId then
        some 1
      else if empty.muxIdTable.find muxId = some 1 then none
      else empty.muxIdTable.find muxId)) :=
  ⟨rfl, AddRtpReceiver_success_tables sampleReceivers empty listenerWith1 1 rfl⟩

/-- C6: if `AddRtpReceiver(R)` returns and some encoding of R has ssrc 0, or `hasRtx` with
rtx ssrc 0, or `hasFec` with fec ssrc 0, the payload type table afterwards maps every codec
payload type of R to R; if no encoding is like that (also when R has no encodings), the
payload type table afterwards has no entry pointing to R. -/
theorem AddRtpReceiver_success_ptTable (recv : Receivers) (l l' : RtpListener)
    (rtpReceiver : Nat) (hret : AddRtpReceiver recv l rtpReceiver = .returned l') :
    ((∃ enc ∈ (recv rtpReceiver).encodings,
        enc.ssrc = 0 ∨ (enc.hasRtx = true ∧ enc.rtx.ssrc = 0) ∨
          (enc.hasFec = true ∧ enc.fec.ssrc = 0)) →
      ∀ c ∈ (recv rtpReceiver).codecs, l'.ptTable.find c.payloadType = some rtpReceiver) ∧
    ((¬ ∃ enc ∈ (recv rtpReceiver).encodings,
        enc.ssrc = 0 ∨ (enc.hasRtx = true ∧ enc.rtx.ssrc = 0) ∨
          (enc.hasFec = true ∧ enc.fec.ssrc = 0)) →
      ∀ payloadType, l'.ptTable.find payloadType ≠ some rtpReceiver) := by
  obtain ⟨_, _, _, f3⟩ := AddRtpReceiver_returned recv l l' rtpReceiver hret
  constructor
  · intro hl c hc
    rw [f3, if_pos ⟨(lacks_iff _).2 hl, (mem_ptsOf _ _).2 ⟨c, hc, rfl⟩⟩]
  · intro hl k
    have hl' : ¬ lacks (recv rtpReceiver) := fun h => hl ((lacks_iff _).1 h)
    rw [f3, if_neg (fun h => hl' h.1)]
    exact Table.find_erase_ne _ _ _

/-- Witness of C6: `AddRtpReceiver` of receiver 3, whose only encoding has no ssrc, returns;
payload type 96 then maps to receiver 3. -/
theorem AddRtpReceiver_success_ptTable_witness :
    AddRtpReceiver sampleReceivers empty 3 = .returned listenerWith3 ∧
    listenerWith3.ptTable.find 96 = some 3 ∧
    (((∃ enc ∈ (sampleReceivers 3).encodings,
        enc.ssrc = 0 ∨ (enc.hasRtx = true ∧ enc.rtx.ssrc = 0) ∨
          (enc.hasFec = true ∧ enc.fec.ssrc = 0)) →
      ∀ c ∈ (sampleReceivers 3).codecs, listenerWith3.ptTable.find c.payloadType = some 3) ∧
    ((¬ ∃ enc ∈ (sampleReceivers 3).encodings,
        enc.ssrc = 0 ∨ (enc.hasRtx = true ∧ enc.rtx.ssrc = 0) ∨
          (enc.hasFec = true ∧ enc.fec.ssrc = 0)) →
      ∀ payloadType, listenerWith3.ptTable.find payloadType ≠ some 3)) :=
  ⟨rfl, by decide, AddRtpReceiver_success_ptTable sampleReceivers empty listenerWith3 3 rfl⟩

/-- C7: if `AddRtpReceiver(R)` returns, a second `AddRtpReceiver(R)` right after it returns
too, and leaves the three tables equal, as maps, to what they were after the first call. -/
theorem AddRtpReceiver_idempotent (recv : Receivers) (l l1 : RtpListener) (rtpReceiver : Nat)
    (hret : AddRtpReceiver recv l rtpReceiver = .returned l1) :
    ∃ l2, AddRtpReceiver recv l1 rtpReceiver = .returned l2 ∧
      (∀ ssrc, l2.ssrcTable.find ssrc = l1.ssrcTable.find ssrc) ∧
      (∀ muxId, l2.muxIdTable.find muxId = l1.muxIdTable.find muxId) ∧
      (∀ payloadType, l2.ptTable.find payloadType = l1.ptTable.find payloadType) := by
  obtain ⟨hc, f1, f2, f3⟩ := AddRtpReceiver_returned recv l l1 rtpReceiver hret
  unfold collides at hc
  simp only [not_or] at hc
  obtain ⟨hs, hm, hp⟩ := hc
  have hs' : ∀ k, k ∈ ssrcsOf (recv rtpReceiver).encodings →
      (l.ssrcTable.eraseValue rtpReceiver).other k rtpReceiver = false := by
    intro k hk
    rw [Table.other_erase]
    by_contra hcon
    exact hs ⟨k, hk, by simpa using hcon⟩
  have hm' : ∀ k, ((recv rtpReceiver).muxId ≠ "" ∧ k = (recv rtpReceiver).muxId) →
      (l.muxIdTable.eraseValue rtpReceiver).other k rtpReceiver = false := by
    intro k hk
    rw [Table.other_erase]
    by_contra hcon
    exact hm ⟨hk.1, by rw [← hk.2]; simpa using hcon⟩
  have hp' : ∀ k, (lacks (recv rtpReceiver) ∧ k ∈ ptsOf (recv rtpReceiver)) →
      (l.ptTable.eraseValue rtpReceiver).other k rtpReceiver = false := by
    intro k hk
    rw [Table.other_erase]
    by_contra hcon
    exact hp ⟨hk.1, k, hk.2, by simpa using hcon⟩
  have g1 : ∀ k, (l1.ssrcTable.eraseValue rtpReceiver).find k =
      (l.ssrcTable.eraseValue rtpReceiver).find k := fun k => by
    rw [Table.erase_of_find _ l1.ssrcTable rtpReceiver _ f1 hs' k, Table.erase_erase]
  have g2 : ∀ k, (l1.muxIdTable.eraseValue rtpReceiver).find k =
      (l.muxIdTable.eraseValue rtpReceiver).find k := fun k => by
    rw [Table.erase_of_find _ l1.muxIdTable rtpReceiver _ f2 hm' k, Table.erase_erase]
  have g3 : ∀ k, (l1.ptTable.eraseValue rtpReceiver).find k =
      (l.ptTable.eraseValue rtpReceiver).find k := fun k => by
    rw [Table.erase_of_find _ l1.ptTable rtpReceiver _ f3 hp' k, Table.erase_erase]
  have hc1 : ¬ collides (recv rtpReceiver) l1 rtpReceiver := by
    have o1 : ∀ k, l1.ssrcTable.other k rtpReceiver = l.ssrcTable.other k rtpReceiver :=
      Table.other_congr _ _ _ g1
    have o2 : ∀ k, l1.muxIdTable.other k rtpReceiver = l.muxIdTable.other k rtpReceiver :=
      Table.other_congr _ _ _ g2
    have o3 : ∀ k, l1.ptTable.other k rtpReceiver = l.ptTable.other k rtpReceiver :=
      Table.other_congr _ _ _ g3
    unfold collides
    simp only [o1, o2, o3, not_or]
    exact ⟨hs, hm, hp⟩
  obtain ⟨l2, h2, k1, k2, k3⟩ := AddRtpReceiver_ok recv l1 rtpReceiver hc1
  refine ⟨l2, h2, fun k => ?_, fun k => ?_, fun k => ?_⟩
  · rw [k1, g1, f1]
  · rw [k2, g2, f2]
  · rw [k3, g3, f3]

/-- Witness of C7: `AddRtpReceiver` of receiver 3 on empty tables returns, so it returns
again on the tables it produced. -/
theorem AddRtpReceiver_idempotent_witness :
    AddRtpReceiver sampleReceivers empty 3 = .returned listenerWith3 ∧
    ∃ l2, AddRtpReceiver sampleReceivers listenerWith3 3 = .returned l2 ∧
      (∀ ssrc, l2.ssrcTable.find ssrc = listenerWith3.ssrcTable.find ssrc) ∧
      (∀ muxId, l2.muxIdTable.find muxId = listenerWith3.muxIdTable.find muxId) ∧
      (∀ payloadType, l2.ptTable.find payloadType = listenerWith3.ptTable.find payloadType) :=
  ⟨rfl, AddRtpReceiver_idempotent sampleReceivers empty listenerWith3 3 rfl⟩

theorem GetRtpReceiver_of_hit (recv : Receivers) (l : RtpListener) (packet : RtpPacket)
    (r : Nat) (h : l.ssrcTable.find packet.ssrc = some r) :
    GetRtpReceiver recv l packet =
      (if ∃ c ∈ (recv r).codecs, c.payloadType = packet.payloadType then some r else none,
        l) := by
  unfold GetRtpReceiver
  rw [h]
  simp only [List.any_eq_true, beq_iff_eq]
  split <;> rfl

theorem GetRtpReceiver_of_promotion (recv : Receivers) (l : RtpListener) (packet : RtpPacket)
    (r : Nat) (h1 : l.ssrcTable.find packet.ssrc = none)
    (h2 : l.ptTable.find packet.payloadType = some r) :
    GetRtpReceiver recv l packet =
      (some r, { l with ssrcTable := l.ssrcTable.assign packet.ssrc r }) := by
  unfold GetRtpReceiver
  rw [h1, h2]

theorem GetRtpReceiver_of_miss (recv : Receivers) (l : RtpListener) (packet : RtpPacket)
    (h1 : l.ssrcTable.find packet.ssrc = none)
    (h2 : l.ptTable.find packet.payloadType = none) :
    GetRtpReceiver recv l packet = (none, l) := by
  unfold GetRtpReceiver
  rw [h1, h2]

/-- C8: when the ssrc of the packet is a key of the ssrc table, mapped to R,
`GetRtpReceiver(packet)` returns R if the payload type of the packet is the payload type of
some codec of R and `nullptr` otherwise, and the listener is left as it was; the payload type
table plays no part in the result. -/
theorem GetRtpReceiver_ssrc_hit (recv : Receivers) (l : RtpListener) (packet : RtpPacket)
    (rtpReceiver : Nat) (hhit : l.ssrcTable.find packet.ssrc = some rtpReceiver) :
    GetRtpReceiver recv l packet =
      (if ∃ c ∈ (recv rtpReceiver).codecs, c.payloadType = packet.payloadType then
          some rtpReceiver
        else none, l) :=
  GetRtpReceiver_of_hit recv l packet rtpReceiver hhit

/-- Witness of C8: ssrc 100 belongs to receiver 1, whose only codec has payload type 96; a
packet with ssrc 100 and payload type 98 gets `nullptr` although the payload type table maps
98 to receiver 4. -/
theorem GetRtpReceiver_ssrc_hit_witness :
    listenerWith14.ptTable.find 98 = some 4 ∧
    (GetRtpReceiver sampleReceivers listenerWith14 ⟨100, 98⟩).1 = none ∧
    GetRtpReceiver sampleReceivers listenerWith14 ⟨100, 98⟩ =
      (if ∃ c ∈ (sampleReceivers 1).codecs, c.payloadType = (⟨100, 98⟩ : RtpPacket).payloadType
        then some 1
        else none, listenerWith14) :=
  ⟨by decide, by decide,
    GetRtpReceiver_ssrc_hit sampleReceivers listenerWith14 ⟨100, 98⟩ 1 (by decide)⟩

/-- C9: when the ssrc of the packet is not a key of the ssrc table: if the payload type
table maps the payload type of the packet to R, `GetRtpReceiver(packet)` returns R, the ssrc
table afterwards is the one before plus the entry from the ssrc of the packet to R (so that
`GetRtpReceiver(ssrc)` returns R), and the other two tables are unchanged; if the payload
type table has no entry for the payload type, it returns `nullptr` and changes nothing. -/
theorem GetRtpReceiver_ssrc_miss (recv : Receivers) (l : RtpListener) (packet : RtpPacket)
    (hmiss : l.ssrcTable.find packet.ssrc = none) :
    (∀ rtpReceiver, l.ptTable.find packet.payloadType = some rtpReceiver →
      (GetRtpReceiver recv l packet).1 = some rtpReceiver ∧
      (∀ ssrc, (GetRtpReceiver recv l packet).2.ssrcTable.find ssrc =
        if ssrc = packet.ssrc then some rtpReceiver else l.ssrcTable.find ssrc) ∧
      (GetRtpReceiver recv l packet).2.muxIdTable = l.muxIdTable ∧
      (GetRtpReceiver recv l packet).2.ptTable = l.ptTable ∧
      GetRtpReceiverBySsrc (GetRtpReceiver recv l packet).2 packet.ssrc = some rtpReceiver) ∧
    (l.ptTable.find packet.payloadType = none → GetRtpReceiver recv l packet = (none, l)) := by
  constructor
  · intro r hr
    rw [GetRtpReceiver_of_promotion recv l packet r hmiss hr]
    refine ⟨rfl, fun k => Table.find_assign _ _ _ _, rfl, rfl, ?_⟩
    simp only [GetRtpReceiverBySsrc, Table.find_assign, if_true]
  · intro hn
    exact GetRtpReceiver_of_miss recv l packet hmiss hn

/-- Witness of C9, the promotion scenario: receiver 3 has payload type 96 and no ssrc; the
packet with ssrc 0xCAFEBABE and payload type 96 is not in the ssrc table, is resolved by
payload type, and its ssrc is entered for receiver 3. -/
theorem GetRtpReceiver_ssrc_miss_witness :
    listenerWith3.ptTable.find cafePacket.payloadType = some 3 ∧
    (GetRtpReceiver sampleReceivers listenerWith3 cafePacket).2.ssrcTable.find 0xCAFEBABE =
      some 3 ∧
    ((∀ rtpReceiver, listenerWith3.ptTable.find cafePacket.payloadType = some rtpReceiver →
      (GetRtpReceiver sampleReceivers listenerWith3 cafePacket).1 = some rtpReceiver ∧
      (∀ ssrc, (GetRtpReceiver sampleReceivers listenerWith3 cafePacket).2.ssrcTable.find ssrc =
        if ssrc = cafePacket.ssrc then some rtpReceiver
        else listenerWith3.ssrcTable.find ssrc) ∧
      (GetRtpReceiver sampleReceivers listenerWith3 cafePacket).2.muxIdTable =
        listenerWith3.muxIdTable ∧
      (GetRtpReceiver sampleReceivers listenerWith3 cafePacket).2.ptTable =
        listenerWith3.ptTable ∧
      GetRtpReceiverBySsrc (GetRtpReceiver sampleReceivers listenerWith3 cafePacket).2
        cafePacket.ssrc = some rtpReceiver) ∧
    (listenerWith3.ptTable.find cafePacket.payloadType = none →
      GetRtpReceiver sampleReceivers listenerWith3 cafePacket = (none, listenerWith3))) :=
  ⟨by decide, by decide,
    GetRtpReceiver_ssrc_miss sampleReceivers listenerWith3 cafePacket (by decide)⟩

/-- C10: in every reachable listener state (receiver parameters fixed), a second
`GetRtpReceiver(packet)` right after the first returns what the first returned and leaves
the listener as the first call left it. -/
theorem GetRtpReceiver_twice (recv : Receivers) (l : RtpListener) (packet : RtpPacket)
    (hreach : Reachable recv l) :
    GetRtpReceiver recv (GetRtpReceiver recv l packet).2 packet =
      ((GetRtpReceiver recv l packet).1, (GetRtpReceiver recv l packet).2) := by
  cases h1 : l.ssrcTable.find packet.ssrc with
  | some r0 =>
    have hg := GetRtpReceiver_of_hit recv l packet r0 h1
    rw [hg]
    simp only
    exact hg
  | none =>
    cases h2 : l.ptTable.find packet.payloadType with
    | none =>
      have hg := GetRtpReceiver_of_miss recv l packet h1 h2
      rw [hg]
      simp only
      exact hg
    | some r0 =>
      have hcodec : ∃ c ∈ (recv r0).codecs, c.payloadType = packet.payloadType :=
        (mem_ptsOf _ _).1 ((hreach.inv r0).2.1 _ h2).1
      rw [GetRtpReceiver_of_promotion recv l packet r0 h1 h2]
      simp only
      rw [GetRtpReceiver_of_hit recv _ packet r0 (by simp only [Table.find_assign, if_true]),
        if_pos hcodec]

/-- Witness of C10, the promotion scenario: the first lookup of the packet with ssrc
0xCAFEBABE and payload type 96 promotes it to receiver 3; the second finds the ssrc in the
ssrc table and returns receiver 3 again. -/
theorem GetRtpReceiver_twice_witness :
    (GetRtpReceiver sampleReceivers listenerWith3 cafePacket).1 = some 3 ∧
    listenerWith3.ssrcTable.find cafePacket.ssrc = none ∧
    (GetRtpReceiver sampleReceivers listenerWith3 cafePacket).2.ssrcTable.find cafePacket.ssrc =
      some 3 ∧
    GetRtpReceiver sampleReceivers (GetRtpReceiver sampleReceivers listenerWith3 cafePacket).2
        cafePacket =
      ((GetRtpReceiver sampleReceivers listenerWith3 cafePacket).1,
        (GetRtpReceiver sampleReceivers listenerWith3 cafePacket).2) :=
  ⟨by decide, by decide, by decide,
    GetRtpReceiver_twice sampleReceivers listenerWith3 cafePacket
      (Reachable.add empty 3 Reachable.start)⟩

end RtpListener

/-! ### RTCP NACK feedback item -/

namespace RTCP

theorem ntohs_htons (x : Nat) (h : x < 65536) : ntohs (htons x) = x := by
  unfold ntohs htons
  simp only [Nat.mod_mod]
  omega

namespace FeedbackRtpNackItem

/-- C11: for every 16-bit packet id and every 16-bit bitmask, the item built by the
constructor is serialised by `Serialize` into exactly the first 4 bytes of the buffer, with
4 returned, and `Parse` of those 4 bytes gives an item with the same packet id and the same
bitmask of lost packets. -/
theorem Parse_Serialize_roundtrip (packetId lostPacketBitmask : Nat) (buffer : List Nat)
    (hpid : packetId < 65536) (hmask : lostPacketBitmask < 65536) (hbuf : 4 ≤ buffer.length) :
    ((new packetId lostPacketBitmask).Serialize buffer).1 = 4 ∧
    ((new packetId lostPacketBitmask).Serialize buffer).2.length = buffer.length ∧
    ((new packetId lostPacketBitmask).Serialize buffer).2.drop 4 = buffer.drop 4 ∧
    ∃ parsed,
      Parse (((new packetId lostPacketBitmask).Serialize buffer).2.take 4) 4 = some parsed ∧
      parsed.GetPacketId = packetId ∧ parsed.GetLostPacketBitmask = lostPacketBitmask := by
  refine ⟨rfl, ?_, ?_, ?_⟩
  · simp only [Serialize, Header.bytes, sizeofHeader, List.length_append, List.length_cons,
      List.length_nil, List.length_drop]
    omega
  · simp [Serialize, Header.bytes, sizeofHeader]
  · refine ⟨new packetId lostPacketBitmask, ?_, ?_, ?_⟩
    · simp [Serialize, Header.bytes, sizeofHeader, Parse, Header.ofBytes, new]
    · simp only [GetPacketId, new, Nat.mod_eq_of_lt hpid]
      exact ntohs_htons packetId hpid
    · simp only [GetLostPacketBitmask, new, Nat.mod_eq_of_lt hmask]
      exact ntohs_htons lostPacketBitmask hmask

/-- Witness of C11: packet id 100 and bitmask 5 written into an 8-byte buffer. -/
theorem Parse_Serialize_roundtrip_witness :
    ((new 100 5).Serialize [9, 9, 9, 9, 9, 9, 9, 9]).2 = [0, 100, 0, 5, 9, 9, 9, 9] ∧
    (((new 100 5).Serialize [9, 9, 9, 9, 9, 9, 9, 9]).1 = 4 ∧
    ((new 100 5).Serialize [9, 9, 9, 9, 9, 9, 9, 9]).2.length =
      [9, 9, 9, 9, 9, 9, 9, 9].length ∧
    ((new 100 5).Serialize [9, 9, 9, 9, 9, 9, 9, 9]).2.drop 4 =
      [9, 9, 9, 9, 9, 9, 9, 9].drop 4 ∧
    ∃ parsed,
      Parse (((new 100 5).Serialize [9, 9, 9, 9, 9, 9, 9, 9]).2.take 4) 4 = some parsed ∧
      parsed.GetPacketId = 100 ∧ parsed.GetLostPacketBitmask = 5) :=
  ⟨by decide,
    Parse_Serialize_roundtrip 100 5 [9, 9, 9, 9, 9, 9, 9, 9] (by decide) (by decide)
      (by decide)⟩

/-- C12: `Parse(data, len)` returns no item if and only if `len < 4`; for `len >= 4` (and a
buffer that holds `len` bytes) it returns an item whose packet id is the big-endian value of
bytes 0 and 1 and whose bitmask of lost packets is the big-endian value of bytes 2 and 3,
whatever the further bytes are. -/
theorem Parse_spec (data : List Nat) (len : Nat) (hlen : len ≤ data.length)
    (hbytes : ∀ b ∈ data, b < 256) :
    (Parse data len = none ↔ len < 4) ∧
    (4 ≤ len → ∃ item, Parse data len = some item ∧
      item.GetPacketId = data.getD 0 0 * 256 + data.getD 1 0 ∧
      item.GetLostPacketBitmask = data.getD 2 0 * 256 + data.getD 3 0) := by
  constructor
  · unfold Parse sizeofHeader
    by_cases h : 4 > len
    · simp only [h, if_true, true_iff]
    · simp only [h, if_false, reduceCtorEq, false_iff]
  · intro h4
    refine ⟨{ header := Header.ofBytes data }, ?_, ?_, ?_⟩
    · unfold Parse sizeofHeader
      rw [if_neg (by omega)]
    · have h0 : data.getD 0 0 < 256 := by
        rw [List.getD_eq_getElem data 0 (by omega)]
        exact hbytes _ (List.getElem_mem _)
      have h1 : data.getD 1 0 < 256 := by
        rw [List.getD_eq_getElem data 0 (by omega)]
        exact hbytes _ (List.getElem_mem _)
      simp only [GetPacketId, Header.ofBytes, ntohs, Nat.mod_eq_of_lt h0, Nat.mod_eq_of_lt h1]
    · have h2 : data.getD 2 0 < 256 := by
        rw [List.getD_eq_getElem data 0 (by omega)]
        exact hbytes _ (List.getElem_mem _)
      have h3 : data.getD 3 0 < 256 := by
        rw [List.getD_eq_getElem data 0 (by omega)]
        exact hbytes _ (List.getElem_mem _)
      simp only [GetLostPacketBitmask, Header.ofBytes, ntohs, Nat.mod_eq_of_lt h2,
        Nat.mod_eq_of_lt h3]

/-- Witness of C12: the bytes `00 64 00 05`, followed by two more bytes that are ignored,
give packet id 100 and bitmask `0b0000000000000101`. -/
theorem Parse_spec_witness :
    (Parse [0x00, 0x64, 0x00, 0x05, 0xAB, 0xCD] 6).map GetPacketId = some 100 ∧
    (Parse [0x00, 0x64, 0x00, 0x05, 0xAB, 0xCD] 6).map GetLostPacketBitmask = some 0b101 ∧
    ((Parse [0x00, 0x64, 0x00, 0x05, 0xAB, 0xCD] 6 = none ↔ 6 < 4) ∧
    (4 ≤ 6 → ∃ item, Parse [0x00, 0x64, 0x00, 0x05, 0xAB, 0xCD] 6 = some item ∧
      item.GetPacketId =
        [0x00, 0x64, 0x00, 0x05, 0xAB, 0xCD].getD 0 0 * 256 +
          [0x00, 0x64, 0x00, 0x05, 0xAB, 0xCD].getD 1 0 ∧
      item.GetLostPacketBitmask =
        [0x00, 0x64, 0x00, 0x05, 0xAB, 0xCD].getD 2 0 * 256 +
          [0x00, 0x64, 0x00, 0x05, 0xAB, 0xCD].getD 3 0)) :=
  ⟨by decide, by decide,
    Parse_spec [0x00, 0x64, 0x00, 0x05, 0xAB, 0xCD] 6 (by decide) (by decide)⟩

end FeedbackRtpNackItem

end RTCP

/-! ### `ComputeClusters` as a fold over the deltas -/

namespace RemoteBitrateEstimatorAbsSendTime

theorem clusterStep_eq_feed (s : ClusterLoop) (p q : Probe)
    (h1 : s.prevSendTime = (p.sendTimeMs : Int)) (h2 : s.prevRecvTime = p.recvTimeMs) :
    ((clusterStep s q).clusters, (clusterStep s q).current) =
      feed (s.clusters, s.current)
        ((q.sendTimeMs : Int) - (p.sendTimeMs : Int), q.recvTimeMs - p.recvTimeMs,
          q.payloadSize) ∧
    (clusterStep s q).prevSendTime = (q.sendTimeMs : Int) ∧
    (clusterStep s q).prevRecvTime = q.recvTimeMs := by
  obtain ⟨clusters, current, prevSend, prevRecv⟩ := s
  simp only at h1 h2
  subst h1 h2
  have hp : (p.sendTimeMs : Int) ≥ 0 := Int.ofNat_nonneg _
  refine ⟨?_, rfl, rfl⟩
  unfold clusterStep
  simp only [hp, if_true]
  rfl

theorem foldl_clusterStep (rest : List Probe) (p : Probe) (s : ClusterLoop)
    (h1 : s.prevSendTime = (p.sendTimeMs : Int)) (h2 : s.prevRecvTime = p.recvTimeMs) :
    ((rest.foldl clusterStep s).clusters, (rest.foldl clusterStep s).current) =
      (deltas (p :: rest)).foldl feed (s.clusters, s.current) := by
  induction rest generalizing p s with
  | nil => rfl
  | cons q rest ih =>
    obtain ⟨e1, e2, e3⟩ := clusterStep_eq_feed s p q h1 h2
    rw [List.foldl_cons, ih q (clusterStep s q) e2 e3, e1]
    rfl

theorem ComputeClusters_eq (probes : List Probe) :
    ComputeClusters probes = finish ((deltas probes).foldl feed ([], {})) := by
  cases probes with
  | nil => rfl
  | cons p rest =>
    have h := foldl_clusterStep rest p (clusterStep {} p) rfl rfl
    have hs : clusterStep {} p =
        { clusters := [], current := {}, prevSendTime := (p.sendTimeMs : Int),
          prevRecvTime := p.recvTimeMs } := rfl
    rw [hs] at h
    unfold ComputeClusters clusterFinish finish
    rw [List.foldl_cons, hs, ← h]

theorem length_deltas (probes : List Probe) : (deltas probes).length = probes.length - 1 := by
  induction probes with
  | nil => rfl
  | cons p rest ih =>
    cases rest with
    | nil => rfl
    | cons q rest =>
      simp only [deltas, List.length_cons] at ih ⊢
      omega

theorem deltas_append_singleton (probes : List Probe) (p : Probe) :
    ∃ tail, deltas (probes ++ [p]) = deltas probes ++ tail ∧ tail.length ≤ 1 := by
  induction probes with
  | nil => exact ⟨[], rfl, Nat.zero_le _⟩
  | cons a rest ih =>
    cases rest with
    | nil => exact ⟨_, rfl, Nat.le_refl _⟩
    | cons b rest =>
      obtain ⟨tail, h1, h2⟩ := ih
      refine ⟨tail, ?_, h2⟩
      have h1' : deltas (b :: (rest ++ [p])) = deltas (b :: rest) ++ tail := h1
      show (_, _, _) :: deltas (b :: (rest ++ [p])) = (_, _, _) :: deltas (b :: rest) ++ tail
      rw [h1']
      rfl

/-! ### Counts of the clusters -/

theorem count_AddCluster (clusters : List Cluster) (cluster : Cluster) :
    (AddCluster clusters cluster).map (fun c => c.count) =
      clusters.map (fun c => c.count) ++ [cluster.count] := by
  simp [AddCluster]

theorem feed_counts (s : List Cluster × Cluster) (δ : Int × Int × Nat)
    (h : ∀ c ∈ s.1, kMinClusterSize ≤ c.count) :
    (∀ c ∈ (feed s δ).1, kMinClusterSize ≤ c.count) ∧ held (feed s δ) ≤ held s + 1 := by
  obtain ⟨clusters, current⟩ := s
  simp only at h
  by_cases hab : δ.1 ≥ 1 ∧ δ.2.1 ≥ 1
  · by_cases hw : IsWithinClusterBounds δ.1
        { current with numAboveMinDelta := current.numAboveMinDelta + 1 } = true
    · simp only [feed, hab, and_self, if_true, hw, Bool.not_true, Bool.false_eq_true, if_false,
        held]
      exact ⟨h, by omega⟩
    · by_cases hc : current.count ≥ kMinClusterSize
      · simp only [feed, hab, and_self, if_true, hw, Bool.not_false, hc, held,
          count_AddCluster, List.sum_append, List.sum_cons, List.sum_nil]
        refine ⟨?_, by omega⟩
        intro c hcm
        simp only [AddCluster, List.mem_append, List.mem_singleton] at hcm
        rcases hcm with hcm | hcm
        · exact h c hcm
        · rw [hcm]
          exact hc
      · simp only [feed, hab, and_self, if_true, hw, Bool.not_false, hc, if_false, held]
        exact ⟨h, by omega⟩
  · by_cases hw : IsWithinClusterBounds δ.1 current = true
    · simp only [feed, hab, if_false, hw, Bool.not_true, Bool.false_eq_true, held]
      exact ⟨h, by omega⟩
    · by_cases hc : current.count ≥ kMinClusterSize
      · simp only [feed, hab, if_false, hw, Bool.not_false, if_true, hc, held,
          count_AddCluster, List.sum_append, List.sum_cons, List.sum_nil]
        refine ⟨?_, by omega⟩
        intro c hcm
        simp only [AddCluster, List.mem_append, List.mem_singleton] at hcm
        rcases hcm with hcm | hcm
        · exact h c hcm
        · rw [hcm]
          exact hc
      · simp only [feed, hab, if_false, hw, Bool.not_false, if_true, hc, held]
        exact ⟨h, by omega⟩

theorem foldl_feed_counts (ds : List (Int × Int × Nat)) (s : List Cluster × Cluster)
    (h : ∀ c ∈ s.1, kMinClusterSize ≤ c.count) :
    (∀ c ∈ (ds.foldl feed s).1, kMinClusterSize ≤ c.count) ∧
      held (ds.foldl feed s) ≤ held s + ds.length := by
  induction ds generalizing s with
  | nil => exact ⟨h, Nat.le_refl _⟩
  | cons δ ds ih =>
    obtain ⟨h1, h2⟩ := feed_counts s δ h
    obtain ⟨h3, h4⟩ := ih (feed s δ) h1
    refine ⟨h3, ?_⟩
    simp only [List.foldl_cons, List.length_cons] at h4 ⊢
    omega

theorem finish_counts (s : List Cluster × Cluster)
    (h : ∀ c ∈ s.1, kMinClusterSize ≤ c.count) :
    (∀ c ∈ finish s, kMinClusterSize ≤ c.count) ∧
      ((finish s).map fun c => c.count).sum ≤ held s := by
  unfold finish held
  by_cases hc : s.2.count ≥ kMinClusterSize
  · simp only [hc, if_true, count_AddCluster, List.sum_append, List.sum_cons, List.sum_nil]
    refine ⟨?_, by omega⟩
    intro c hcm
    simp only [AddCluster, List.mem_append, List.mem_singleton] at hcm
    rcases hcm with hcm | hcm
    · exact h c hcm
    · rw [hcm]
      exact hc
  · simp only [hc, if_false]
    exact ⟨h, by omega⟩

theorem ComputeClusters_counts (probes : List Probe) :
    (∀ c ∈ ComputeClusters probes, kMinClusterSize ≤ c.count) ∧
      ((ComputeClusters probes).map fun c => c.count).sum ≤ probes.length - 1 := by
  rw [ComputeClusters_eq]
  have h0 : ∀ c ∈ (([], {}) : List Cluster × Cluster).1, kMinClusterSize ≤ c.count := by
    intro c hc
    cases hc
  obtain ⟨h1, h2⟩ := foldl_feed_counts (deltas probes) ([], {}) h0
  obtain ⟨h3, h4⟩ := finish_counts _ h1
  refine ⟨h3, ?_⟩
  rw [length_deltas] at h2
  have hz : held (([], {}) : List Cluster × Cluster) = 0 := rfl
  omega

/-- C19: every cluster that `ComputeClusters` emits holds at least 4 deltas, the counts of
the emitted clusters add up to at most the number of probes minus one, and a list of fewer
than 5 probes yields no cluster. -/
theorem ComputeClusters_min_size (probes : List Probe) :
    (∀ c ∈ ComputeClusters probes, 4 ≤ c.count) ∧
    ((ComputeClusters probes).map fun c => c.count).sum ≤ probes.length - 1 ∧
    (probes.length < 5 → ComputeClusters probes = []) := by
  obtain ⟨h1, h2⟩ := ComputeClusters_counts probes
  refine ⟨h1, h2, ?_⟩
  intro hlen
  cases hcl : ComputeClusters probes with
  | nil => rfl
  | cons c rest =>
    rw [hcl] at h1 h2
    have hc := h1 c (List.mem_cons_self c rest)
    simp only [List.map_cons, List.sum_cons] at h2
    unfold kMinClusterSize at hc
    omega

/-- C20, the code at the failing input: on nine probes with four deltas of 5 ms followed by
four deltas of 10 ms, the first emitted cluster has count 4 and `numAboveMinDelta` 5, the
second has count 4 and `numAboveMinDelta` 3, although all eight deltas are above the minimum
delta: the delta that ends a cluster is counted in the cluster it ends. -/
theorem ComputeClusters_numAboveMinDelta_misplaced :
    ComputeClusters twoRunProbes =
      [{ sendMeanMs := 5, recvMeanMs := 5, meanSize := 1200, count := 4, numAboveMinDelta := 5 },
        { sendMeanMs := 10, recvMeanMs := 10, meanSize := 1200, count := 4,
          numAboveMinDelta := 3 }] ∧
    deltas twoRunProbes =
      [(5, 5, 1200), (5, 5, 1200), (5, 5, 1200), (5, 5, 1200), (10, 10, 1200), (10, 10, 1200),
        (10, 10, 1200), (10, 10, 1200)] := by
  constructor
  · decide!
  · decide

end RemoteBitrateEstimatorAbsSendTime

/-! ### `FindBestProbe` -/

namespace RemoteBitrateEstimatorAbsSendTime

theorem findBestLoop_eq (clusters : List Cluster) (highest : Int) (bestIt : Option Cluster) :
    findBestLoop clusters highest bestIt = scanMax (scanned clusters) highest bestIt := by
  induction clusters generalizing highest bestIt with
  | nil => rfl
  | cons it rest ih =>
    by_cases hz : it.sendMeanMs = 0 ∨ it.recvMeanMs = 0
    · have hs : scanned (it :: rest) = scanned rest := by
        unfold scanned
        rw [List.filter_cons, if_neg (by simp [hz])]
      rw [hs, ← ih]
      simp only [findBestLoop, hz, if_true]
    · by_cases hp : isProbing it = true
      · have hs : scanned (it :: rest) = it :: scanned rest := by
          unfold scanned
          rw [List.filter_cons, if_pos (by simp [hz]), List.takeWhile_cons, if_pos hp]
        rw [hs]
        simp only [findBestLoop, hz, if_false, hp, if_true, scanMax, ih]
      · have hs : scanned (it :: rest) = [] := by
          unfold scanned
          rw [List.filter_cons, if_pos (by simp [hz]), List.takeWhile_cons, if_neg hp]
        rw [hs]
        simp only [findBestLoop, hz, if_false, hp, Bool.false_eq_true, scanMax]

theorem scanMax_spec (S : List Cluster) (highest : Int) (bestIt : Option Cluster) :
    ((∀ c ∈ S, probeBitrateBps c ≤ highest) → scanMax S highest bestIt = bestIt) ∧
    ((∃ c ∈ S, highest < probeBitrateBps c) →
      ∃ best pre post, scanMax S highest bestIt = some best ∧ S = pre ++ best :: post ∧
        highest < probeBitrateBps best ∧
        (∀ c ∈ pre, probeBitrateBps c < probeBitrateBps best) ∧
        (∀ c ∈ post, probeBitrateBps c ≤ probeBitrateBps best)) := by
  induction S generalizing highest bestIt with
  | nil =>
    refine ⟨fun _ => rfl, ?_⟩
    rintro ⟨c, hc, _⟩
    cases hc
  | cons a S ih =>
    by_cases ha : probeBitrateBps a > highest
    · obtain ⟨ih1, ih2⟩ := ih (probeBitrateBps a) (some a)
      constructor
      · intro hall
        have := hall a (List.mem_cons_self a S)
        omega
      · intro _
        by_cases hex : ∃ c ∈ S, probeBitrateBps a < probeBitrateBps c
        · obtain ⟨best, pre, post, h1, h2, h3, h4, h5⟩ := ih2 hex
          refine ⟨best, a :: pre, post, ?_, ?_, by omega, ?_, h5⟩
          · simp only [scanMax, ha, if_true]
            exact h1
          · rw [h2]
            rfl
          · intro c hc
            rcases List.mem_cons.1 hc with hc | hc
            · rw [hc]
              exact h3
            · exact h4 c hc
        · have hall : ∀ c ∈ S, probeBitrateBps c ≤ probeBitrateBps a := by
            intro c hc
            by_contra hcon
            exact hex ⟨c, hc, by omega⟩
          refine ⟨a, [], S, ?_, rfl, ha, ?_, hall⟩
          · simp only [scanMax, ha, if_true]
            exact ih1 hall
          · intro c hc
            cases hc
    · obtain ⟨ih1, ih2⟩ := ih highest bestIt
      constructor
      · intro hall
        simp only [scanMax, ha, if_false]
        exact ih1 (fun c hc => hall c (List.mem_cons_of_mem a hc))
      · rintro ⟨c, hc, hgt⟩
        have hcS : c ∈ S := by
          rcases List.mem_cons.1 hc with hc | hc
          · rw [hc] at hgt
            exact absurd hgt ha
          · exact hc
        obtain ⟨best, pre, post, h1, h2, h3, h4, h5⟩ := ih2 ⟨c, hcS, hgt⟩
        refine ⟨best, a :: pre, post, ?_, ?_, h3, ?_, h5⟩
        · simp only [scanMax, ha, if_false]
          exact h1
        · rw [h2]
          rfl
        · intro x hx
          rcases List.mem_cons.1 hx with hx | hx
          · rw [hx]
            omega
          · exact h4 x hx

/-- C16 as stated fails: a cluster with non-zero means equal on both sides, a positive
bitrate and `numAboveMinDelta` equal to `count / 2` (2 of 4) meets the test the claim gives,
yet `FindBestProbe` returns `clusters.end()`. -/
theorem FindBestProbe_half_above_rejected :
    FindBestProbe [halfAboveCluster] = none ∧
    halfAboveCluster.sendMeanMs ≠ 0 ∧ halfAboveCluster.recvMeanMs ≠ 0 ∧
    halfAboveCluster.recvMeanMs - halfAboveCluster.sendMeanMs ≤ 2 ∧
    halfAboveCluster.sendMeanMs - halfAboveCluster.recvMeanMs ≤ 5 ∧
    halfAboveCluster.numAboveMinDelta ≥ halfAboveCluster.count / 2 ∧
    0 < min halfAboveCluster.GetSendBitrateBps halfAboveCluster.GetRecvBitrateBps := by
  decide!

/-- The difference of the means is a `float` difference: the cluster of six probes with
send mean 1.4 and receive mean 3.4 has the `float` means 1.39999998 and 3.4000001, whose
exact difference is above 2 and whose `float` difference is 2, and `FindBestProbe` returns
it. -/
theorem FindBestProbe_float_difference :
    (ComputeClusters floatDifferenceProbes).map (fun c => (c.sendMeanMs, c.recvMeanMs)) =
      [(11744051 / 8388608, 14260634 / 4194304)] ∧
    (∀ c ∈ ComputeClusters floatDifferenceProbes,
      c.recvMeanMs - c.sendMeanMs > 2 ∧ toFloat (c.recvMeanMs - c.sendMeanMs) = 2) ∧
    FindBestProbe (ComputeClusters floatDifferenceProbes) =
      (ComputeClusters floatDifferenceProbes).head? ∧
    (FindBestProbe (ComputeClusters floatDifferenceProbes)).isSome = true := by
  decide!

/-- C16, amended: `FindBestProbe` scans the clusters in order, passes over those whose send
or receive mean is 0 and stops at the first other cluster that does not qualify, where a
cluster qualifies when `numAboveMinDelta > count / 2` (integer division) and the two `float`
differences satisfy `recvMeanMs - sendMeanMs <= 2` and `sendMeanMs - recvMeanMs <= 5`, each
difference rounded to `float` before it is compared.  It returns no cluster exactly when no
scanned cluster has a positive bitrate `min(sendBps, recvBps)`, the two bitrates being the
`int` values of the `float` quotients; otherwise it returns a scanned cluster with a positive
bitrate that no scanned cluster exceeds and that every earlier scanned cluster stays strictly
below. -/
theorem FindBestProbe_spec (clusters : List Cluster) :
    (FindBestProbe clusters = none ↔
      ∀ c ∈ (clusters.filter fun it => !decide (it.sendMeanMs = 0 ∨ it.recvMeanMs = 0)).takeWhile
          (fun it => decide (it.numAboveMinDelta > it.count / 2) &&
            (decide (toFloat (it.recvMeanMs - it.sendMeanMs) ≤ 2) &&
              decide (toFloat (it.sendMeanMs - it.recvMeanMs) ≤ 5))),
        min c.GetSendBitrateBps c.GetRecvBitrateBps ≤ 0) ∧
    (∀ best, FindBestProbe clusters = some best →
      ∃ pre post,
        (clusters.filter fun it => !decide (it.sendMeanMs = 0 ∨ it.recvMeanMs = 0)).takeWhile
            (fun it => decide (it.numAboveMinDelta > it.count / 2) &&
              (decide (toFloat (it.recvMeanMs - it.sendMeanMs) ≤ 2) &&
                decide (toFloat (it.sendMeanMs - it.recvMeanMs) ≤ 5))) = pre ++ best :: post ∧
        0 < min best.GetSendBitrateBps best.GetRecvBitrateBps ∧
        (∀ c ∈ pre, min c.GetSendBitrateBps c.GetRecvBitrateBps <
          min best.GetSendBitrateBps best.GetRecvBitrateBps) ∧
        (∀ c ∈ post, min c.GetSendBitrateBps c.GetRecvBitrateBps ≤
          min best.GetSendBitrateBps best.GetRecvBitrateBps)) := by
  obtain ⟨h1, h2⟩ := scanMax_spec (scanned clusters) 0 none
  have he : FindBestProbe clusters = scanMax (scanned clusters) 0 none :=
    findBestLoop_eq clusters 0 none
  constructor
  · constructor
    · intro hn c hc
      by_contra hcon
      have hlt : 0 < probeBitrateBps c := by
        unfold probeBitrateBps
        omega
      obtain ⟨best, _, _, hb, _⟩ := h2 ⟨c, hc, hlt⟩
      rw [he, hb] at hn
      cases hn
    · intro hall
      rw [he]
      exact h1 hall
  · intro best hb
    by_cases hex : ∃ c ∈ scanned clusters, 0 < probeBitrateBps c
    · obtain ⟨best', pre, post, e1, e2, e3, e4, e5⟩ := h2 hex
      rw [he, e1] at hb
      cases hb
      exact ⟨pre, post, e2, e3, e4, e5⟩
    · have hall : ∀ c ∈ scanned clusters, probeBitrateBps c ≤ 0 := by
        intro c hc
        by_contra hcon
        exact hex ⟨c, hc, by omega⟩
      rw [he, h1 hall] at hb
      cases hb

/-! ### `ProcessClusters` -/

/-- C17 as stated fails: thirteen probes in three runs give three clusters, the best of them
sets the estimate of an estimator that has none, and `ProcessClusters` returns
`kBitrateUpdated` with all thirteen probes still in the list. -/
theorem ProcessClusters_keeps_probes_on_update :
    (ComputeClusters (estimatorWith threeRunProbes).probes).length = 3 ∧
    (ProcessClusters (estimatorWith threeRunProbes) 120).1 = .kBitrateUpdated ∧
    (ProcessClusters (estimatorWith threeRunProbes) 120).2.probes.length = 13 := by
  decide!

/-- C17, amended: when `ProcessClusters` computes 3 or more clusters from the current probes
and returns `kNoUpdate`, the probes list is empty when it returns; when it returns
`kBitrateUpdated`, the best cluster has set the estimate and the probes list is left as it
was. -/
theorem ProcessClusters_three_clusters {C : Collaborators} (st : Estimator C) (nowMs : Int)
    (hthree : 3 ≤ (ComputeClusters st.probes).length) :
    ((ProcessClusters st nowMs).1 = .kNoUpdate → (ProcessClusters st nowMs).2.probes = []) ∧
    ((ProcessClusters st nowMs).1 = .kBitrateUpdated →
      (ProcessClusters st nowMs).2.probes = st.probes ∧
      ∃ best, FindBestProbe (ComputeClusters st.probes) = some best ∧
        IsBitrateImproving st (probeBitrateBps best) = true ∧
        (ProcessClusters st nowMs).2.remoteRate =
          C.remoteRate_SetEstimate st.remoteRate (probeBitrateBps best) nowMs) := by
  have hne : (ComputeClusters st.probes).isEmpty = false := by
    cases hcl : ComputeClusters st.probes with
    | nil =>
      rw [hcl] at hthree
      cases hthree
    | cons c rest => rfl
  have hge : (ComputeClusters st.probes).length ≥ kExpectedNumberOfProbes := hthree
  unfold ProcessClusters
  simp only [hne, Bool.false_eq_true, if_false, hge, if_true]
  cases hbest : FindBestProbe (ComputeClusters st.probes) with
  | none =>
    simp only [reduceCtorEq, false_implies, and_true, implies_true]
  | some best =>
    by_cases himp : IsBitrateImproving st (probeBitrateBps best) = true
    · simp only [himp, if_true, reduceCtorEq, false_implies, true_implies, true_and]
      exact ⟨best, rfl, himp, rfl⟩
    · simp only [himp, Bool.false_eq_true, if_false, reduceCtorEq, false_implies, and_true,
        implies_true]

/-- Witness of C17: an estimator with a valid estimate of 2000000 bps and the thirteen probes
in three runs: no cluster beats the estimate, and the probes are cleared. -/
theorem ProcessClusters_three_clusters_witness :
    (ProcessClusters
      { estimatorWith threeRunProbes with remoteRate := (true, 2000000) } 120).2.probes = [] ∧
    (((ProcessClusters
        { estimatorWith threeRunProbes with remoteRate := (true, 2000000) } 120).1 =
          .kNoUpdate →
      (ProcessClusters
        { estimatorWith threeRunProbes with remoteRate := (true, 2000000) } 120).2.probes =
          []) ∧
    ((ProcessClusters
        { estimatorWith threeRunProbes with remoteRate := (true, 2000000) } 120).1 =
          .kBitrateUpdated →
      (ProcessClusters
        { estimatorWith threeRunProbes with remoteRate := (true, 2000000) } 120).2.probes =
          ({ estimatorWith threeRunProbes with remoteRate := (true, 2000000) } :
            Estimator sampleCollaborators).probes ∧
      ∃ best,
        FindBestProbe (ComputeClusters
          ({ estimatorWith threeRunProbes with remoteRate := (true, 2000000) } :
            Estimator sampleCollaborators).probes) = some best ∧
        IsBitrateImproving
          ({ estimatorWith threeRunProbes with remoteRate := (true, 2000000) } :
            Estimator sampleCollaborators) (probeBitrateBps best) = true ∧
        (ProcessClusters
          { estimatorWith threeRunProbes with remoteRate := (true, 2000000) } 120).2.remoteRate =
          sampleCollaborators.remoteRate_SetEstimate
            ({ estimatorWith threeRunProbes with remoteRate := (true, 2000000) } :
              Estimator sampleCollaborators).remoteRate (probeBitrateBps best) 120)) :=
  ⟨by decide!,
    ProcessClusters_three_clusters
      { estimatorWith threeRunProbes with remoteRate := (true, 2000000) } 120 (by decide!)⟩

end RemoteBitrateEstimatorAbsSendTime

/-! ### The emission decision of `IncomingPacketInfo` -/

namespace RemoteBitrateEstimatorAbsSendTime

theorem log2Fuel_eq (fuel n : Nat) (h : n ≤ fuel) : log2Fuel fuel n = Nat.log2 n := by
  induction fuel generalizing n with
  | zero =>
    have : n = 0 := by omega
    subst this
    exact Nat.log2_zero.symm
  | succ fuel ih =>
    rw [log2Fuel, Nat.log2]
    by_cases h2 : n ≥ 2
    · rw [if_pos h2, if_pos h2, ih (n / 2) (by omega)]
    · rw [if_neg h2, if_neg h2]

theorem log2Fuel_spec (n : Nat) (h : n ≠ 0) :
    2 ^ log2Fuel n n ≤ n ∧ n < 2 ^ (log2Fuel n n + 1) := by
  rw [log2Fuel_eq n n (Nat.le_refl n)]
  exact ⟨Nat.log2_self_le h, Nat.lt_log2_self⟩

/-- The rounded integer is at most one half away. -/
theorem abs_roundTiesToEven_sub_le (x : ℚ) : |(roundTiesToEven x : ℚ) - x| ≤ 1 / 2 := by
  have h1 := Int.floor_le x
  have h2 := Int.lt_floor_add_one x
  unfold roundTiesToEven
  rw [abs_le]
  split
  · constructor <;> linarith
  · split
    · push_cast
      constructor <;> linarith
    · split
      · constructor <;> linarith
      · push_cast
        constructor <;> linarith

theorem roundTiesToEven_intCast (n : Int) : roundTiesToEven (n : ℚ) = n := by
  unfold roundTiesToEven
  rw [Int.floor_intCast]
  simp

/-- The exponent `binade x` is that of the binade of `x`, or -126 when `x` is below the
normal range. -/
theorem binade_spec (x : ℚ) (hx : x ≠ 0) :
    -126 ≤ binade x ∧ (binade x = -126 ∨ (2 : ℚ) ^ binade x ≤ |x|) ∧
      |x| < (2 : ℚ) ^ (binade x + 1) := by
  have hn : x.num.natAbs ≠ 0 := by
    intro h
    exact hx (Rat.num_eq_zero.1 (Int.natAbs_eq_zero.1 h))
  obtain ⟨n1, n2⟩ := log2Fuel_spec x.num.natAbs hn
  obtain ⟨d1, d2⟩ := log2Fuel_spec x.den x.den_nz
  have habs : |x| = (x.num.natAbs : ℚ) / (x.den : ℚ) := by
    calc |x| = |(x.num : ℚ) / (x.den : ℚ)| := by rw [Rat.num_div_den]
      _ = (x.num.natAbs : ℚ) / (x.den : ℚ) := by
        rw [abs_div, Nat.abs_cast, Nat.cast_natAbs, Int.cast_abs]
  have hden : (0 : ℚ) < (x.den : ℚ) := by exact_mod_cast x.den_pos
  have two : (0 : ℚ) < 2 := by norm_num
  have n1q : (2 : ℚ) ^ (log2Fuel x.num.natAbs x.num.natAbs : Int) ≤ (x.num.natAbs : ℚ) := by
    rw [zpow_natCast]
    exact_mod_cast n1
  have n2q : (x.num.natAbs : ℚ) < (2 : ℚ) ^ ((log2Fuel x.num.natAbs x.num.natAbs : Int) + 1) := by
    have : ((log2Fuel x.num.natAbs x.num.natAbs : Int) + 1) =
        ((log2Fuel x.num.natAbs x.num.natAbs + 1 : Nat) : Int) := by push_cast; rfl
    rw [this, zpow_natCast]
    exact_mod_cast n2
  have d1q : (2 : ℚ) ^ (log2Fuel x.den x.den : Int) ≤ (x.den : ℚ) := by
    rw [zpow_natCast]
    exact_mod_cast d1
  have d2q : (x.den : ℚ) < (2 : ℚ) ^ ((log2Fuel x.den x.den : Int) + 1) := by
    have : ((log2Fuel x.den x.den : Int) + 1) = ((log2Fuel x.den x.den + 1 : Nat) : Int) := by
      push_cast; rfl
    rw [this, zpow_natCast]
    exact_mod_cast d2
  have hlow : (2 : ℚ) ^ ((log2Fuel x.num.natAbs x.num.natAbs : Int) -
      (log2Fuel x.den x.den : Int) - 1) ≤ |x| := by
    rw [habs, le_div_iff₀ hden]
    have e : ((log2Fuel x.num.natAbs x.num.natAbs : Int) - (log2Fuel x.den x.den : Int) - 1) =
        (log2Fuel x.num.natAbs x.num.natAbs : Int) - ((log2Fuel x.den x.den : Int) + 1) := by
      ring
    rw [e, zpow_sub₀ (by norm_num : (2 : ℚ) ≠ 0)]
    have hpos : (0 : ℚ) < (2 : ℚ) ^ ((log2Fuel x.den x.den : Int) + 1) := zpow_pos two _
    calc (2 : ℚ) ^ (log2Fuel x.num.natAbs x.num.natAbs : Int) /
          (2 : ℚ) ^ ((log2Fuel x.den x.den : Int) + 1) * (x.den : ℚ)
        ≤ (2 : ℚ) ^ (log2Fuel x.num.natAbs x.num.natAbs : Int) /
          (2 : ℚ) ^ ((log2Fuel x.den x.den : Int) + 1) *
            (2 : ℚ) ^ ((log2Fuel x.den x.den : Int) + 1) := by
          apply mul_le_mul_of_nonneg_left d2q.le
          exact div_nonneg (zpow_pos two _).le hpos.le
      _ = (2 : ℚ) ^ (log2Fuel x.num.natAbs x.num.natAbs : Int) := by
          field_simp
      _ ≤ (x.num.natAbs : ℚ) := n1q
  have hup : |x| < (2 : ℚ) ^ ((log2Fuel x.num.natAbs x.num.natAbs : Int) -
      (log2Fuel x.den x.den : Int) + 1) := by
    rw [habs, div_lt_iff₀ hden]
    have e : ((log2Fuel x.num.natAbs x.num.natAbs : Int) - (log2Fuel x.den x.den : Int) + 1) =
        ((log2Fuel x.num.natAbs x.num.natAbs : Int) + 1) - (log2Fuel x.den x.den : Int) := by
      ring
    rw [e, zpow_sub₀ (by norm_num : (2 : ℚ) ≠ 0)]
    have hpos : (0 : ℚ) < (2 : ℚ) ^ (log2Fuel x.den x.den : Int) := zpow_pos two _
    calc (x.num.natAbs : ℚ) < (2 : ℚ) ^ ((log2Fuel x.num.natAbs x.num.natAbs : Int) + 1) := n2q
      _ = (2 : ℚ) ^ ((log2Fuel x.num.natAbs x.num.natAbs : Int) + 1) /
            (2 : ℚ) ^ (log2Fuel x.den x.den : Int) * (2 : ℚ) ^ (log2Fuel x.den x.den : Int) := by
          field_simp
      _ ≤ (2 : ℚ) ^ ((log2Fuel x.num.natAbs x.num.natAbs : Int) + 1) /
            (2 : ℚ) ^ (log2Fuel x.den x.den : Int) * (x.den : ℚ) := by
          apply mul_le_mul_of_nonneg_left d1q
          exact div_nonneg (zpow_pos two _).le hpos.le
  unfold binade
  simp only
  generalize ((log2Fuel x.num.natAbs x.num.natAbs : Int) - (log2Fuel x.den x.den : Int)) = e
    at hlow hup ⊢
  have mono : ∀ a b : Int, a ≤ b → (2 : ℚ) ^ a ≤ (2 : ℚ) ^ b :=
    fun a b h => zpow_le_zpow_right₀ (by norm_num) h
  by_cases hc : (2 : ℚ) ^ e ≤ |x|
  · rw [if_pos hc]
    refine ⟨le_max_right _ _, ?_, ?_⟩
    · rcases le_total e (-126) with h | h
      · left
        exact max_eq_right h
      · right
        rw [max_eq_left h]
        exact hc
    · exact lt_of_lt_of_le hup (mono _ _ (by have := le_max_left e (-126); omega))
  · rw [if_neg hc]
    refine ⟨le_max_right _ _, ?_, ?_⟩
    · rcases le_total (e - 1) (-126) with h | h
      · left
        exact max_eq_right h
      · right
        rw [max_eq_left h]
        exact hlow
    · have hlt : |x| < (2 : ℚ) ^ e := not_le.1 hc
      exact lt_of_lt_of_le hlt (mono _ _ (by have := le_max_left (e - 1) (-126); omega))

theorem toFloat_zero : toFloat 0 = 0 := by
  unfold toFloat
  rw [zero_div]
  have : roundTiesToEven 0 = 0 := roundTiesToEven_intCast 0
  rw [this]
  simp

/-- An integer of less than 24 bits is a `float`. -/
theorem toFloat_intCast (n : Int) (h : |n| < 2 ^ 24) : toFloat (n : ℚ) = (n : ℚ) := by
  by_cases h0 : n = 0
  · subst h0
    simpa using toFloat_zero
  have hx : (n : ℚ) ≠ 0 := by exact_mod_cast h0
  obtain ⟨b1, b2, _⟩ := binade_spec (n : ℚ) hx
  have hle : binade (n : ℚ) ≤ 23 := by
    rcases b2 with b2 | b2
    · omega
    · have hlt : |(n : ℚ)| < (2 : ℚ) ^ (24 : Int) := by
        have h' : ((|n| : Int) : ℚ) < (2 : ℚ) ^ (24 : ℕ) := by exact_mod_cast h
        rw [← Int.cast_abs, show (24 : Int) = ((24 : ℕ) : Int) from rfl, zpow_natCast]
        exact h'
      have := lt_of_le_of_lt b2 hlt
      have := (zpow_lt_zpow_iff_right₀ (by norm_num : (1 : ℚ) < 2)).1 this
      omega
  unfold toFloat
  obtain ⟨k, hk⟩ := Int.eq_ofNat_of_zero_le (by omega : 0 ≤ 23 - binade (n : ℚ))
  have hq : (2 : ℚ) ^ (binade (n : ℚ) - 23) = ((2 : ℚ) ^ k)⁻¹ := by
    have : binade (n : ℚ) - 23 = -(k : Int) := by omega
    rw [this, zpow_neg, zpow_natCast]
  rw [hq, div_inv_eq_mul]
  have hcast : (n : ℚ) * (2 : ℚ) ^ k = ((n * 2 ^ k : Int) : ℚ) := by push_cast; ring
  rw [hcast, roundTiesToEven_intCast]
  push_cast
  field_simp

/-- Values of the rounding on numbers that are no `float`s: 6.6 and 8.6 become the nearest
`float`s 6.5999999 and 8.60000038, the difference of the `float`s 3.4 and 1.4 is exactly 2,
and 2^24 + 1 becomes 2^24, the even one of its two neighbours. -/
theorem toFloat_examples :
    toFloat (33 / 5) = 13841203 / 2097152 ∧
    toFloat (43 / 5) = 4508877 / 524288 ∧
    toFloat (toFloat (17 / 5) - toFloat (7 / 5)) = 2 ∧
    toFloat 16777217 = 16777216 ∧
    toFloat (-(1 / 3)) = -(11184811 / 33554432) := by
  decide!

theorem toFloat_natCast (n : Nat) (h : n < 2 ^ 24) : toFloat (n : ℚ) = (n : ℚ) := by
  have h' : |(n : Int)| < 2 ^ 24 := by
    rw [abs_of_nonneg (Int.ofNat_nonneg n)]
    exact_mod_cast h
  exact_mod_cast toFloat_intCast (n : Int) h'

theorem truncate_of_nonneg (y : ℚ) (h : 0 ≤ y) : truncate y = ⌊y⌋ := by
  unfold truncate
  rw [Int.tdiv_eq_ediv (Rat.num_nonneg.2 h) (Int.ofNat_nonneg _), ← Rat.floor_def]

/-- The `float` quotient of two positive integers of less than 24 bits, converted to `int`,
is their integer quotient: the rounding of the quotient never reaches the next integer. -/
theorem truncate_toFloat_div (S : Nat) (d : Int) (hS : S < 2 ^ 24) (hd : 1 ≤ d)
    (hd' : d < 2 ^ 24) : truncate (toFloat ((S : ℚ) / (d : ℚ))) = (S : Int) / d := by
  have hdq : (0 : ℚ) < (d : ℚ) := by exact_mod_cast (by omega : 0 < d)
  by_cases hS0 : S = 0
  · subst hS0
    simp [toFloat_zero, truncate]
  have hSq : (0 : ℚ) < (S : ℚ) := by exact_mod_cast Nat.pos_of_ne_zero hS0
  have hQ : (0 : ℚ) < (S : ℚ) / (d : ℚ) := div_pos hSq hdq
  obtain ⟨b1, b2, _⟩ := binade_spec ((S : ℚ) / (d : ℚ)) hQ.ne'
  set e := binade ((S : ℚ) / (d : ℚ)) with he
  have two : (0 : ℚ) < 2 := by norm_num
  have hS24 : (S : ℚ) < (2 : ℚ) ^ (24 : Int) := by
    have h' : (S : ℚ) < (2 : ℚ) ^ (24 : ℕ) := by exact_mod_cast hS
    rw [show (24 : Int) = ((24 : ℕ) : Int) from rfl, zpow_natCast]
    exact h'
  have hd24 : (d : ℚ) < (2 : ℚ) ^ (24 : Int) := by
    have h' : (d : ℚ) < (2 : ℚ) ^ (24 : ℕ) := by exact_mod_cast hd'
    rw [show (24 : Int) = ((24 : ℕ) : Int) from rfl, zpow_natCast]
    exact h'
  have hd1 : (1 : ℚ) ≤ (d : ℚ) := by exact_mod_cast hd
  have hQ24 : (S : ℚ) / (d : ℚ) < (2 : ℚ) ^ (24 : Int) :=
    lt_of_le_of_lt (div_le_self hSq.le hd1) hS24
  have hle : e ≤ 23 := by
    rcases b2 with b2 | b2
    · omega
    · rw [abs_of_pos hQ] at b2
      have := (zpow_lt_zpow_iff_right₀ (by norm_num : (1 : ℚ) < 2)).1 (lt_of_le_of_lt b2 hQ24)
      omega
  obtain ⟨k, hk⟩ := Int.eq_ofNat_of_zero_le (by omega : 0 ≤ 23 - e)
  have hq : (2 : ℚ) ^ (e - 23) = ((2 : ℚ) ^ k)⁻¹ := by
    have : e - 23 = -(k : Int) := by omega
    rw [this, zpow_neg, zpow_natCast]
  have hkpos : (0 : ℚ) < (2 : ℚ) ^ k := pow_pos two k
  have hhalf : (2 : ℚ) ^ (e - 23) / 2 < 1 / (d : ℚ) := by
    have e24 : (2 : ℚ) ^ (e - 23) / 2 = (2 : ℚ) ^ (e - 24) := by
      have : e - 24 = (e - 23) - 1 := by ring
      rw [this, zpow_sub_one₀ two.ne', div_eq_mul_inv]
    rw [e24]
    rcases b2 with b2 | b2
    · have h1 : (2 : ℚ) ^ (e - 24) ≤ (2 : ℚ) ^ (-24 : Int) :=
        zpow_le_zpow_right₀ (by norm_num) (by omega)
      have h2 : (2 : ℚ) ^ (-24 : Int) < 1 / (d : ℚ) := by
        rw [zpow_neg, ← one_div]
        exact one_div_lt_one_div_of_lt hdq hd24
      exact lt_of_le_of_lt h1 h2
    · rw [abs_of_pos hQ] at b2
      have h1 : (2 : ℚ) ^ (e - 24) = (2 : ℚ) ^ e / (2 : ℚ) ^ (24 : Int) := zpow_sub₀ two.ne' _ _
      rw [h1]
      have h24 : (0 : ℚ) < (2 : ℚ) ^ (24 : Int) := zpow_pos two _
      calc (2 : ℚ) ^ e / (2 : ℚ) ^ (24 : Int) ≤ (S : ℚ) / (d : ℚ) / (2 : ℚ) ^ (24 : Int) :=
            div_le_div_of_nonneg_right b2 h24.le
        _ = (S : ℚ) / (2 : ℚ) ^ (24 : Int) / (d : ℚ) := by ring
        _ < 1 / (d : ℚ) := by
            apply div_lt_div_of_pos_right _ hdq
            rw [div_lt_one h24]
            exact hS24
  have hF1 : (((S : Int) / d : Int) : ℚ) ≤ (S : ℚ) / (d : ℚ) := by
    rw [le_div_iff₀ hdq]
    have := Int.ediv_mul_le (S : Int) (by omega : d ≠ 0)
    exact_mod_cast this
  have hF2 : (S : ℚ) / (d : ℚ) + 1 / (d : ℚ) ≤ (((S : Int) / d : Int) : ℚ) + 1 := by
    rw [← add_div, div_le_iff₀ hdq]
    have := Int.lt_ediv_add_one_mul_self (S : Int) (by omega : 0 < d)
    have h' : (S : Int) + 1 ≤ ((S : Int) / d + 1) * d := by omega
    exact_mod_cast h'
  have hFnonneg : 0 ≤ (S : Int) / d := Int.ediv_nonneg (Int.ofNat_nonneg _) (by omega)
  have hr := abs_roundTiesToEven_sub_le ((S : ℚ) / (d : ℚ) / (2 : ℚ) ^ (e - 23))
  rw [abs_le] at hr
  obtain ⟨hr1, hr2⟩ := hr
  set R := roundTiesToEven ((S : ℚ) / (d : ℚ) / (2 : ℚ) ^ (e - 23)) with hR
  have hval : toFloat ((S : ℚ) / (d : ℚ)) = (R : ℚ) * (2 : ℚ) ^ (e - 23) := rfl
  rw [hq, div_inv_eq_mul] at hr1 hr2
  rw [hq] at hhalf
  have hlow : ((S : Int) / d) * 2 ^ k ≤ R := by
    have h1 : ((((S : Int) / d) * 2 ^ k : Int) : ℚ) - 1 < (R : ℚ) := by
      push_cast
      have := mul_le_mul_of_nonneg_right hF1 hkpos.le
      linarith
    have h2 : ((S : Int) / d) * 2 ^ k - 1 < R := by exact_mod_cast h1
    omega
  have hhigh : R ≤ ((S : Int) / d + 1) * 2 ^ k - 1 := by
    have h1 : (R : ℚ) < ((((S : Int) / d + 1) * 2 ^ k : Int) : ℚ) := by
      push_cast
      have h3 := mul_le_mul_of_nonneg_right hF2 hkpos.le
      have h4 : 1 / 2 < 1 / (d : ℚ) * (2 : ℚ) ^ k := by
        have := mul_lt_mul_of_pos_right hhalf hkpos
        have e1 : ((2 : ℚ) ^ k)⁻¹ / 2 * (2 : ℚ) ^ k = 1 / 2 := by field_simp
        rw [e1] at this
        exact this
      have h5 : ((S : ℚ) / (d : ℚ) + 1 / (d : ℚ)) * (2 : ℚ) ^ k =
          (S : ℚ) / (d : ℚ) * (2 : ℚ) ^ k + 1 / (d : ℚ) * (2 : ℚ) ^ k := by ring
      linarith
    have h2 : R < ((S : Int) / d + 1) * 2 ^ k := by exact_mod_cast h1
    omega
  have hge : (((S : Int) / d : Int) : ℚ) ≤ toFloat ((S : ℚ) / (d : ℚ)) := by
    rw [hval, hq]
    have h1 : ((((S : Int) / d) * 2 ^ k : Int) : ℚ) ≤ (R : ℚ) := by exact_mod_cast hlow
    push_cast at h1
    rw [le_mul_inv_iff₀ hkpos]
    exact h1
  have hlt : toFloat ((S : ℚ) / (d : ℚ)) < (((S : Int) / d : Int) : ℚ) + 1 := by
    rw [hval, hq]
    have h1 : (R : ℚ) ≤ ((((S : Int) / d + 1) * 2 ^ k - 1 : Int) : ℚ) := by exact_mod_cast hhigh
    push_cast at h1
    rw [mul_inv_lt_iff₀ hkpos]
    linarith
  have hnonneg : 0 ≤ toFloat ((S : ℚ) / (d : ℚ)) := by
    have : (0 : ℚ) ≤ (((S : Int) / d : Int) : ℚ) := by exact_mod_cast hFnonneg
    linarith
  rw [truncate_of_nonneg _ hnonneg, Int.floor_eq_iff]
  exact ⟨hge, hlt⟩

/-! ### Groups of deltas -/

theorem within_eq_near (d : Int) (c : Cluster) (prev : List Int)
    (hc : c.count = prev.length) (hs : c.sendMeanMs = groupSum prev) :
    IsWithinClusterBounds d c = nearGroup prev d := by
  unfold IsWithinClusterBounds nearGroup
  rw [hc, hs]

theorem groupSum_append_singleton (prev : List Int) (d : Int) :
    groupSum (prev ++ [d]) = toFloat (groupSum prev + toFloat (d : ℚ)) := by
  unfold groupSum
  rw [List.foldl_append]
  rfl

theorem feed_near (δ : Int × Int × Nat) (cs : List Cluster) (cur : Cluster) (prev : List Int)
    (hc : cur.count = prev.length) (hs : cur.sendMeanMs = groupSum prev)
    (hnear : nearGroup prev δ.1 = true) :
    (feed (cs, cur) δ).1 = cs ∧ (feed (cs, cur) δ).2.count = (prev ++ [δ.1]).length ∧
    (feed (cs, cur) δ).2.sendMeanMs = groupSum (prev ++ [δ.1]) := by
  rw [groupSum_append_singleton, List.length_append, List.length_singleton, ← hc, ← hs]
  by_cases hab : δ.1 ≥ 1 ∧ δ.2.1 ≥ 1
  · have hw : IsWithinClusterBounds δ.1
        { cur with numAboveMinDelta := cur.numAboveMinDelta + 1 } = true :=
      (within_eq_near δ.1 _ prev hc hs).trans hnear
    simp only [feed, hab, and_self, if_true, hw, Bool.not_true, Bool.false_eq_true, if_false]
  · have hw : IsWithinClusterBounds δ.1 cur = true :=
      (within_eq_near δ.1 _ prev hc hs).trans hnear
    simp only [feed, hab, if_false, hw, Bool.not_true, Bool.false_eq_true, and_self]

theorem feed_far (δ : Int × Int × Nat) (cs : List Cluster) (cur : Cluster) (prev : List Int)
    (hc : cur.count = prev.length) (hs : cur.sendMeanMs = groupSum prev)
    (hfar : nearGroup prev δ.1 = false) :
    ((feed (cs, cur) δ).1.map fun c => c.count) =
      (cs.map fun c => c.count) ++ (if 4 ≤ prev.length then [prev.length] else []) ∧
    (feed (cs, cur) δ).2.count = [δ.1].length ∧
    (feed (cs, cur) δ).2.sendMeanMs = groupSum [δ.1] := by
  have hsum : groupSum [δ.1] = toFloat ((0 : ℚ) + toFloat (δ.1 : ℚ)) := rfl
  rw [hsum, List.length_singleton, ← hc]
  by_cases hab : δ.1 ≥ 1 ∧ δ.2.1 ≥ 1
  · have hw : IsWithinClusterBounds δ.1
        { cur with numAboveMinDelta := cur.numAboveMinDelta + 1 } = false :=
      (within_eq_near δ.1 _ prev hc hs).trans hfar
    by_cases h4 : 4 ≤ cur.count
    · have h4' : cur.count ≥ kMinClusterSize := h4
      simp only [feed, hab, and_self, if_true, hw, Bool.not_false, h4, h4', count_AddCluster]
    · have h4' : ¬ cur.count ≥ kMinClusterSize := h4
      simp only [feed, hab, and_self, if_true, hw, Bool.not_false, h4, h4', if_false,
        List.append_nil]
  · have hw : IsWithinClusterBounds δ.1 cur = false :=
      (within_eq_near δ.1 _ prev hc hs).trans hfar
    by_cases h4 : 4 ≤ cur.count
    · have h4' : cur.count ≥ kMinClusterSize := h4
      simp only [feed, hab, if_false, hw, Bool.not_false, if_true, h4, h4', count_AddCluster,
        and_self]
    · have h4' : ¬ cur.count ≥ kMinClusterSize := h4
      simp only [feed, hab, if_false, hw, Bool.not_false, if_true, h4, h4', List.append_nil,
        and_self]

theorem feed_group (ds : List (Int × Int × Nat)) (cs : List Cluster) (cur : Cluster)
    (prev : List Int) (hc : cur.count = prev.length) (hs : cur.sendMeanMs = groupSum prev)
    (hg : isGroupFrom prev (ds.map fun δ => δ.1) = true) :
    (ds.foldl feed (cs, cur)).1 = cs ∧
    (ds.foldl feed (cs, cur)).2.count = (prev ++ ds.map fun δ => δ.1).length ∧
    (ds.foldl feed (cs, cur)).2.sendMeanMs = groupSum (prev ++ ds.map fun δ => δ.1) := by
  induction ds generalizing cur prev with
  | nil =>
    rw [List.map_nil, List.append_nil]
    exact ⟨rfl, hc, hs⟩
  | cons δ ds ih =>
    simp only [List.map_cons, isGroupFrom, Bool.and_eq_true] at hg
    obtain ⟨e1, e2, e3⟩ := feed_near δ cs cur prev hc hs hg.1
    have e : feed (cs, cur) δ = (cs, (feed (cs, cur) δ).2) := Prod.ext e1 rfl
    obtain ⟨i1, i2, i3⟩ := ih (feed (cs, cur) δ).2 (prev ++ [δ.1]) e2 e3 hg.2
    rw [List.foldl_cons, e]
    simp only [List.map_cons]
    rw [List.append_assoc, List.singleton_append] at i2 i3
    exact ⟨i1, i2, i3⟩

theorem feed_groups (gs : List (List Int)) :
    ∀ (prev : List Int) (cs : List Cluster) (cur : Cluster) (ds : List (Int × Int × Nat)),
      cur.count = prev.length → cur.sendMeanMs = groupSum prev →
      (ds.map fun δ => δ.1) = gs.flatten →
      (∀ g ∈ gs, g ≠ [] ∧ isGroup g = true) →
      List.Chain' breaksAfter (prev :: gs) →
      ((finish (ds.foldl feed (cs, cur))).map fun c => c.count) =
        (cs.map fun c => c.count) ++
          ((prev :: gs).filter fun g => decide (4 ≤ g.length)).map List.length := by
  induction gs with
  | nil =>
    intro prev cs cur ds hc _ hds _ _
    simp only [List.flatten_nil, List.map_eq_nil_iff] at hds
    subst hds
    rw [List.foldl_nil]
    by_cases h4 : 4 ≤ prev.length
    · have h4' : cur.count ≥ kMinClusterSize := by rw [hc]; exact h4
      have hfin : finish (cs, cur) = AddCluster cs cur := by
        unfold finish
        rw [if_pos h4']
      rw [hfin, count_AddCluster, hc]
      simp only [List.filter_cons, h4, decide_True, if_true, List.filter_nil, List.map_cons,
        List.map_nil]
    · have h4' : ¬ cur.count ≥ kMinClusterSize := by rw [hc]; exact h4
      have hfin : finish (cs, cur) = cs := by
        unfold finish
        rw [if_neg h4']
      rw [hfin]
      simp only [List.filter_cons, h4, decide_False, Bool.false_eq_true, if_false,
        List.filter_nil, List.map_nil, List.append_nil]
  | cons g gs ih =>
    intro prev cs cur ds hc hs hds hgs hchain
    obtain ⟨hgne, hgg⟩ := hgs g (List.mem_cons_self g gs)
    rw [List.chain'_cons] at hchain
    obtain ⟨⟨d0, hd0, hfar⟩, hchain'⟩ := hchain
    cases g with
    | nil => exact absurd rfl hgne
    | cons d rest =>
      simp only [List.head?_cons, Option.some.injEq] at hd0
      subst hd0
      rw [List.flatten_cons, List.cons_append] at hds
      obtain ⟨δ, ds', rfl, hδ, hds'⟩ := List.map_eq_cons_iff.1 hds
      obtain ⟨ds1, ds2, rfl, h1, h2⟩ := List.map_eq_append_iff.1 hds'
      have hδ' : δ.1 = d := hδ
      rw [← hδ'] at hfar
      obtain ⟨b1, b2, b3⟩ := feed_far δ cs cur prev hc hs hfar
      have hrest : isGroupFrom [δ.1] (ds1.map fun δ => δ.1) = true := by
        rw [h1, hδ']
        simp only [isGroup, isGroupFrom, Bool.and_eq_true, List.nil_append] at hgg
        exact hgg.2
      obtain ⟨r1, r2, r3⟩ :=
        feed_group ds1 (feed (cs, cur) δ).1 (feed (cs, cur) δ).2 [δ.1] b2 b3 hrest
      rw [h1, hδ', List.singleton_append] at r2 r3
      have e : ds1.foldl feed (feed (cs, cur) δ) =
          ((feed (cs, cur) δ).1, (ds1.foldl feed (feed (cs, cur) δ)).2) := Prod.ext r1 rfl
      have hih := ih (d :: rest) (feed (cs, cur) δ).1 (ds1.foldl feed (feed (cs, cur) δ)).2 ds2
        r2 r3 h2 (fun g' hg' => hgs g' (List.mem_cons_of_mem _ hg')) hchain'
      rw [List.foldl_cons, List.foldl_append, e, hih, b1, List.append_assoc]
      congr 1
      by_cases h4 : 4 ≤ prev.length
      · have hp : (fun g : List Int => decide (4 ≤ g.length)) prev = true := by
          simpa using h4
        have hf : List.filter (fun g : List Int => decide (4 ≤ g.length))
            (prev :: (d :: rest) :: gs) =
            prev :: List.filter (fun g : List Int => decide (4 ≤ g.length))
              ((d :: rest) :: gs) := List.filter_cons_of_pos hp
        rw [if_pos h4, hf]
        rfl
      · have hp : ¬ (fun g : List Int => decide (4 ≤ g.length)) prev = true := by
          simpa using h4
        have hf : List.filter (fun g : List Int => decide (4 ≤ g.length))
            (prev :: (d :: rest) :: gs) =
            List.filter (fun g : List Int => decide (4 ≤ g.length))
              ((d :: rest) :: gs) := List.filter_cons_of_neg hp
        rw [if_neg h4, hf]
        rfl

/-- C14 as stated fails: nine probes whose send deltas alternate between 1 ms and 11 ms have
a send-delta variance of 25, well above 2.5, and `ComputeClusters` produces no cluster at
all. -/
theorem ComputeClusters_alternating_no_cluster :
    sendDeltas alternatingProbes = [1, 11, 1, 11, 1, 11, 1, 11] ∧
    variance (sendDeltas alternatingProbes) = 25 ∧
    variance (sendDeltas alternatingProbes) > 5 / 2 ∧
    ComputeClusters alternatingProbes = [] := by
  decide!

theorem isGroupFrom_append (p a b : List Int) :
    isGroupFrom p (a ++ b) = (isGroupFrom p a && isGroupFrom (p ++ a) b) := by
  induction a generalizing p with
  | nil => simp [isGroupFrom]
  | cons d a ih =>
    have h := ih (p ++ [d])
    rw [List.append_assoc, List.singleton_append] at h
    show (nearGroup p d && isGroupFrom (p ++ [d]) (a ++ b)) =
      ((nearGroup p d && isGroupFrom (p ++ [d]) a) && isGroupFrom (p ++ d :: a) b)
    rw [h, Bool.and_assoc]

theorem isGroup_snoc (cur : List Int) (d : Int) (hcur : isGroup cur = true)
    (hnear : nearGroup cur d = true) : isGroup (cur ++ [d]) = true := by
  unfold isGroup at hcur ⊢
  rw [isGroupFrom_append, hcur]
  simp only [List.nil_append, isGroupFrom, hnear, Bool.and_self]

theorem length_ne_zero_of_far (cur : List Int) (d : Int) (hfar : ¬ nearGroup cur d = true) :
    cur ≠ [] := by
  intro h
  subst h
  exact hfar rfl

theorem splitGroups_flatten (ds : List Int) (cur : List Int) :
    (splitGroups cur ds).flatten = cur ++ ds := by
  induction ds generalizing cur with
  | nil =>
    unfold splitGroups
    by_cases h : cur.length = 0
    · rw [if_pos h, List.length_eq_zero.1 h]
      rfl
    · rw [if_neg h]
      simp
  | cons d rest ih =>
    unfold splitGroups
    by_cases hn : nearGroup cur d = true
    · rw [if_pos hn, ih, List.append_assoc, List.singleton_append]
    · rw [if_neg hn, List.flatten_cons, ih, List.singleton_append]

theorem splitGroups_head (ds : List Int) (cur : List Int) (hcur : cur ≠ []) :
    ∃ g rest, splitGroups cur ds = g :: rest ∧ g.head? = cur.head? := by
  induction ds generalizing cur with
  | nil =>
    unfold splitGroups
    have h : ¬ cur.length = 0 := fun h => hcur (List.length_eq_zero.1 h)
    rw [if_neg h]
    exact ⟨cur, [], rfl, rfl⟩
  | cons d rest ih =>
    unfold splitGroups
    by_cases hn : nearGroup cur d = true
    · rw [if_pos hn]
      obtain ⟨g, r, h1, h2⟩ := ih (cur ++ [d]) (by simp)
      refine ⟨g, r, h1, ?_⟩
      rw [h2]
      cases cur with
      | nil => exact absurd rfl hcur
      | cons c cs => rfl
    · rw [if_neg hn]
      exact ⟨cur, _, rfl, rfl⟩

theorem splitGroups_groups (ds : List Int) (cur : List Int) (hcur : isGroup cur = true) :
    ∀ g ∈ splitGroups cur ds, g ≠ [] ∧ isGroup g = true := by
  induction ds generalizing cur with
  | nil =>
    unfold splitGroups
    by_cases h : cur.length = 0
    · rw [if_pos h]
      intro g hg
      cases hg
    · rw [if_neg h]
      intro g hg
      rw [List.mem_singleton] at hg
      subst hg
      exact ⟨fun hc => h (by rw [hc]; rfl), hcur⟩
  | cons d rest ih =>
    unfold splitGroups
    by_cases hn : nearGroup cur d = true
    · rw [if_pos hn]
      exact ih (cur ++ [d]) (isGroup_snoc cur d hcur hn)
    · rw [if_neg hn]
      intro g hg
      rcases List.mem_cons.1 hg with hg | hg
      · subst hg
        exact ⟨length_ne_zero_of_far _ d hn, hcur⟩
      · exact ih [d] rfl g hg

theorem splitGroups_chain (ds : List Int) (cur : List Int) :
    List.Chain' breaksAfter (splitGroups cur ds) := by
  induction ds generalizing cur with
  | nil =>
    unfold splitGroups
    by_cases h : cur.length = 0
    · rw [if_pos h]
      exact List.chain'_nil
    · rw [if_neg h]
      exact List.chain'_singleton _
  | cons d rest ih =>
    unfold splitGroups
    by_cases hn : nearGroup cur d = true
    · rw [if_pos hn]
      exact ih (cur ++ [d])
    · rw [if_neg hn]
      obtain ⟨g, r, h1, h2⟩ := splitGroups_head rest [d] (by simp)
      rw [h1, List.chain'_cons]
      refine ⟨⟨d, h2, by simpa using hn⟩, ?_⟩
      rw [← h1]
      exact ih [d]

theorem counts_of_groups (probes : List Probe) (groups : List (List Int))
    (hsplit : sendDeltas probes = groups.flatten)
    (hgroups : ∀ g ∈ groups, g ≠ [] ∧ isGroup g = true)
    (hbreaks : List.Chain' breaksAfter groups) :
    ((ComputeClusters probes).map fun c => c.count) =
      (groups.filter fun g => decide (4 ≤ g.length)).map List.length := by
  rw [ComputeClusters_eq]
  cases groups with
  | nil =>
    simp only [sendDeltas, List.flatten_nil, List.map_eq_nil_iff] at hsplit
    rw [hsplit]
    rfl
  | cons g gs =>
    obtain ⟨hgne, hgg⟩ := hgroups g (List.mem_cons_self g gs)
    simp only [sendDeltas, List.flatten_cons] at hsplit
    obtain ⟨ds1, ds2, hds, h1, h2⟩ := List.map_eq_append_iff.1 hsplit
    rw [hds]
    have hfirst : isGroupFrom [] (ds1.map fun δ => δ.1) = true := by
      rw [h1]
      exact hgg
    obtain ⟨r1, r2, r3⟩ := feed_group ds1 [] {} [] rfl rfl hfirst
    rw [h1, List.nil_append] at r2 r3
    have e : ds1.foldl feed ([], {}) = ([], (ds1.foldl feed ([], {})).2) := Prod.ext r1 rfl
    have h := feed_groups gs g [] (ds1.foldl feed ([], {})).2 ds2 r2 r3 h2
      (fun g' hg' => hgroups g' (List.mem_cons_of_mem _ hg')) hbreaks
    rw [List.foldl_append, e, h]
    rfl

/-- C14, amended: the consecutive send deltas of every probe list split into successive
groups, where inside a group every delta lies less than 2.5 ms from the `float` mean of the
deltas before it in the group, and the first delta of every later group lies at least
2.5 ms from the `float` mean of the group before it; and for every such split
`ComputeClusters` produces exactly one cluster for each group of at least 4 deltas, in order
and with the size of the group as count, and none for the smaller groups: so it produces at
least 2 clusters when at least two of the groups have 4 deltas or more, whatever the
variance of the deltas. -/
theorem ComputeClusters_groups (probes : List Probe) :
    (∃ groups : List (List Int),
      sendDeltas probes = groups.flatten ∧
      (∀ g ∈ groups, g ≠ [] ∧ isGroup g = true) ∧
      List.Chain' breaksAfter groups) ∧
    ∀ groups : List (List Int),
      sendDeltas probes = groups.flatten →
      (∀ g ∈ groups, g ≠ [] ∧ isGroup g = true) →
      List.Chain' breaksAfter groups →
      ((ComputeClusters probes).map fun c => c.count) =
        (groups.filter fun g => decide (4 ≤ g.length)).map List.length ∧
      (ComputeClusters probes).length =
        (groups.filter fun g => decide (4 ≤ g.length)).length ∧
      (2 ≤ (groups.filter fun g => decide (4 ≤ g.length)).length →
        2 ≤ (ComputeClusters probes).length) := by
  constructor
  · refine ⟨splitGroups [] (sendDeltas probes), ?_, ?_, ?_⟩
    · rw [splitGroups_flatten, List.nil_append]
    · exact splitGroups_groups _ [] rfl
    · exact splitGroups_chain _ []
  · intro groups hsplit hgroups hbreaks
    have hmap := counts_of_groups probes groups hsplit hgroups hbreaks
    have hlen : (ComputeClusters probes).length =
        (groups.filter fun g => decide (4 ≤ g.length)).length := by
      have := congrArg List.length hmap
      simpa using this
    refine ⟨hmap, hlen, fun h => ?_⟩
    rw [hlen]
    exact h

/-- Witness of C14: the nine probes with the send deltas 5, 5, 6, 5, 10, 10, 11, 10 split
into two groups of four deltas, and `ComputeClusters` gives two clusters. -/
theorem ComputeClusters_groups_witness :
    sendDeltas jitterProbes = [5, 5, 6, 5, 10, 10, 11, 10] ∧
    variance (sendDeltas jitterProbes) > 5 / 2 ∧
    (ComputeClusters jitterProbes).length = 2 ∧
    (((ComputeClusters jitterProbes).map fun c => c.count) =
      ([[5, 5, 6, 5], [10, 10, 11, 10]].filter fun g => decide (4 ≤ g.length)).map
        List.length ∧
    (ComputeClusters jitterProbes).length =
      ([[5, 5, 6, 5], [10, 10, 11, 10]].filter fun g => decide (4 ≤ g.length)).length ∧
    (2 ≤ ([[5, 5, 6, 5], [10, 10, 11, 10]].filter fun g => decide (4 ≤ g.length)).length →
      2 ≤ (ComputeClusters jitterProbes).length)) :=
  ⟨by decide, by decide!, by decide!,
    (ComputeClusters_groups jitterProbes).2 [[5, 5, 6, 5], [10, 10, 11, 10]] (by decide)
      (by
        intro g hg
        simp only [List.mem_cons, List.mem_singleton, List.not_mem_nil, or_false] at hg
        rcases hg with rfl | rfl
        · exact ⟨by decide, by decide!⟩
        · exact ⟨by decide, by decide!⟩)
      (by
        rw [List.chain'_cons]
        exact ⟨⟨10, rfl, by decide!⟩, List.chain'_singleton _⟩)⟩

/-! ### Probes at equal distances -/

theorem deltas_of_chain (d : Int) (s : Nat) (probes : List Probe)
    (hchain : List.Chain'
      (fun p q => (q.sendTimeMs : Int) - (p.sendTimeMs : Int) = d ∧
        q.recvTimeMs - p.recvTimeMs = d) probes)
    (hsize : ∀ p ∈ probes, p.payloadSize = s) :
    deltas probes = List.replicate (probes.length - 1) (d, d, s) := by
  induction probes with
  | nil => rfl
  | cons p rest ih =>
    cases rest with
    | nil => rfl
    | cons q rest =>
      rw [List.chain'_cons] at hchain
      have hq : q.payloadSize = s := hsize q (by simp)
      have ih' := ih hchain.2 (fun x hx => hsize x (List.mem_cons_of_mem p hx))
      simp only [deltas, hchain.1.1, hchain.1.2, hq, List.length_cons, Nat.add_sub_cancel]
        at ih' ⊢
      rw [ih', ← List.replicate_succ]

theorem within_runCluster (d : Int) (s k a : Nat) (hd : 1 ≤ d)
    (hk : ((k : Nat) : Int) * d < 2 ^ 24) :
    IsWithinClusterBounds d { runCluster d s k with numAboveMinDelta := a } = true := by
  unfold IsWithinClusterBounds
  by_cases h0 : k = 0
  · subst h0
    rfl
  · have hk0 : (runCluster d s k).count = k := rfl
    have hsum : (runCluster d s k).sendMeanMs = (k : ℚ) * (d : ℚ) := rfl
    have hkq : (k : ℚ) ≠ 0 := by exact_mod_cast h0
    have hk24 : k < 2 ^ 24 := by
      have : (k : Int) ≤ (k : Int) * d := le_mul_of_one_le_right (Int.ofNat_nonneg k) hd
      have h' : (k : Int) < 2 ^ 24 := by omega
      exact_mod_cast h'
    have hd24 : |d| < 2 ^ 24 := by
      rw [abs_of_nonneg (by omega)]
      have hk1 : (1 : Int) ≤ (k : Int) := by exact_mod_cast Nat.pos_of_ne_zero h0
      have : d ≤ (k : Int) * d := le_mul_of_one_le_left (by omega) hk1
      omega
    simp only [hk0, h0, if_false, hsum, decide_eq_true_eq]
    rw [toFloat_natCast k hk24, mul_div_cancel_left₀ _ hkq, toFloat_intCast d hd24, sub_self,
      toFloat_zero, abs_zero]
    norm_num

theorem feed_uniform (d : Int) (s : Nat) (hd : 1 ≤ d) (m : Nat) (cs : List Cluster) (k : Nat)
    (hsum : ((k + m : Nat) : Int) * d < 2 ^ 24) :
    (List.replicate m (d, d, s)).foldl feed (cs, runCluster d s k) =
      (cs, runCluster d s (k + m)) := by
  induction m generalizing k with
  | zero => rfl
  | succ m ih =>
    have hmono : ∀ j : Nat, j ≤ k + (m + 1) → ((j : Nat) : Int) * d < 2 ^ 24 := by
      intro j hj
      have h1 : ((j : Nat) : Int) ≤ ((k + (m + 1) : Nat) : Int) := by exact_mod_cast hj
      have h2 : ((j : Nat) : Int) * d ≤ ((k + (m + 1) : Nat) : Int) * d :=
        mul_le_mul_of_nonneg_right h1 (by omega)
      omega
    have hw : IsWithinClusterBounds d
        { runCluster d s k with numAboveMinDelta := (runCluster d s k).numAboveMinDelta + 1 } =
          true :=
      within_runCluster d s k _ hd (hmono k (by omega))
    have hd24 : |d| < 2 ^ 24 := by
      rw [abs_of_nonneg (by omega)]
      have := hmono 1 (by omega)
      simpa using this
    have hnext : |((k + 1 : Nat) : Int) * d| < 2 ^ 24 := by
      rw [abs_of_nonneg (mul_nonneg (Int.ofNat_nonneg _) (by omega))]
      exact hmono (k + 1) (by omega)
    have hadd : toFloat ((k : ℚ) * (d : ℚ) + toFloat (d : ℚ)) = ((k + 1 : Nat) : ℚ) * (d : ℚ) := by
      rw [toFloat_intCast d hd24]
      have e : (k : ℚ) * (d : ℚ) + (d : ℚ) = ((((k + 1 : Nat) : Int) * d : Int) : ℚ) := by
        push_cast
        ring
      rw [e, toFloat_intCast _ hnext]
      push_cast
      ring
    have hstep : feed (cs, runCluster d s k) (d, d, s) = (cs, runCluster d s (k + 1)) := by
      have hd' : d ≥ 1 := hd
      simp only [feed, hd', and_self, if_true, hw, Bool.not_true, Bool.false_eq_true, if_false,
        Prod.mk.injEq, true_and]
      simp only [runCluster, Cluster.mk.injEq, and_true]
      exact ⟨hadd, hadd, by ring⟩
    rw [List.replicate_succ, List.foldl_cons, hstep, ih (k + 1) (by
      have e : k + 1 + m = k + (m + 1) := by omega
      rw [e]
      exact hsum)]
    have e : k + 1 + m = k + (m + 1) := by omega
    rw [e]

theorem truncate_div (m : Nat) (d : Int) (hd : 1 ≤ d) :
    truncate ((m : ℚ) / (d : ℚ)) = (m : Int) / d := by
  obtain ⟨n, rfl⟩ := Int.eq_ofNat_of_zero_le (by omega : 0 ≤ d)
  have hnonneg : (0 : ℚ) ≤ (m : ℚ) / ((n : Int) : ℚ) := by positivity
  unfold truncate
  rw [Int.tdiv_eq_ediv (Rat.num_nonneg.2 hnonneg) (Int.ofNat_nonneg _), ← Rat.floor_def]
  have h := Rat.floor_intCast_div_natCast (m : Int) n
  simpa using h

/-- C15 as stated fails: six probes of 2232 bytes sent and received 17 ms apart form one
cluster with mean 17 and mean size 2232, and its send and receive bitrate is 1050353 bps:
the `float` quotient of 17856000 by 17 is rounded up to 1050353.0, above the quotient
1050352.94 that the formula `s*8*1000/d` gives and above its integer part 1050352. -/
theorem ComputeClusters_rounded_bitrate :
    ComputeClusters roundingProbes =
      [{ sendMeanMs := 17, recvMeanMs := 17, meanSize := 2232, count := 5,
          numAboveMinDelta := 5 }] ∧
    (ComputeClusters roundingProbes).map (fun c => c.GetSendBitrateBps) = [1050353] ∧
    (ComputeClusters roundingProbes).map (fun c => c.GetRecvBitrateBps) = [1050353] ∧
    ((2232 * 8 * 1000 : Nat) : Int) / 17 = 1050352 ∧
    ((2232 * 8 * 1000 : Nat) : ℚ) / 17 < 1050353 := by
  decide!

/-- Beyond the bound on the deltas the mean of a cluster need not be the delta: five probes
16777217 ms apart form one cluster whose send and receive mean is 16777216. -/
theorem ComputeClusters_rounded_mean :
    sendDeltas hugeDeltaProbes = [16777217, 16777217, 16777217, 16777217] ∧
    ComputeClusters hugeDeltaProbes =
      [{ sendMeanMs := 16777216, recvMeanMs := 16777216, meanSize := 1200, count := 4,
          numAboveMinDelta := 4 }] := by
  decide!

/-- C15, amended: for every probe list of n >= 5 probes in which every consecutive pair has
the same send delta d >= 1 ms and the same receive delta d, and every probe has payload size
s, where `(n-1)*d` and `s*8*1000` are below 2^24 (the integers that a `float` holds
exactly): `ComputeClusters` produces exactly one cluster, with count n-1, send and receive
mean d, mean size s and `numAboveMinDelta` n-1, whose send and receive bitrate is the
integer quotient of `s*8*1000` by d. -/
theorem ComputeClusters_uniform (probes : List Probe) (n : Nat) (d : Int) (s : Nat)
    (hn : 5 ≤ n) (hlen : probes.length = n) (hd : 1 ≤ d)
    (hchain : List.Chain'
      (fun p q => (q.sendTimeMs : Int) - (p.sendTimeMs : Int) = d ∧
        q.recvTimeMs - p.recvTimeMs = d) probes)
    (hsize : ∀ p ∈ probes, p.payloadSize = s)
    (hsum : ((n - 1 : Nat) : Int) * d < 2 ^ 24) (hbits : s * 8 * 1000 < 2 ^ 24) :
    ComputeClusters probes =
      [{ sendMeanMs := (d : ℚ), recvMeanMs := (d : ℚ), meanSize := s, count := n - 1,
          numAboveMinDelta := n - 1 }] ∧
    ∀ c ∈ ComputeClusters probes,
      c.GetSendBitrateBps = ((s * 8 * 1000 : Nat) : Int) / d ∧
      c.GetRecvBitrateBps = ((s * 8 * 1000 : Nat) : Int) / d := by
  have hpos : 0 < n - 1 := by omega
  have hn1 : (1 : Int) ≤ ((n - 1 : Nat) : Int) := by exact_mod_cast hpos
  have hd24 : d < 2 ^ 24 := by
    have : d ≤ ((n - 1 : Nat) : Int) * d := le_mul_of_one_le_left (by omega) hn1
    omega
  have hn24 : n - 1 < 2 ^ 24 := by
    have : ((n - 1 : Nat) : Int) ≤ ((n - 1 : Nat) : Int) * d :=
      le_mul_of_one_le_right (Int.ofNat_nonneg _) hd
    have h' : ((n - 1 : Nat) : Int) < 2 ^ 24 := by omega
    exact_mod_cast h'
  have hcl : ComputeClusters probes =
      [{ sendMeanMs := (d : ℚ), recvMeanMs := (d : ℚ), meanSize := s, count := n - 1,
          numAboveMinDelta := n - 1 }] := by
    rw [ComputeClusters_eq, deltas_of_chain d s probes hchain hsize, hlen]
    have h0 : ({} : Cluster) = runCluster d s 0 := by
      simp [runCluster]
    rw [h0, feed_uniform d s hd (n - 1) [] 0 (by rw [Nat.zero_add]; exact hsum)]
    have hge : (runCluster d s (0 + (n - 1))).count ≥ kMinClusterSize := by
      show 0 + (n - 1) ≥ 4
      omega
    have hq : ((n - 1 : Nat) : ℚ) ≠ 0 := by
      have : n - 1 ≠ 0 := by omega
      exact_mod_cast this
    have hmean : toFloat (((n - 1 : Nat) : ℚ) * (d : ℚ) / toFloat ((n - 1 : Nat) : ℚ)) =
        (d : ℚ) := by
      rw [toFloat_natCast _ hn24, mul_div_cancel_left₀ _ hq,
        toFloat_intCast d (by rw [abs_of_nonneg (by omega)]; exact hd24)]
    simp only [finish, hge, if_true, AddCluster, List.nil_append, List.cons.injEq, and_true]
    simp only [runCluster, Nat.zero_add, Cluster.mk.injEq, and_true]
    exact ⟨hmean, hmean, Nat.mul_div_cancel_left _ hpos⟩
  refine ⟨hcl, ?_⟩
  intro c hc
  rw [hcl, List.mem_singleton] at hc
  subst hc
  have hbit : truncate (toFloat (toFloat ((s * 8 * 1000 : Nat) : ℚ) / (d : ℚ))) =
      ((s * 8 * 1000 : Nat) : Int) / d := by
    rw [toFloat_natCast _ hbits]
    exact truncate_toFloat_div _ d hbits hd hd24
  exact ⟨hbit, hbit⟩

/-- Witness of C15: six probes of 1200 bytes sent and received 5 ms apart form one cluster of
five deltas, with a send and receive bitrate of 1920000 bps. -/
theorem ComputeClusters_uniform_witness :
    (((1200 * 8 * 1000 : Nat) : Int) / 5 = 1920000) ∧
    (ComputeClusters sixProbes =
      [{ sendMeanMs := ((5 : Int) : ℚ), recvMeanMs := ((5 : Int) : ℚ), meanSize := 1200,
          count := 6 - 1, numAboveMinDelta := 6 - 1 }] ∧
    ∀ c ∈ ComputeClusters sixProbes,
      c.GetSendBitrateBps = ((1200 * 8 * 1000 : Nat) : Int) / 5 ∧
      c.GetRecvBitrateBps = ((1200 * 8 * 1000 : Nat) : Int) / 5) :=
  ⟨by decide,
    ComputeClusters_uniform sixProbes 6 5 1200 (by decide) (by decide) (by decide)
      (by simp [sixProbes, probesOf]) (by decide) (by decide) (by decide)⟩

end RemoteBitrateEstimatorAbsSendTime

/-! ### The probes list across `IncomingPacketInfo` calls -/

namespace RemoteBitrateEstimatorAbsSendTime

theorem AddCluster_ne_nil (clusters : List Cluster) (cluster : Cluster) :
    AddCluster clusters cluster ≠ [] := by
  simp [AddCluster]

theorem finish_eq_nil (s : List Cluster × Cluster) :
    finish s = [] ↔ s.1 = [] ∧ ¬ s.2.count ≥ kMinClusterSize := by
  unfold finish
  by_cases hc : s.2.count ≥ kMinClusterSize
  · simp only [hc, if_true, AddCluster_ne_nil, not_true_eq_false, and_false]
  · simp only [hc, if_false, not_false_eq_true, and_true]

theorem finish_feed_nil (s : List Cluster × Cluster) (δ : Int × Int × Nat)
    (h : finish (feed s δ) = []) : finish s = [] := by
  rw [finish_eq_nil] at h ⊢
  obtain ⟨h1, h2⟩ := h
  obtain ⟨clusters, current⟩ := s
  by_cases hab : δ.1 ≥ 1 ∧ δ.2.1 ≥ 1
  · by_cases hw : IsWithinClusterBounds δ.1
        { current with numAboveMinDelta := current.numAboveMinDelta + 1 } = true
    · simp only [feed, hab, and_self, if_true, hw, Bool.not_true, Bool.false_eq_true,
        if_false] at h1 h2
      refine ⟨h1, ?_⟩
      simp only
      omega
    · by_cases hc : current.count ≥ kMinClusterSize
      · simp only [feed, hab, and_self, if_true, hw, Bool.not_false, hc] at h1
        exact absurd h1 (AddCluster_ne_nil _ _)
      · simp only [feed, hab, and_self, if_true, hw, Bool.not_false, hc, if_false] at h1
        exact ⟨h1, hc⟩
  · by_cases hw : IsWithinClusterBounds δ.1 current = true
    · simp only [feed, hab, if_false, hw, Bool.not_true, Bool.false_eq_true] at h1 h2
      refine ⟨h1, ?_⟩
      simp only
      omega
    · by_cases hc : current.count ≥ kMinClusterSize
      · simp only [feed, hab, if_false, hw, Bool.not_false, if_true, hc] at h1
        exact absurd h1 (AddCluster_ne_nil _ _)
      · simp only [feed, hab, if_false, hw, Bool.not_false, if_true, hc] at h1
        exact ⟨h1, hc⟩

theorem ComputeClusters_append_nil (probes : List Probe) (p : Probe)
    (h : ComputeClusters (probes ++ [p]) = []) : ComputeClusters probes = [] := by
  rw [ComputeClusters_eq] at h ⊢
  obtain ⟨tail, h1, h2⟩ := deltas_append_singleton probes p
  rw [h1, List.foldl_append] at h
  cases tail with
  | nil => exact h
  | cons δ rest =>
    cases rest with
    | nil => exact finish_feed_nil _ δ h
    | cons δ' rest' =>
      simp only [List.length_cons] at h2
      omega

theorem ProcessClusters_probes {C : Collaborators} (st : Estimator C) (nowMs : Int) :
    (ProcessClusters st nowMs).2.totalProbesReceived = st.totalProbesReceived ∧
    (ComputeClusters st.probes = [] →
      (ProcessClusters st nowMs).2.probes =
        if st.probes.length ≥ kMaxProbePackets then st.probes.tail else st.probes) ∧
    (ComputeClusters st.probes ≠ [] →
      (ProcessClusters st nowMs).2.probes = st.probes ∨
        (ProcessClusters st nowMs).2.probes = []) := by
  unfold ProcessClusters
  cases hcl : ComputeClusters st.probes with
  | nil =>
    simp only [List.isEmpty_nil, if_true, ne_eq, not_true_eq_false, false_implies, and_true,
      true_implies]
    split <;> exact ⟨rfl, rfl⟩
  | cons c rest =>
    simp only [List.isEmpty_cons, Bool.false_eq_true, if_false, reduceCtorEq, false_implies,
      ne_eq, not_false_eq_true, true_implies, true_and]
    cases FindBestProbe (c :: rest) with
    | none =>
      simp only
      split
      · exact ⟨rfl, Or.inr rfl⟩
      · exact ⟨rfl, Or.inl rfl⟩
    | some best =>
      simp only
      split
      · exact ⟨rfl, Or.inl rfl⟩
      · split
        · exact ⟨rfl, Or.inr rfl⟩
        · exact ⟨rfl, Or.inl rfl⟩

theorem probingBlock_bounded {C : Collaborators} (st : Estimator C) (sendTimeMs : Nat)
    (arrivalTimeMs : Int) (payloadSize : Nat) (nowMs : Int) (h : Bounded st.probes) :
    Bounded (probingBlock st sendTimeMs arrivalTimeMs payloadSize nowMs).2.probes := by
  unfold probingBlock
  by_cases hp : isProbePacket st payloadSize nowMs = true
  · simp only [hp, if_true]
    obtain ⟨_, h1, h2⟩ := ProcessClusters_probes
      { st with
        probes := st.probes ++ [{ sendTimeMs := sendTimeMs, recvTimeMs := arrivalTimeMs,
                                  payloadSize := payloadSize }]
        totalProbesReceived := st.totalProbesReceived + 1 } nowMs
    simp only at h1 h2
    by_cases hcl : ComputeClusters (st.probes ++
        [{ sendTimeMs := sendTimeMs, recvTimeMs := arrivalTimeMs,
           payloadSize := payloadSize }]) = []
    · have hlen := h (ComputeClusters_append_nil _ _ hcl)
      rw [h1 hcl]
      intro _
      unfold kMaxProbePackets at hlen ⊢
      split
      · simp only [List.length_tail, List.length_append, List.length_cons, List.length_nil]
        omega
      · next hn =>
        simp only [ge_iff_le, not_le] at hn
        exact hn
    · rcases h2 hcl with h3 | h3
      · rw [h3]
        intro hc
        exact absurd hc hcl
      · rw [h3]
        intro _
        exact Nat.zero_lt_succ _
  · simp only [hp, Bool.false_eq_true, if_false]
    exact h

theorem probingBlock_total {C : Collaborators} (st : Estimator C) (sendTimeMs : Nat)
    (arrivalTimeMs : Int) (payloadSize : Nat) (nowMs : Int) :
    (probingBlock st sendTimeMs arrivalTimeMs payloadSize nowMs).2.totalProbesReceived =
      st.totalProbesReceived +
        if payloadSize > 200 ∧ (C.remoteRate_ValidEstimate st.remoteRate = false ∨
            nowMs - st.firstPacketTimeMs < 2000) then 1 else 0 := by
  unfold probingBlock
  by_cases hp : isProbePacket st payloadSize nowMs = true
  · have hc : payloadSize > 200 ∧ (C.remoteRate_ValidEstimate st.remoteRate = false ∨
        nowMs - st.firstPacketTimeMs < 2000) := by
      simpa [isProbePacket, kInitialProbingIntervalMs] using hp
    simp only [hp, if_true, hc, and_self]
    exact (ProcessClusters_probes _ nowMs).1
  · have hc : ¬ (payloadSize > 200 ∧ (C.remoteRate_ValidEstimate st.remoteRate = false ∨
        nowMs - st.firstPacketTimeMs < 2000)) := by
      simpa [isProbePacket, kInitialProbingIntervalMs] using hp
    simp only [hp, Bool.false_eq_true, if_false, hc, Nat.add_zero]

theorem refreshIncomingBitrate_probes {C : Collaborators} (st : Estimator C)
    (arrivalTimeMs : Int) (payloadSize : Nat) (nowMs : Int) :
    (refreshIncomingBitrate st arrivalTimeMs payloadSize nowMs).probes = st.probes := by
  unfold refreshIncomingBitrate
  simp only
  split <;> split <;> try split
  all_goals rfl

theorem TimeoutStreams_probes {C : Collaborators} (st : Estimator C) (nowMs : Int) :
    (TimeoutStreams st nowMs).probes = st.probes := by
  unfold TimeoutStreams
  simp only
  split <;> rfl

theorem deltasBlock_probes {C : Collaborators} (st st' : Estimator C) (timestamp : Nat)
    (arrivalTimeMs nowMs : Int) (payloadSize : Nat)
    (h : deltasBlock st timestamp arrivalTimeMs nowMs payloadSize = some st') :
    st'.probes = st.probes := by
  unfold deltasBlock at h
  split at h
  · simp only at h
    split at h
    · cases h
      rfl
    · cases h
      rfl
  · cases h

theorem updateCheck_probes {C : Collaborators} (st : Estimator C) (updateEstimate : Bool)
    (arrivalTimeMs nowMs : Int) :
    (updateCheck st updateEstimate arrivalTimeMs nowMs).2.probes = st.probes := by
  unfold updateCheck
  split
  · split
    · rfl
    · split
      · simp only
        split <;> rfl
      · rfl
  · rfl

theorem updateBlock_probes {C : Collaborators} (st : Estimator C) (updateEstimate : Bool)
    (arrivalTimeMs nowMs : Int) (r : Bool × Nat × List Nat × Estimator C)
    (h : updateBlock st updateEstimate arrivalTimeMs nowMs = some r) :
    r.2.2.2.probes = st.probes := by
  unfold updateBlock at h
  split at h
  · split at h
    · cases h
      rfl
    · cases h
  · cases h
    rfl

theorem emitBlock_probes {C : Collaborators} (st : Estimator C) (updateEstimate : Bool)
    (targetBitrateBps : Nat) (ssrcs : List Nat) (nowMs : Int) :
    (emitBlock st updateEstimate targetBitrateBps ssrcs nowMs).probes = st.probes := by
  unfold emitBlock
  split <;> rfl

theorem IncomingPacketInfo_bounded {C : Collaborators} (st st' : Estimator C)
    (arrivalTimeMs : Int) (sendTime_24bits payloadSize ssrc : Nat) (nowMs : Int)
    (hst : Bounded st.probes)
    (h : IncomingPacketInfo st arrivalTimeMs sendTime_24bits payloadSize ssrc nowMs = some st') :
    Bounded st'.probes := by
  unfold IncomingPacketInfo at h
  split at h
  · next updateEstimate st1 hb =>
    simp only at h
    split at h
    · next r hu =>
      cases h
      rw [emitBlock_probes, updateBlock_probes _ _ _ _ _ hu, updateCheck_probes]
      unfold beforeUpdateCheck at hb
      split at hb
      · simp only at hb
        split at hb
        · next st2 hd =>
          cases hb
          rw [deltasBlock_probes _ _ _ _ _ _ hd]
          apply probingBlock_bounded
          show Bounded (TimeoutStreams _ nowMs).probes
          rw [TimeoutStreams_probes, refreshIncomingBitrate_probes]
          exact hst
        · cases hb
      · cases hb
    · cases h
  · cases h

theorem Reachable.bounded {C : Collaborators} {st : Estimator C} (h : Reachable C st) :
    Bounded st.probes := by
  induction h with
  | fresh =>
    intro _
    exact Nat.zero_lt_succ _
  | packet st st' a t p s n _ hcall ih => exact IncomingPacketInfo_bounded st st' a t p s n ih hcall

theorem Reachable.receiveAll {C : Collaborators} (packets : List (Int × Nat × Nat × Nat × Int))
    (st st' : Estimator C) (h : Reachable C st) (hrun : receiveAll st packets = some st') :
    Reachable C st' := by
  induction packets generalizing st with
  | nil =>
    cases hrun
    exact h
  | cons p rest ih =>
    unfold RemoteBitrateEstimatorAbsSendTime.receiveAll at hrun
    split at hrun
    · next st1 h1 => exact ih st1 (Reachable.packet st st1 _ _ _ _ _ h h1) hrun
    · cases hrun

/-- C13 as stated fails: sixteen packets of 1200 bytes, sent and received 125 ms apart and
all within 2000 ms of the first, leave sixteen probes in the list of an estimator that was
new before them; the sixteenth was appended although `totalProbesReceived` was 15. -/
theorem probes_exceed_kMaxProbePackets :
    ∃ st : Estimator sampleCollaborators,
      Reachable sampleCollaborators st ∧ st.probes.length = 16 ∧ st.totalProbesReceived = 16 ∧
      kMaxProbePackets = 15 := by
  have hrun : (receiveAll (Estimator.fresh sampleCollaborators) sixteenPackets).map
      (fun st => (st.probes.length, st.totalProbesReceived)) = some (16, 16) := by
    decide!
  cases hst : receiveAll (Estimator.fresh sampleCollaborators) sixteenPackets with
  | none =>
    rw [hst] at hrun
    cases hrun
  | some st =>
    rw [hst] at hrun
    simp only [Option.map_some', Option.some.injEq, Prod.mk.injEq] at hrun
    exact ⟨st, Reachable.receiveAll _ _ st Reachable.fresh hst, hrun.1, hrun.2, rfl⟩

theorem refreshIncomingBitrate_fields {C : Collaborators} (st : Estimator C)
    (arrivalTimeMs : Int) (payloadSize : Nat) (nowMs : Int) :
    (refreshIncomingBitrate st arrivalTimeMs payloadSize nowMs).totalProbesReceived =
      st.totalProbesReceived ∧
    (refreshIncomingBitrate st arrivalTimeMs payloadSize nowMs).remoteRate = st.remoteRate ∧
    (refreshIncomingBitrate st arrivalTimeMs payloadSize nowMs).firstPacketTimeMs =
      if st.firstPacketTimeMs = -1 then nowMs else st.firstPacketTimeMs := by
  unfold refreshIncomingBitrate
  simp only
  split <;> (try split) <;> (try split)
  all_goals
    refine ⟨rfl, rfl, ?_⟩
    simp_all

theorem TimeoutStreams_fields {C : Collaborators} (st : Estimator C) (nowMs : Int) :
    (TimeoutStreams st nowMs).totalProbesReceived = st.totalProbesReceived ∧
    (TimeoutStreams st nowMs).remoteRate = st.remoteRate ∧
    (TimeoutStreams st nowMs).firstPacketTimeMs = st.firstPacketTimeMs := by
  unfold TimeoutStreams
  simp only
  split <;> exact ⟨rfl, rfl, rfl⟩

theorem deltasBlock_total {C : Collaborators} (st st' : Estimator C) (timestamp : Nat)
    (arrivalTimeMs nowMs : Int) (payloadSize : Nat)
    (h : deltasBlock st timestamp arrivalTimeMs nowMs payloadSize = some st') :
    st'.totalProbesReceived = st.totalProbesReceived := by
  unfold deltasBlock at h
  split at h
  · simp only at h
    split at h
    · cases h
      rfl
    · cases h
      rfl
  · cases h

theorem updateCheck_total {C : Collaborators} (st : Estimator C) (updateEstimate : Bool)
    (arrivalTimeMs nowMs : Int) :
    (updateCheck st updateEstimate arrivalTimeMs nowMs).2.totalProbesReceived =
      st.totalProbesReceived := by
  unfold updateCheck
  split
  · split
    · rfl
    · split
      · simp only
        split <;> rfl
      · rfl
  · rfl

theorem updateBlock_total {C : Collaborators} (st : Estimator C) (updateEstimate : Bool)
    (arrivalTimeMs nowMs : Int) (r : Bool × Nat × List Nat × Estimator C)
    (h : updateBlock st updateEstimate arrivalTimeMs nowMs = some r) :
    r.2.2.2.totalProbesReceived = st.totalProbesReceived := by
  unfold updateBlock at h
  split at h
  · split at h
    · cases h
      rfl
    · cases h
  · cases h
    rfl

theorem emitBlock_total {C : Collaborators} (st : Estimator C) (updateEstimate : Bool)
    (targetBitrateBps : Nat) (ssrcs : List Nat) (nowMs : Int) :
    (emitBlock st updateEstimate targetBitrateBps ssrcs nowMs).totalProbesReceived =
      st.totalProbesReceived := by
  unfold emitBlock
  split <;> rfl

/-- What the probing block does to the probes list and to the counter of probes. -/
theorem probingBlock_probes {C : Collaborators} (st : Estimator C) (sendTimeMs : Nat)
    (arrivalTimeMs : Int) (payloadSize : Nat) (nowMs : Int) :
    (payloadSize > 200 ∧ (C.remoteRate_ValidEstimate st.remoteRate = false ∨
        nowMs - st.firstPacketTimeMs < 2000) →
      (probingBlock st sendTimeMs arrivalTimeMs payloadSize nowMs).2.totalProbesReceived =
        st.totalProbesReceived + 1 ∧
      (ComputeClusters (st.probes ++ [(⟨sendTimeMs, arrivalTimeMs, payloadSize⟩ : Probe)]) = [] →
        (probingBlock st sendTimeMs arrivalTimeMs payloadSize nowMs).2.probes =
          if (st.probes ++ [(⟨sendTimeMs, arrivalTimeMs, payloadSize⟩ : Probe)]).length ≥ 15 then
            (st.probes ++ [(⟨sendTimeMs, arrivalTimeMs, payloadSize⟩ : Probe)]).tail
          else
            st.probes ++ [(⟨sendTimeMs, arrivalTimeMs, payloadSize⟩ : Probe)]) ∧
      (ComputeClusters (st.probes ++ [(⟨sendTimeMs, arrivalTimeMs, payloadSize⟩ : Probe)]) ≠ [] →
        (probingBlock st sendTimeMs arrivalTimeMs payloadSize nowMs).2.probes =
          st.probes ++ [(⟨sendTimeMs, arrivalTimeMs, payloadSize⟩ : Probe)] ∨
        (probingBlock st sendTimeMs arrivalTimeMs payloadSize nowMs).2.probes = [])) ∧
    (¬ (payloadSize > 200 ∧ (C.remoteRate_ValidEstimate st.remoteRate = false ∨
        nowMs - st.firstPacketTimeMs < 2000)) →
      (probingBlock st sendTimeMs arrivalTimeMs payloadSize nowMs).2.probes = st.probes ∧
      (probingBlock st sendTimeMs arrivalTimeMs payloadSize nowMs).2.totalProbesReceived =
        st.totalProbesReceived) := by
  unfold probingBlock
  by_cases hp : isProbePacket st payloadSize nowMs = true
  · have hc : payloadSize > 200 ∧ (C.remoteRate_ValidEstimate st.remoteRate = false ∨
        nowMs - st.firstPacketTimeMs < 2000) := by
      simpa [isProbePacket, kInitialProbingIntervalMs] using hp
    simp only [hp, if_true]
    obtain ⟨h0, h1, h2⟩ := ProcessClusters_probes
      { st with
        probes := st.probes ++ [(⟨sendTimeMs, arrivalTimeMs, payloadSize⟩ : Probe)]
        totalProbesReceived := st.totalProbesReceived + 1 } nowMs
    exact ⟨fun _ => ⟨h0, h1, h2⟩, fun hn => absurd hc hn⟩
  · have hc : ¬ (payloadSize > 200 ∧ (C.remoteRate_ValidEstimate st.remoteRate = false ∨
        nowMs - st.firstPacketTimeMs < 2000)) := by
      simpa [isProbePacket, kInitialProbingIntervalMs] using hp
    rw [if_neg hp]
    exact ⟨fun h => absurd h hc, fun _ => ⟨rfl, rfl⟩⟩

/-- The probes list and the counter of probes after a call of `IncomingPacketInfo` are those
that the probing block leaves. -/
theorem IncomingPacketInfo_probing {C : Collaborators} (st st' : Estimator C)
    (arrivalTimeMs : Int) (sendTime_24bits payloadSize ssrc : Nat) (nowMs : Int)
    (h : IncomingPacketInfo st arrivalTimeMs sendTime_24bits payloadSize ssrc nowMs = some st') :
    ∃ st0 : Estimator C,
      st0.probes = st.probes ∧ st0.totalProbesReceived = st.totalProbesReceived ∧
      st0.remoteRate = st.remoteRate ∧
      st0.firstPacketTimeMs = (if st.firstPacketTimeMs = -1 then nowMs else st.firstPacketTimeMs) ∧
      st'.probes =
        (probingBlock st0 (shiftedTimestamp sendTime_24bits * 1000 / 2 ^ kInterArrivalShift)
          arrivalTimeMs payloadSize nowMs).2.probes ∧
      st'.totalProbesReceived =
        (probingBlock st0 (shiftedTimestamp sendTime_24bits * 1000 / 2 ^ kInterArrivalShift)
          arrivalTimeMs payloadSize nowMs).2.totalProbesReceived := by
  unfold IncomingPacketInfo at h
  split at h
  · next updateEstimate st1 hb =>
    simp only at h
    split at h
    · next r hu =>
      cases h
      rw [emitBlock_probes, updateBlock_probes _ _ _ _ _ hu, updateCheck_probes,
        emitBlock_total, updateBlock_total _ _ _ _ _ hu, updateCheck_total]
      unfold beforeUpdateCheck at hb
      split at hb
      · simp only at hb
        split at hb
        · next st2 hd =>
          cases hb
          rw [deltasBlock_probes _ _ _ _ _ _ hd, deltasBlock_total _ _ _ _ _ _ hd]
          obtain ⟨r1, r2, r3⟩ := refreshIncomingBitrate_fields st arrivalTimeMs payloadSize nowMs
          obtain ⟨t1, t2, t3⟩ :=
            TimeoutStreams_fields (refreshIncomingBitrate st arrivalTimeMs payloadSize nowMs) nowMs
          refine ⟨{ TimeoutStreams (refreshIncomingBitrate st arrivalTimeMs payloadSize nowMs)
              nowMs with
            ssrcs := mapAssign ssrc nowMs
              (TimeoutStreams (refreshIncomingBitrate st arrivalTimeMs payloadSize nowMs)
                nowMs).ssrcs }, ?_, ?_, ?_, ?_, rfl, rfl⟩
          · show (TimeoutStreams _ nowMs).probes = st.probes
            rw [TimeoutStreams_probes, refreshIncomingBitrate_probes]
          · show (TimeoutStreams _ nowMs).totalProbesReceived = st.totalProbesReceived
            rw [t1, r1]
          · show (TimeoutStreams _ nowMs).remoteRate = st.remoteRate
            rw [t2, r2]
          · show (TimeoutStreams _ nowMs).firstPacketTimeMs = _
            rw [t3, r3]
        · cases hb
      · cases hb
    · cases h
  · cases h

/-- C13, amended: after any sequence of `IncomingPacketInfo` calls on a new estimator, for
any behaviour of the rate control, the probes list holds fewer than 15 probes as long as
`ComputeClusters` finds no cluster in it (once it finds one the list can grow beyond 15).
And every further call that returns appends the packet as a probe, and counts it in
`totalProbesReceived`, whenever `payloadSize > 200` and there is no valid estimate or
`nowMs - firstPacketTimeMs < 2000` (`firstPacketTimeMs` being `nowMs` for a first packet),
whatever `totalProbesReceived` is: the list that `ProcessClusters` then works on is the old
list with the new probe at the end, and `ProcessClusters` leaves it as it is, or without its
oldest probe when it yields no cluster and holds 15 probes or more, or empty when it
yields clusters; any other packet leaves the probes list and the counter as they were. -/
theorem probes_bounded_until_cluster {C : Collaborators} (st : Estimator C)
    (hreach : Reachable C st) :
    (ComputeClusters st.probes = [] → st.probes.length < 15) ∧
    (∀ (arrivalTimeMs : Int) (sendTime_24bits payloadSize ssrc : Nat) (nowMs : Int)
        (st' : Estimator C),
      IncomingPacketInfo st arrivalTimeMs sendTime_24bits payloadSize ssrc nowMs = some st' →
      (payloadSize > 200 ∧ (C.remoteRate_ValidEstimate st.remoteRate = false ∨
          nowMs - (if st.firstPacketTimeMs = -1 then nowMs else st.firstPacketTimeMs) < 2000) →
        st'.totalProbesReceived = st.totalProbesReceived + 1 ∧
        (ComputeClusters (st.probes ++
            [probeOfPacket sendTime_24bits arrivalTimeMs payloadSize]) = [] →
          st'.probes =
            if (st.probes ++
                [probeOfPacket sendTime_24bits arrivalTimeMs payloadSize]).length ≥ 15 then
              (st.probes ++
                [probeOfPacket sendTime_24bits arrivalTimeMs payloadSize]).tail
            else
              st.probes ++
                [probeOfPacket sendTime_24bits arrivalTimeMs payloadSize]) ∧
        (ComputeClusters (st.probes ++
            [probeOfPacket sendTime_24bits arrivalTimeMs payloadSize]) ≠ [] →
          st'.probes = st.probes ++
            [probeOfPacket sendTime_24bits arrivalTimeMs payloadSize] ∨
          st'.probes = [])) ∧
      (¬ (payloadSize > 200 ∧ (C.remoteRate_ValidEstimate st.remoteRate = false ∨
          nowMs - (if st.firstPacketTimeMs = -1 then nowMs else st.firstPacketTimeMs) <
            2000)) →
        st'.probes = st.probes ∧ st'.totalProbesReceived = st.totalProbesReceived)) := by
  refine ⟨hreach.bounded, ?_⟩
  intro arrivalTimeMs sendTime_24bits payloadSize ssrc nowMs st' hcall
  obtain ⟨st0, e1, e2, e3, e4, e5, e6⟩ :=
    IncomingPacketInfo_probing st st' arrivalTimeMs sendTime_24bits payloadSize ssrc nowMs hcall
  have hp := probingBlock_probes st0
    (shiftedTimestamp sendTime_24bits * 1000 / 2 ^ kInterArrivalShift) arrivalTimeMs payloadSize
    nowMs
  rw [← e5, ← e6, e1, e2, e3, e4] at hp
  exact hp

/-- Witness of C13: after the first four of the sixteen packets the estimator holds four
probes, which yield no cluster; the call for the fifth packet returns and appends a fifth
probe. -/
theorem probes_bounded_until_cluster_witness :
    (receiveAll (Estimator.fresh sampleCollaborators) (sixteenPackets.take 5)).map
      (fun st => (st.probes.length, st.totalProbesReceived)) = some (5, 5) ∧
    ∃ st : Estimator sampleCollaborators,
      receiveAll (Estimator.fresh sampleCollaborators) (sixteenPackets.take 4) = some st ∧
      st.probes.length = 4 ∧
      ((ComputeClusters st.probes = [] → st.probes.length < 15) ∧
      (∀ (arrivalTimeMs : Int) (sendTime_24bits payloadSize ssrc : Nat) (nowMs : Int)
          (st' : Estimator sampleCollaborators),
        IncomingPacketInfo st arrivalTimeMs sendTime_24bits payloadSize ssrc nowMs = some st' →
        (payloadSize > 200 ∧
            (sampleCollaborators.remoteRate_ValidEstimate st.remoteRate = false ∨
            nowMs - (if st.firstPacketTimeMs = -1 then nowMs else st.firstPacketTimeMs) <
              2000) →
          st'.totalProbesReceived = st.totalProbesReceived + 1 ∧
          (ComputeClusters (st.probes ++
              [probeOfPacket sendTime_24bits arrivalTimeMs payloadSize]) = [] →
            st'.probes =
              if (st.probes ++
                  [probeOfPacket sendTime_24bits arrivalTimeMs payloadSize]).length ≥ 15 then
                (st.probes ++
                  [probeOfPacket sendTime_24bits arrivalTimeMs payloadSize]).tail
              else
                st.probes ++
                  [probeOfPacket sendTime_24bits arrivalTimeMs payloadSize]) ∧
          (ComputeClusters (st.probes ++
              [probeOfPacket sendTime_24bits arrivalTimeMs payloadSize]) ≠ [] →
            st'.probes = st.probes ++
              [probeOfPacket sendTime_24bits arrivalTimeMs payloadSize] ∨
            st'.probes = [])) ∧
        (¬ (payloadSize > 200 ∧
            (sampleCollaborators.remoteRate_ValidEstimate st.remoteRate = false ∨
            nowMs - (if st.firstPacketTimeMs = -1 then nowMs else st.firstPacketTimeMs) <
              2000)) →
          st'.probes = st.probes ∧ st'.totalProbesReceived = st.totalProbesReceived))) := by
  have hrun : (receiveAll (Estimator.fresh sampleCollaborators) (sixteenPackets.take 4)).map
      (fun st => st.probes.length) = some 4 := by
    decide!
  refine ⟨by decide!, ?_⟩
  cases hst : receiveAll (Estimator.fresh sampleCollaborators) (sixteenPackets.take 4) with
  | none =>
    rw [hst] at hrun
    cases hrun
  | some st =>
    rw [hst] at hrun
    simp only [Option.map_some', Option.some.injEq] at hrun
    exact ⟨st, rfl, hrun,
      probes_bounded_until_cluster st (Reachable.receiveAll _ _ st Reachable.fresh hst)⟩

end RemoteBitrateEstimatorAbsSendTime

/-! ### The estimate set by `ProcessClusters` -/

namespace RemoteBitrateEstimatorAbsSendTime

/-- The cast `static_cast<int>` keeps a 32-bit value below 2^31. -/
theorem castInt_of_lt (x : Nat) (h : x < 2 ^ 31) : castInt x = (x : Int) := by
  unfold castInt
  have h1 : x % 2 ^ 32 = x := Nat.mod_eq_of_lt (by omega)
  rw [h1, if_pos h]

theorem IsBitrateImproving_iff {C : Collaborators} (st : Estimator C) (newBitrateBps : Int) :
    IsBitrateImproving st newBitrateBps = true ↔
      (C.remoteRate_ValidEstimate st.remoteRate = false ∧ newBitrateBps > 0) ∨
      (C.remoteRate_ValidEstimate st.remoteRate = true ∧
        newBitrateBps > castInt (C.remoteRate_LatestEstimate st.remoteRate)) := by
  unfold IsBitrateImproving
  cases C.remoteRate_ValidEstimate st.remoteRate <;> simp

/-- The result `kBitrateUpdated` comes with `SetEstimate` of the best cluster's bitrate and
only when `IsBitrateImproving` accepts it; with `kNoUpdate` the rate control is untouched. -/
theorem ProcessClusters_estimate {C : Collaborators} (st : Estimator C) (nowMs : Int) :
    ((ProcessClusters st nowMs).1 = .kBitrateUpdated →
      ∃ best, FindBestProbe (ComputeClusters st.probes) = some best ∧
        IsBitrateImproving st (probeBitrateBps best) = true ∧
        (ProcessClusters st nowMs).2.remoteRate =
          C.remoteRate_SetEstimate st.remoteRate (probeBitrateBps best) nowMs) ∧
    ((ProcessClusters st nowMs).1 = .kNoUpdate →
      (ProcessClusters st nowMs).2.remoteRate = st.remoteRate) := by
  unfold ProcessClusters
  cases ComputeClusters st.probes with
  | nil =>
    simp only [List.isEmpty_nil, if_true]
    split <;> simp
  | cons c rest =>
    simp only [List.isEmpty_cons, Bool.false_eq_true, if_false]
    cases FindBestProbe (c :: rest) with
    | none =>
      simp only
      split <;> simp
    | some best =>
      simp only
      by_cases himp : IsBitrateImproving st (probeBitrateBps best) = true
      · simp only [himp, if_true]
        exact ⟨fun _ => ⟨best, rfl, himp, rfl⟩, fun h => by cases h⟩
      · simp only [himp, Bool.false_eq_true, if_false]
        split <;> simp

/-- C21, the code at the failing input: the rate control holds a valid estimate of
3000000000 bps, which fits 32 bits, and the six uniform probes give a best cluster of
1920000 bps; `ProcessClusters` returns `kBitrateUpdated` and sets the estimate to
1920000 bps, below the estimate it replaces, because the estimate is cast to `int` before
the comparison. -/
theorem ProcessClusters_reduces_high_estimate :
    sampleCollaborators.remoteRate_ValidEstimate estimatorWithHighEstimate.remoteRate = true ∧
    sampleCollaborators.remoteRate_LatestEstimate estimatorWithHighEstimate.remoteRate =
      3000000000 ∧
    3000000000 < 2 ^ 32 ∧
    (FindBestProbe (ComputeClusters estimatorWithHighEstimate.probes)).map probeBitrateBps =
      some 1920000 ∧
    castInt 3000000000 = -1294967296 ∧
    (ProcessClusters estimatorWithHighEstimate 25).1 = .kBitrateUpdated ∧
    sampleCollaborators.remoteRate_LatestEstimate
      (ProcessClusters estimatorWithHighEstimate 25).2.remoteRate = 1920000 := by
  decide!

/-! ### `TimeoutStreams` -/

/-- C22: after `TimeoutStreams(nowMs)` the ssrcs map holds exactly the entries it held before
whose last-seen time `t` satisfies `nowMs - t <= 2000` (an entry silent for exactly 2000 ms
is kept), in the same order; the inter-arrival and overuse-estimator objects are replaced by
new ones when the resulting map is empty and are left as they are when it is not. -/
theorem TimeoutStreams_spec {C : Collaborators} (st : Estimator C) (nowMs : Int) :
    (TimeoutStreams st nowMs).ssrcs =
      st.ssrcs.filter (fun it => decide (nowMs - it.2 ≤ 2000)) ∧
    (∀ ssrc t, (ssrc, t) ∈ (TimeoutStreams st nowMs).ssrcs ↔
      (ssrc, t) ∈ st.ssrcs ∧ nowMs - t ≤ 2000) ∧
    ((TimeoutStreams st nowMs).ssrcs = [] →
      (TimeoutStreams st nowMs).interArrival = some C.newInterArrival ∧
      (TimeoutStreams st nowMs).estimator = some C.newOveruseEstimator) ∧
    ((TimeoutStreams st nowMs).ssrcs ≠ [] →
      (TimeoutStreams st nowMs).interArrival = st.interArrival ∧
      (TimeoutStreams st nowMs).estimator = st.estimator) := by
  have hfilter : st.ssrcs.filter (fun it => !decide (nowMs - it.2 > kStreamTimeOutMs)) =
      st.ssrcs.filter (fun it => decide (nowMs - it.2 ≤ 2000)) := by
    apply List.filter_congr
    intro it _
    unfold kStreamTimeOutMs
    by_cases h : nowMs - it.2 ≤ 2000
    · have h' : ¬ nowMs - it.2 > 2000 := by omega
      simp [h, h']
    · have h' : nowMs - it.2 > 2000 := by omega
      simp [h, h']
  have hss : (TimeoutStreams st nowMs).ssrcs =
      st.ssrcs.filter (fun it => decide (nowMs - it.2 ≤ 2000)) := by
    rw [← hfilter]
    unfold TimeoutStreams
    simp only
    split <;> rfl
  refine ⟨hss, ?_, ?_, ?_⟩
  · intro ssrc t
    rw [hss, List.mem_filter, decide_eq_true_eq]
  · intro hempty
    rw [hss, ← hfilter] at hempty
    unfold TimeoutStreams
    simp only [hempty, List.isEmpty_nil, if_true, and_self]
  · intro hne
    rw [hss, ← hfilter] at hne
    have hfalse : (st.ssrcs.filter
        (fun it => !decide (nowMs - it.2 > kStreamTimeOutMs))).isEmpty = false := by
      cases hl : st.ssrcs.filter (fun it => !decide (nowMs - it.2 > kStreamTimeOutMs)) with
      | nil => exact absurd hl hne
      | cons a l => rfl
    unfold TimeoutStreams
    simp only [hfalse, Bool.false_eq_true, if_false, and_self]

/-! ### The 24-bit send time -/

/-- The truncated `double` product `timestamp * kTimestampToMs` is the integer quotient
that `beforeUpdateCheck` computes for `sendTimeMs`. -/
theorem sendTimeMsOf_eq (timestamp : Nat) :
    sendTimeMsOf timestamp = ((timestamp * 1000 / 2 ^ kInterArrivalShift : Nat) : Int) := by
  unfold sendTimeMsOf kTimestampToMs
  have h : (timestamp : ℚ) * (1000 / (2 ^ kInterArrivalShift : ℚ)) =
      ((timestamp * 1000 : Nat) : ℚ) / (((2 ^ kInterArrivalShift : Nat) : Int) : ℚ) := by
    push_cast
    ring
  have hd : (1 : Int) ≤ ((2 ^ kInterArrivalShift : Nat) : Int) := by
    have : 1 ≤ 2 ^ kInterArrivalShift := Nat.one_le_two_pow
    exact_mod_cast this
  rw [h, truncate_div _ _ hd]
  norm_cast

/-- C23: for every `sendTime_24bits < 2^24`, the shift by 8 bits stays below 2^32 and loses
no bit, and the derived `sendTimeMs` is the integer part of `sendTime_24bits * 1000 / 2^18`,
between 0 and 63999; for every time of at least 0 and less than 64000 ms,
`ConvertMsTo24Bits` is below 2^24, and converting it back in this way gives the time itself
or the millisecond before it. -/
theorem sendTime_conversion (sendTime_24bits : Nat) (timeMs : Int)
    (hsend : sendTime_24bits < 2 ^ 24) (hnonneg : 0 ≤ timeMs) (hlt : timeMs < 64000) :
    (sendTime_24bits * 2 ^ 8 < 2 ^ 32 ∧
      shiftedTimestamp sendTime_24bits = sendTime_24bits * 2 ^ 8 ∧
      sendTimeMsOf (shiftedTimestamp sendTime_24bits) =
        ((sendTime_24bits * 1000 / 2 ^ 18 : Nat) : Int) ∧
      0 ≤ sendTimeMsOf (shiftedTimestamp sendTime_24bits) ∧
      sendTimeMsOf (shiftedTimestamp sendTime_24bits) ≤ 63999) ∧
    (ConvertMsTo24Bits timeMs < 2 ^ 24 ∧
      (sendTimeMsOf (shiftedTimestamp (ConvertMsTo24Bits timeMs)) = timeMs ∨
        sendTimeMsOf (shiftedTimestamp (ConvertMsTo24Bits timeMs)) = timeMs - 1)) := by
  have hshift : ∀ s : Nat, s < 2 ^ 24 → shiftedTimestamp s = s * 2 ^ 8 := by
    intro s hs
    unfold shiftedTimestamp kAbsSendTimeInterArrivalUpshift
    exact Nat.mod_eq_of_lt (by omega)
  have hms : ∀ s : Nat, s < 2 ^ 24 →
      sendTimeMsOf (shiftedTimestamp s) = ((s * 1000 / 2 ^ 18 : Nat) : Int) := by
    intro s hs
    have e : s * 2 ^ 8 * 1000 / 2 ^ 26 = s * 1000 / 2 ^ 18 := by omega
    rw [sendTimeMsOf_eq, hshift s hs, show kInterArrivalShift = 26 from rfl, e]
  constructor
  · refine ⟨by omega, hshift _ hsend, hms _ hsend, ?_, ?_⟩
    · rw [hms _ hsend]
      exact Int.ofNat_nonneg _
    · rw [hms _ hsend]
      have : sendTime_24bits * 1000 / 2 ^ 18 ≤ 63999 := by omega
      exact_mod_cast this
  · obtain ⟨t, rfl⟩ := Int.eq_ofNat_of_zero_le hnonneg
    have ht : t < 64000 := by exact_mod_cast hlt
    have hconv : ConvertMsTo24Bits (t : Int) = (t * 2 ^ 18 + 500) / 1000 := by
      unfold ConvertMsTo24Bits kAbsSendTimeFraction
      have h1 : ((t : Int) % 2 ^ 64).toNat = t := by omega
      have a1 : t * 2 ^ 18 % 2 ^ 64 = t * 2 ^ 18 := Nat.mod_eq_of_lt (by omega)
      have a2 : (t * 2 ^ 18 + 500) % 2 ^ 64 = t * 2 ^ 18 + 500 := Nat.mod_eq_of_lt (by omega)
      have a3 : (t * 2 ^ 18 + 500) / 1000 < 2 ^ 24 := by omega
      have a4 : (t * 2 ^ 18 + 500) / 1000 % 2 ^ 32 = (t * 2 ^ 18 + 500) / 1000 :=
        Nat.mod_eq_of_lt (by omega)
      rw [h1, show (0x00FFFFFF : Nat) = 2 ^ 24 - 1 from rfl, Nat.and_pow_two_sub_one_eq_mod,
        a1, a2, a4, Nat.mod_eq_of_lt a3]
    have hbound : (t * 2 ^ 18 + 500) / 1000 < 2 ^ 24 := by omega
    rw [hconv]
    refine ⟨hbound, ?_⟩
    rw [hms _ hbound]
    have hback : (t * 2 ^ 18 + 500) / 1000 * 1000 / 2 ^ 18 = t ∨
        (t * 2 ^ 18 + 500) / 1000 * 1000 / 2 ^ 18 + 1 = t := by omega
    rcases hback with h | h
    · left
      exact_mod_cast h
    · right
      omega

/-- Witness of C23: the 24-bit send time 32768 is 125 ms, and 1 ms converts to 262 and back
to 0 ms, the millisecond before it. -/
theorem sendTime_conversion_witness :
    sendTimeMsOf (shiftedTimestamp 32768) = 125 ∧ ConvertMsTo24Bits 1 = 262 ∧
    sendTimeMsOf (shiftedTimestamp (ConvertMsTo24Bits 1)) = 0 ∧
    ((32768 * 2 ^ 8 < 2 ^ 32 ∧
      shiftedTimestamp 32768 = 32768 * 2 ^ 8 ∧
      sendTimeMsOf (shiftedTimestamp 32768) = ((32768 * 1000 / 2 ^ 18 : Nat) : Int) ∧
      0 ≤ sendTimeMsOf (shiftedTimestamp 32768) ∧
      sendTimeMsOf (shiftedTimestamp 32768) ≤ 63999) ∧
    (ConvertMsTo24Bits 1 < 2 ^ 24 ∧
      (sendTimeMsOf (shiftedTimestamp (ConvertMsTo24Bits 1)) = 1 ∨
        sendTimeMsOf (shiftedTimestamp (ConvertMsTo24Bits 1)) = 1 - 1))) :=
  ⟨by decide!, by decide!, by decide!,
    sendTime_conversion 32768 1 (by decide) (by decide) (by decide)⟩

end RemoteBitrateEstimatorAbsSendTime

/-! ### The overuse detector -/

/-- C24: a newly constructed `OveruseDetector` reports the state Normal and starts with
threshold 12.5, overusing-time threshold 10, `kUp` 0.0087, `kDown` 0.039, `prevOffset` 0,
`overuseCounter` 0, `timeOverUsing` -1 and `lastUpdateMs` -1; and `State()`, a `const`
method, returns the stored hypothesis of any detector. -/
theorem OveruseDetector_fresh_state :
    OveruseDetector.fresh.State = .kBwNormal ∧
    OveruseDetector.fresh.threshold = 12.5 ∧
    OveruseDetector.fresh.overusingTimeThreshold = 10 ∧
    OveruseDetector.fresh.kUp = 0.0087 ∧
    OveruseDetector.fresh.kDown = 0.039 ∧
    OveruseDetector.fresh.prevOffset = 0 ∧
    OveruseDetector.fresh.overuseCounter = 0 ∧
    OveruseDetector.fresh.timeOverUsing = -1 ∧
    OveruseDetector.fresh.lastUpdateMs = -1 ∧
    ∀ d : OveruseDetector, d.State = d.hypothesis := by
  refine ⟨rfl, ?_, rfl, ?_, ?_, rfl, rfl, rfl, rfl, fun _ => rfl⟩
  · show (25 / 2 : ℚ) = 12.5
    norm_num
  · show (87 / 10000 : ℚ) = 0.0087
    norm_num
  · show (39 / 1000 : ℚ) = 0.039
    norm_num

end RTC
